import Mathlib

/-! OVS dump reader (`ovs/ovsdumpreader.go`)

A shallow embedding of the parser and extraction layer for OpenFlow switch
dump output, and theorems about it.

Conventions of the embedding:

* A Go `string` is a `List Char` (`Str`): texts are taken to be valid UTF-8, so
  that the runes the `regexp` package iterates over are the characters of the
  list.
* A Go `int` is an `Int`; the platform is taken to be a 64-bit one
  (`strconv.IntSize = 64`).  No arithmetic is done on the parsed integers, so the
  only place where the width matters is the clamping done by `strconv.Atoi`.
* A Go `float64` is a parameter of the flow parser (class `GoFloat64`): the source
  only stores the value that `strconv.ParseFloat` returns; `Float64` models the
  type and the conversion.
* Groups live in a memory of Group variables and of buckets (`Heap`): the stats
  parser updates a Group through a pointer and writes its buckets in place.
* A run-time panic (index out of range, nil dereference) is an explicit result
  (`Run.panic`).
* `fmt.Println` calls are output only and are left out.
-/

namespace Ovs

/-- A Go string, as the list of its characters. -/
abbrev Str := List Char

/-! ## The `regexp` package: leftmost-first (backtracking priority) matching -/

/-- Character classes that occur in the patterns of the source. -/
inductive CClass where
  /-- A dot: any character except a newline. -/
  | dot
  /-- A negated one-character set such as `[^,]`: any character but `c`
  (a newline included). -/
  | notChar (c : Char)
  /-- The Perl class `\s`: tab, newline, form feed, carriage return, space. -/
  | space
  /-- The range `[0-9]`. -/
  | digit
  deriving DecidableEq, Repr

/-- Membership test of a character class. -/
def CClass.test : CClass → Char → Bool
  | .dot, x => x != '\n'
  | .notChar c, x => x != c
  | .space, x => x == '\t' || x == '\n' || x == '\x0c' || x == '\r' || x == ' '
  | .digit, x => decide ('0' ≤ x) && decide (x ≤ '9')

/-- Abstract syntax of the regular expressions of the source.  Repetition is
only ever applied to a character class there, so `star` takes a class. -/
inductive RE where
  /-- A literal string. -/
  | lit (w : Str)
  /-- One character of a class. -/
  | cls (c : CClass)
  /-- The class repeated zero or more times, greedy (`x*`) or lazy (`x*?`). -/
  | star (greedy : Bool) (c : CClass)
  /-- Concatenation. -/
  | seq (a b : RE)
  /-- Greedy option `a?`. -/
  | opt (a : RE)
  /-- Capture group number `idx`. -/
  | group (idx : Nat) (a : RE)
  /-- The anchor `$` (end of text, no multi-line flag). -/
  | eot
  deriving Repr

/-- Capture registers: one text per group, group 0 being the whole match. -/
abbrev Caps := List Str

/-- If `w` is a prefix of `s`, the rest of `s` after it. -/
def stripPrefix : Str → Str → Option Str
  | [], s => some s
  | _ :: _, [] => none
  | a :: w, b :: s => if a = b then stripPrefix w s else none

/-- The text consumed between the position with remaining input `s` and a later
position with remaining input `t`. -/
def consumed (s t : Str) : Str := s.take (s.length - t.length)

/-- Greedy repetition of a class: take as many characters as possible, giving
them back one at a time while the continuation fails. -/
def starGreedy (c : CClass) (k : Str → Option Caps) : Str → Option Caps
  | [] => k []
  | x :: s =>
    if c.test x then
      match starGreedy c k s with
      | some r => some r
      | none => k (x :: s)
    else k (x :: s)

/-- Lazy repetition of a class: try the continuation first, and take one more
character each time it fails. -/
def starLazy (c : CClass) (k : Str → Option Caps) : Str → Option Caps
  | [] => k []
  | x :: s =>
    match k (x :: s) with
    | some r => some r
    | none => if c.test x then starLazy c k s else none

/-- Backtracking matcher in continuation-passing style: `run r k s caps` matches
`r` at the start of `s` and hands the remaining input and the capture registers
to `k`; the alternatives are explored in the priority order of the `regexp`
package (leftmost-first). -/
def RE.run : RE → (Str → Caps → Option Caps) → Str → Caps → Option Caps
  | .lit w, k, s, caps =>
    match stripPrefix w s with
    | some t => k t caps
    | none => none
  | .cls c, k, s, caps =>
    match s with
    | [] => none
    | x :: t => if c.test x then k t caps else none
  | .star true c, k, s, caps => starGreedy c (fun t => k t caps) s
  | .star false c, k, s, caps => starLazy c (fun t => k t caps) s
  | .seq a b, k, s, caps => a.run (fun t caps1 => b.run k t caps1) s caps
  | .opt a, k, s, caps =>
    match a.run k s caps with
    | some r => some r
    | none => k s caps
  | .group idx a, k, s, caps =>
    a.run (fun t caps1 => k t (caps1.set idx (consumed s t))) s caps
  | .eot, k, s, caps =>
    match s with
    | [] => k [] caps
    | _ :: _ => none

/-- The input stops a repetition of the class: it is empty or starts with a
character outside the class. -/
def stopsAt (c : CClass) (s : Str) : Prop := ∀ y ∈ s.head?, c.test y = false

/-- A compiled pattern: its syntax and the names of its groups
(`SubexpNames()`: entry 0 and unnamed groups are the empty string). -/
structure Regexp where
  re : RE
  names : List String

/-- The method `SubexpNames`. -/
def Regexp.SubexpNames (r : Regexp) : List String := r.names

/-- Match anchored at the start of `s`; on success the registers, register 0
holding the text of the whole match. -/
def Regexp.matchHere (r : Regexp) (s : Str) : Option Caps :=
  r.re.run (fun t caps => some (caps.set 0 (consumed s t))) s
    (List.replicate r.names.length [])

/-- Leftmost match: the first start position at which the pattern matches. -/
def Regexp.search (r : Regexp) : Str → Option Caps
  | [] => r.matchHere []
  | x :: s =>
    match r.matchHere (x :: s) with
    | some caps => some caps
    | none => r.search s

/-- The method `FindStringSubmatch`: the texts of the leftmost match and of its
groups (the empty text for a group that did not take part), or `nil`, which is
the empty list here, when there is no match. -/
def Regexp.FindStringSubmatch (r : Regexp) (s : Str) : List Str :=
  match r.search s with
  | some caps => caps
  | none => []

/-- The text of the group called `name` in the leftmost match of the pattern in
`s`; the empty text when there is no match or the group did not take part. -/
def Regexp.capture (r : Regexp) (s : Str) (name : String) : Str :=
  (r.FindStringSubmatch s).getD (r.names.indexOf name) []

/-- Concatenation of a list of expressions. -/
def RE.cat : List RE → RE
  | [] => .lit []
  | [a] => a
  | a :: rest => .seq a (RE.cat rest)

/-- A literal given as a string. -/
def RE.str (s : String) : RE := .lit s.toList

/-- The pattern `[^c]*`. -/
def RE.manyNot (c : Char) : RE := .star true (.notChar c)

/-- The escape `\s`. -/
def RE.sp : RE := .cls .space

/-- Syntax of the pattern `flowLine`. -/
def flowLineRE : RE :=
  RE.cat [
    .str "cookie=", .group 1 (.manyNot ','),
    .str ", duration=", .group 2 (.manyNot ','),
    .str "s, table=", .group 3 (.manyNot ','),
    .str ", n_packets=", .group 4 (.manyNot ','),
    .str ", n_bytes=", .group 5 (.manyNot ','),
    .str ", idle_age=", .group 6 (.manyNot ','),
    .str ", hard_age=", .group 7 (.manyNot ','),
    .str ", priority=", .group 8 (.manyNot ','),
    .opt (.group 9 (.seq (.str ",") (.group 10 (.manyNot ' ')))),
    .str " actions=", .group 11 (.star true .dot)]

/-- Group names of the pattern `flowLine`. -/
def flowLineNames : List String :=
  ["", "cookie", "duration", "table", "packets", "bytes", "idle_age",
    "hard_age", "priority", "", "match", "actions"]

/-- The pattern `flowLine`. -/
def flowLine : Regexp where
  re := flowLineRE
  names := flowLineNames

/-- Syntax of the pattern `portLine`. -/
def portLineRE : RE :=
  RE.cat [
    .str "port", .star true .space, .group 1 (.manyNot ':'),
    .str ":", .sp, .str "rx", .sp, .str "pkts=", .group 2 (.manyNot ','),
    .str ",", .sp, .str "bytes=", .group 3 (.manyNot ','),
    .str ",", .sp, .str "drop=", .group 4 (.manyNot ','),
    .str ",", .sp, .str "errs=", .group 5 (.manyNot ','),
    .str ",", .sp, .str "frame=", .group 6 (.manyNot ','),
    .str ",", .sp, .str "over=", .group 7 (.manyNot ','),
    .str ",", .sp, .str "crc=", .group 8 (.manyNot ','),
    .sp, .star true .dot, .str "tx", .sp, .str "pkts=", .group 9 (.manyNot ','),
    .str ",", .sp, .str "bytes=", .group 10 (.manyNot ','),
    .str ",", .sp, .str "drop=", .group 11 (.manyNot ','),
    .str ",", .sp, .str "errs=", .group 12 (.manyNot ','),
    .str ",", .sp, .str "coll=", .group 13 (.star true .dot)]

/-- Group names of the pattern `portLine`. -/
def portLineNames : List String :=
  ["", "port", "rxpackets", "rxbytes", "rxdrops", "rxerrors", "rxframerr",
    "rxoverruns", "rxcrcerrors", "txpackets", "txbytes", "txdrops", "txerrors",
    "txcollisions"]

/-- The pattern `portLine`. -/
def portLine : Regexp where
  re := portLineRE
  names := portLineNames

/-! ## Maps, `strings` and `strconv` -/

/-- A Go `map[string]string`: an association list with distinct keys. -/
abbrev StrMap := List (String × Str)

/-- The assignment `m[k] = v`. -/
def StrMap.insert : StrMap → String → Str → StrMap
  | [], k, v => [(k, v)]
  | (k1, v1) :: rest, k, v =>
    if k1 = k then (k, v) :: rest else (k1, v1) :: StrMap.insert rest k v

/-- The lookup `m[k]`: the empty string when the key is absent. -/
def StrMap.get : StrMap → String → Str
  | [], _ => []
  | (k1, v1) :: rest, k => if k1 = k then v1 else StrMap.get rest k

/-- The function `getRegexpMap`: `result[names[i]] = m` for each entry `m` of
`match` at index `i`, in order.  `match` comes from `FindStringSubmatch` and
`names` from `SubexpNames` of the same pattern, so `names[i]` is in range. -/
def getRegexpMap (match1 : List Str) (names : List String) : StrMap :=
  (names.zip match1).foldl (fun result p => result.insert p.1 p.2) []

/-- Worker of `ReplaceAll` for a non-empty `old`: `skip` is the number of
characters of the current occurrence of `old` still to be dropped. -/
def replaceAllAux (old new : Str) : Nat → Str → Str
  | _, [] => []
  | skip + 1, _ :: s => replaceAllAux old new skip s
  | 0, c :: s =>
    if old.isPrefixOf (c :: s) then new ++ replaceAllAux old new (old.length - 1) s
    else c :: replaceAllAux old new 0 s

/-- The function `strings.ReplaceAll(s, old, new)`: the non-overlapping
occurrences of `old`, from the left, are replaced by `new`; an empty `old`
matches before each character and at the end. -/
def ReplaceAll (s old new : Str) : Str :=
  if old = [] then new ++ s.flatMap (fun c => c :: new) else replaceAllAux old new 0 s

/-- The width of `int` (`strconv.IntSize`). -/
def intSize : Nat := 64

/-- Value of a string of decimal digits. -/
def digitsVal (ds : Str) : Nat :=
  ds.foldl (fun n c => 10 * n + (c.toNat - '0'.toNat)) 0

/-- The errors of package `strconv`. -/
inductive NumError where
  | ErrSyntax
  | ErrRange
  deriving DecidableEq, Repr

/-- The largest `uint64`. -/
def maxUint64 : Nat := 2 ^ 64 - 1

/-- The loop of `strconv.ParseUint(s, 10, 64)` over the characters still to be
read, `n` being the number read so far.  A character that is not a decimal
digit is a syntax error, with value 0.  When the next digit takes the number
out of the range of `uint64`, the loop stops at that digit with a range error
and the largest `uint64`: the characters after it are not read. -/
def parseUintLoop (n : Nat) : Str → Nat × Option NumError
  | [] => (n, none)
  | c :: s =>
    if '0' ≤ c ∧ c ≤ '9' then
      if n ≥ maxUint64 / 10 + 1 then (maxUint64, some .ErrRange)
      else
        let n10 := n * 10
        let n1 := (n10 + (c.toNat - '0'.toNat)) % 2 ^ 64
        if n1 < n10 ∨ n1 > maxUint64 then (maxUint64, some .ErrRange)
        else parseUintLoop n1 s
    else (0, some .ErrSyntax)

/-- The function `strconv.ParseUint(s, 10, 64)`. -/
def ParseUint (s : Str) : Nat × Option NumError :=
  if s = [] then (0, some .ErrSyntax) else parseUintLoop 0 s

/-- The function `strconv.ParseInt(s, 10, 0)`: the sign is picked off, the rest
is converted by `ParseUint`; a syntax error gives 0, and a number outside the
range of `int`, or a range error of `ParseUint`, gives the nearest end of the
range with a range error. -/
def ParseInt (s : Str) : Int × Option NumError :=
  match s with
  | [] => (0, some .ErrSyntax)
  | c :: rest =>
    let neg := c == '-'
    let r := ParseUint (if c = '+' ∨ c = '-' then rest else s)
    if r.2 = some .ErrSyntax then (0, some .ErrSyntax)
    else
      let cutoff : Nat := 2 ^ (intSize - 1)
      if ¬ neg = true ∧ r.1 ≥ cutoff then (((cutoff - 1 : Nat) : Int), some .ErrRange)
      else if neg = true ∧ r.1 > cutoff then (-(cutoff : Int), some .ErrRange)
      else (if neg then -(r.1 : Int) else (r.1 : Int), none)

/-- The function `strconv.Atoi`: the value and whether the error is non-nil.
It is `ParseInt(s, 10, 0)` converted to `int`; the fast path that `Atoi` takes
on a text shorter than 19 bytes returns the same value and the same kind of
error as `ParseInt` on every such text, and is not modelled apart. -/
def Atoi (s : Str) : Int × Bool :=
  ((ParseInt s).1, (ParseInt s).2.isSome)

/-- Whether a text is one or more decimal digits. -/
def allDigits (ds : Str) : Bool :=
  !ds.isEmpty && ds.all (fun c => decide ('0' ≤ c) && decide (c ≤ '9'))

/-- The decimal integer a text denotes, if it is one: an optional sign followed
by one or more decimal digits. -/
def intOfText (s : Str) : Option Int :=
  match s with
  | [] => none
  | c :: rest =>
    if c = '-' then (if allDigits rest then some (-(digitsVal rest : Int)) else none)
    else if c = '+' then (if allDigits rest then some (digitsVal rest : Int) else none)
    else if allDigits s then some (digitsVal s : Int) else none

/-- The smallest value of an `int`. -/
def minInt : Int := -(2 : Int) ^ 63

/-- The largest value of an `int`. -/
def maxInt : Int := (2 : Int) ^ 63 - 1

/-- The text without its sign, if it starts with one. -/
def unsignedPart (s : Str) : Str :=
  match s with
  | [] => []
  | c :: rest => if c = '+' ∨ c = '-' then rest else s

/-- The decimal digits a text starts with. -/
def leadingDigits (s : Str) : Str :=
  s.takeWhile (fun c => decide ('0' ≤ c) && decide (c ≤ '9'))

/-- Whether the digits a text starts with, after its sign, denote a number
outside the range of `uint64`. -/
def overflowsUint64 (s : Str) : Bool :=
  decide (2 ^ 64 ≤ digitsVal (leadingDigits (unsignedPart s)))

/-- The integer a numeric field gets from a captured text.  For a text that
denotes a decimal integer: that integer, or the nearest end of the range of
`int` when it is outside the range.  For any other text: 0, unless the digits
it starts with (after a sign) already denote a number outside the range of
`uint64`, in which case it is the largest `int`, or the smallest one when the
sign is `-`. -/
def fieldValue (s : Str) : Int :=
  match intOfText s with
  | none =>
    if overflowsUint64 s then (if s.head? = some '-' then minInt else maxInt) else 0
  | some v => if maxInt < v then maxInt else if v < minInt then minInt else v

/-- The type `float64` with the one operation the source uses on it.  The
theorems on flows that do not depend on the conversion hold for whatever
`strconv.ParseFloat(s, 64)` computes; `Float64` below is the instance that
models the conversion. -/
class GoFloat64 (F : Type) where
  /-- The zero value. -/
  zero : F
  /-- The value `strconv.ParseFloat(s, 64)` returns, and whether the error is
  non-nil. -/
  ParseFloat : Str → F × Bool

/-! ### The conversion `strconv.ParseFloat`

The value of `ParseFloat(s, 64)` is the `float64` nearest to the number the text
denotes.  The model computes it from the number itself; the source reaches the
same value by faster routes and through a decimal of up to 800 digits.
-/

/-- A `float64` value: a finite number `(-1)^neg * mant * 2^exp` in the form the
format stores (`mant < 2^53`, `-1074 ≤ exp ≤ 971`, and `2^52 ≤ mant` unless
`exp = -1074`), an infinity, or a NaN. -/
inductive Float64 where
  | finite (neg : Bool) (mant : Nat) (exp : Int)
  | inf (neg : Bool)
  | nan
  deriving DecidableEq, Repr

/-- The float `+0`. -/
def Float64.zero : Float64 := .finite false 0 (-1074)

/-- The integer nearest to `a / b`, the even one of two at the same distance. -/
def roundHalfEven (a b : Nat) : Nat :=
  let f := a / b
  let r := a % b
  if 2 * r < b then f else if b < 2 * r then f + 1 else if f % 2 = 0 then f else f + 1

/-- The largest `k` from `hi` down to `hi - fuel` with `2^k ≤ num / den`, for
`k` counted from `-1076`: the result `j` stands for the exponent `j - 1076`. -/
def floorLog2 (num den : Nat) : Nat → Nat
  | 0 => 0
  | j + 1 =>
    -- 2^(j + 1 - 1076) ≤ num / den
    if den * 2 ^ (j + 1) ≤ num * 2 ^ 1076 then j + 1 else floorLog2 num den j

/-- The mantissa and the exponent of the `float64` nearest to `num / den`
(round to nearest, ties to even), for `0 < num / den < 2^1024`, the exponent
being unbounded above: `floor (log2 (num / den))` is `k - 1076` for a `k` up to
2099, and the unit in the last place has the exponent `k - 1076 - 52`, or
`-1074` when that is less. -/
def nearestFinite (num den : Nat) : Nat × Int :=
  let k := floorLog2 num den 2099
  let e : Int := max ((k : Int) - 1076 - 52) (-1074)
  let m := if 0 ≤ e then roundHalfEven num (den * 2 ^ e.toNat)
    else roundHalfEven (num * 2 ^ (-e).toNat) den
  if m = 2 ^ 53 then (2 ^ 52, e + 1) else (m, e)

/-- The `float64` nearest to `± num / den` (round to nearest, ties to even),
and whether it is out of range: a number that rounds to `2^1024` or more gives
an infinity and is out of range; a number too small for the format gives a
zero and is not. -/
def roundFloat64 (neg : Bool) (num den : Nat) : Float64 × Bool :=
  if num = 0 ∨ den = 0 then (.finite neg 0 (-1074), false)
  else if den * 2 ^ 1024 ≤ num then (.inf neg, true)
  else if 971 < (nearestFinite num den).2 then (.inf neg, true)
  else (.finite neg (nearestFinite num den).1 (nearestFinite num den).2, false)

/-- The function `lower` of `strconv`: the byte `c | ('x' - 'X')`, which is the
lower-case letter for a letter. -/
def lower (c : Char) : Char := Char.ofNat (c.toNat ||| 0x20)

/-- The function `commonPrefixLenIgnoreCase(s, pre)`: the length of the common
start of `s` and the lower-case text `pre`, the case of the letters `A`..`Z` of `s`
being ignored. -/
def commonPrefixLenIgnoreCase : Str → Str → Nat
  | c :: s, p :: pre =>
    let c1 := if 'A' ≤ c ∧ c ≤ 'Z' then Char.ofNat (c.toNat + 32) else c
    if c1 = p then commonPrefixLenIgnoreCase s pre + 1 else 0
  | _, _ => 0

/-- The function `special` of `strconv`: the value and the number of characters
read when the text starts with a possibly signed `inf` or `infinity`, or with
`nan`, in any case of the letters. -/
def special (s : Str) : Option (Float64 × Nat) :=
  let infinity (neg : Bool) (nsign : Nat) (t : Str) : Option (Float64 × Nat) :=
    let n := commonPrefixLenIgnoreCase t "infinity".toList
    let n := if 3 < n ∧ n < 8 then 3 else n
    if n = 3 ∨ n = 8 then some (.inf neg, nsign + n) else none
  match s with
  | [] => none
  | c :: t =>
    if c = '+' then infinity false 1 t
    else if c = '-' then infinity true 1 t
    else if c = 'i' ∨ c = 'I' then infinity false 0 s
    else if c = 'n' ∨ c = 'N' then
      (if commonPrefixLenIgnoreCase s "nan".toList = 3 then some (.nan, 3) else none)
    else none

/-- What `readFloat` has read of a number: the sign, whether the number is
hexadecimal, the number its mantissa digits denote with the point left out, the
number of digits after the point, the exponent, and the text not read. -/
structure FloatText where
  neg : Bool
  hex : Bool
  mant : Nat
  frac : Nat
  exp : Int
  rest : Str
  deriving DecidableEq, Repr

/-- The loop of `readFloat` over the digits of the mantissa: underscores are
skipped, one point is taken, and the loop stops at the first other character.
The result is the number read, the number of digits after the point, whether a
digit was seen, and the text from the character the loop stopped at. -/
def readDigits (base : Nat) : Str → Bool → Bool → Nat → Nat → Nat × Nat × Bool × Str
  | [], _, sawdigits, mant, frac => (mant, frac, sawdigits, [])
  | c :: s, sawdot, sawdigits, mant, frac =>
    if c = '_' then readDigits base s sawdot sawdigits mant frac
    else if c = '.' then
      (if sawdot then (mant, frac, sawdigits, c :: s)
       else readDigits base s true sawdigits mant frac)
    else if '0' ≤ c ∧ c ≤ '9' then
      readDigits base s sawdot true (mant * base + (c.toNat - '0'.toNat))
        (if sawdot then frac + 1 else frac)
    else if base = 16 ∧ 'a' ≤ lower c ∧ lower c ≤ 'f' then
      readDigits base s sawdot true (mant * base + ((lower c).toNat - 'a'.toNat + 10))
        (if sawdot then frac + 1 else frac)
    else (mant, frac, sawdigits, c :: s)

/-- The loop of `readFloat` over the digits of the exponent: underscores are
skipped, and the exponent stops growing once it is 10000 or more. -/
def readExponent : Str → Nat → Nat × Str
  | [], e => (e, [])
  | c :: s, e =>
    if c = '_' then readExponent s e
    else if '0' ≤ c ∧ c ≤ '9' then
      readExponent s (if e < 10000 then e * 10 + (c.toNat - '0'.toNat) else e)
    else (e, c :: s)

/-- The loop of `underscoreOK`: `saw` is the kind of the last character, `'0'`
for a digit or a base prefix, `'_'` for an underscore, `'!'` for another
character and `'^'` at the start. -/
def underscoreLoop (hex : Bool) : Str → Char → Bool
  | [], saw => saw ≠ '_'
  | c :: s, saw =>
    if ('0' ≤ c ∧ c ≤ '9') ∨ (hex = true ∧ 'a' ≤ lower c ∧ lower c ≤ 'f') then
      underscoreLoop hex s '0'
    else if c = '_' then (if saw ≠ '0' then false else underscoreLoop hex s '_')
    else if saw = '_' then false
    else underscoreLoop hex s '!'

/-- The function `underscoreOK`: whether every underscore of the text stands
between two digits, or between a base prefix and a digit. -/
def underscoreOK (s : Str) : Bool :=
  let s1 := match s with
    | c :: t => if c = '-' ∨ c = '+' then t else s
    | [] => s
  match s1 with
  | c0 :: c1 :: t =>
    if c0 = '0' ∧ (lower c1 = 'b' ∨ lower c1 = 'o' ∨ lower c1 = 'x') then
      underscoreLoop (lower c1 == 'x') t '0'
    else underscoreLoop false s1 '^'
  | _ => underscoreLoop false s1 '^'

/-- The function `readFloat` of `strconv`: the number at the start of the text,
if there is one.  The mantissa is kept whole (the source keeps 19 digits and a
flag for the rest, and converts the digits again when they matter). -/
def readFloat (s : Str) : Option FloatText :=
  match s with
  | [] => none
  | c :: t =>
    let neg := c == '-'
    let s1 := if c = '+' ∨ c = '-' then t else s
    let hex := match s1 with
      | c0 :: c1 :: _ :: _ => c0 == '0' && lower c1 == 'x'
      | _ => false
    let s2 := if hex then s1.drop 2 else s1
    let base := if hex then 16 else 10
    let d := readDigits base s2 false false 0 0
    if d.2.2.1 = false then none
    else
      let afterDigits := d.2.2.2
      let result (e : Int) (rest : Str) : Option FloatText :=
        let read := s.take (s.length - rest.length)
        if read.contains '_' ∧ underscoreOK read = false then none
        else some { neg := neg, hex := hex, mant := d.1, frac := d.2.1, exp := e, rest := rest }
      match afterDigits with
      | x :: u =>
        if lower x = (if hex then 'p' else 'e') then
          match u with
          | [] => none
          | y :: w =>
            let esign : Int := if y = '-' then -1 else 1
            let u1 := if y = '+' ∨ y = '-' then w else u
            match u1 with
            | [] => none
            | z :: _ =>
              if '0' ≤ z ∧ z ≤ '9' then
                let r := readExponent u1 0
                result ((r.1 : Int) * esign) r.2
              else none
        else if hex then none
        else result 0 afterDigits
      | [] => if hex then none else result 0 []

/-- The `float64` nearest to the number read, and whether it is out of range:
the number is `mant * 10^(exp - frac)`, or `mant * 2^(exp - 4 * frac)` when it is
hexadecimal. -/
def FloatText.round (r : FloatText) : Float64 × Bool :=
  let b := if r.hex then 2 else 10
  let shift : Int := if r.hex then r.exp - 4 * r.frac else r.exp - r.frac
  if 0 ≤ shift then roundFloat64 r.neg (r.mant * b ^ shift.toNat) 1
  else roundFloat64 r.neg r.mant (b ^ (-shift).toNat)

/-- The function `strconv.ParseFloat(s, 64)`: the value and the error.  A text
that is not a number in the syntax of `readFloat`, or a special value, from its
first to its last character is a syntax error, with value 0.  A number is
converted to the nearest `float64`; one that is too large gives an infinity and
a range error. -/
def Float64.ParseFloat (s : Str) : Float64 × Option NumError :=
  match special s with
  | some (v, n) => if n = s.length then (v, none) else (Float64.zero, some .ErrSyntax)
  | none =>
    match readFloat s with
    | none => (Float64.zero, some .ErrSyntax)
    | some r =>
      if r.rest ≠ [] then (Float64.zero, some .ErrSyntax)
      else (r.round.1, if r.round.2 then some .ErrRange else none)

instance : GoFloat64 Float64 where
  zero := Float64.zero
  ParseFloat s := ((Float64.ParseFloat s).1, (Float64.ParseFloat s).2.isSome)

/-! ## Records -/

/-- Modelled from the spec: the declaration of the record type `Flow` is not in
the source file; the fields are those of the literal in
`parseOpenFlowFlowDumpLine`, with the types of the data model. -/
structure Flow (F : Type) where
  Cookie : Str
  Duration : F
  Table : Str
  Packets : Int
  Bytes : Int
  IdleAge : Int
  HardAge : Int
  Priority : Str
  Match : Str
  Action : Str
  deriving DecidableEq, Repr

/-- Modelled from the spec: the declaration of the record type `Port` is not in
the source file; the fields are those of the literal in
`parseOpenFlowPortDumpLine`, with the types of the data model. -/
structure Port where
  PortNumber : Str
  RxPackets : Int
  TxPackets : Int
  RxBytes : Int
  TxBytes : Int
  RxDrops : Int
  TxDrops : Int
  RxErrors : Str
  TxErrors : Str
  RxFrameErr : Str
  RxOverruns : Str
  RxCrcErrors : Str
  TxCollisions : Str
  deriving DecidableEq, Repr

/-- The zero value `Flow{}`. -/
def Flow.zero {F : Type} [GoFloat64 F] : Flow F :=
  { Cookie := [], Duration := GoFloat64.zero, Table := [], Packets := 0, Bytes := 0,
    IdleAge := 0, HardAge := 0, Priority := [], Match := [], Action := [] }

/-- The zero value `Port{}`. -/
def Port.zero : Port :=
  { PortNumber := [], RxPackets := 0, TxPackets := 0, RxBytes := 0, TxBytes := 0,
    RxDrops := 0, TxDrops := 0, RxErrors := [], TxErrors := [], RxFrameErr := [],
    RxOverruns := [], RxCrcErrors := [], TxCollisions := [] }

/-- The error value of the line parsers, `errors.New("exec: Stdout already empty")`. -/
def parseError : Option String := some "exec: Stdout already empty"

/-! ## Line parsers -/

/-- The function `parseOpenFlowFlowDumpLine`: the record and the error
(`none` is `nil`). -/
def parseOpenFlowFlowDumpLine {F : Type} [GoFloat64 F] (line : Str) :
    Flow F × Option String :=
  let match1 := flowLine.FindStringSubmatch line
  let result := getRegexpMap match1 flowLine.SubexpNames
  let duration := (GoFloat64.ParseFloat (result.get "duration")).1
  let packets := (Atoi (result.get "packets")).1
  let bytes := (Atoi (result.get "bytes")).1
  let idleage := (Atoi (result.get "idle_age")).1
  let hardage := (Atoi (result.get "hard_age")).1
  let flow : Flow F :=
    { Cookie := result.get "cookie"
      Duration := duration
      Table := result.get "table"
      Packets := packets
      Bytes := bytes
      IdleAge := idleage
      HardAge := hardage
      Priority := result.get "priority"
      Match := result.get "match"
      Action := result.get "actions" }
  if result.length = 0 then (flow, parseError)
  else if result.get "match" ≠ [] ∧ result.get "actions" ≠ [] ∧
      result.get "table" ≠ [] ∧ result.get "priority" ≠ [] then (flow, none)
  else (flow, parseError)

/-- The function `parseOpenFlowPortDumpLine`: the record and the error
(`none` is `nil`). -/
def parseOpenFlowPortDumpLine (first_line second_line : Str) : Port × Option String :=
  let line := first_line ++ second_line
  let line := ReplaceAll line "=?".toList "=0".toList
  let line := ReplaceAll line "\"".toList []
  let match1 := portLine.FindStringSubmatch line
  let result := getRegexpMap match1 portLine.SubexpNames
  let rxpackets := (Atoi (result.get "rxpackets")).1
  let txpackets := (Atoi (result.get "txpackets")).1
  let rxbytes := (Atoi (result.get "rxbytes")).1
  let txbytes := (Atoi (result.get "txbytes")).1
  let rxdrops := (Atoi (result.get "rxdrops")).1
  let txdrops := (Atoi (result.get "txdrops")).1
  let port : Port :=
    { PortNumber := result.get "port"
      RxPackets := rxpackets
      TxPackets := txpackets
      RxBytes := rxbytes
      TxBytes := txbytes
      RxDrops := rxdrops
      TxDrops := txdrops
      RxErrors := result.get "rxerrors"
      TxErrors := result.get "txerrors"
      RxFrameErr := result.get "rxframerr"
      RxOverruns := result.get "rxoverruns"
      RxCrcErrors := result.get "rxcrcerrors"
      TxCollisions := result.get "txcollisions" }
  if result.length = 0 then (port, parseError)
  else if result.get "port" ≠ [] then (port, none)
  else (port, parseError)

/-- The normalised concatenation of a port block, as computed at the start of
`parseOpenFlowPortDumpLine`: the two lines joined, every `=?` replaced by `=0`,
then every double quote removed. -/
def normalise (first_line second_line : Str) : Str :=
  ReplaceAll (ReplaceAll (first_line ++ second_line) "=?".toList "=0".toList) "\"".toList []

/-- A line in the format of the flow dump, from the texts of its fields:
` cookie=C, duration=Ds, table=T, n_packets=P, n_bytes=B, idle_age=I, hard_age=H, priority=R,M actions=A`. -/
def flowText (C D T P B I H R M A : Str) : Str :=
  " cookie=".toList ++ C ++ ", duration=".toList ++ D ++ "s, table=".toList ++ T ++
    ", n_packets=".toList ++ P ++ ", n_bytes=".toList ++ B ++ ", idle_age=".toList ++ I ++
    ", hard_age=".toList ++ H ++ ", priority=".toList ++ R ++ ",".toList ++ M ++
    " actions=".toList ++ A

/-- A text with every `=?` replaced by `=0`. -/
def replaceUnknown (s : Str) : Str := ReplaceAll s "=?".toList "=0".toList

/-- A text with every double quote deleted. -/
def stripQuotes (s : Str) : Str := ReplaceAll s "\"".toList []

/-- Whether a text holds an `=` directly followed by one or more double quotes
and then a `?`. -/
def quotedUnknown : Str → Bool
  | [] => false
  | c :: s =>
    (c == '=' && s.head? == some '"' && (stripQuotes s).head? == some '?') || quotedUnknown s

/-! ## Run-time faults, slices and loops -/

/-- The ways a run can stop without a result. -/
inductive Fault where
  /-- Run-time panic: index out of range. -/
  | indexOutOfRange
  /-- Run-time panic: nil pointer dereference. -/
  | nilDereference
  /-- A loop of the embedding ran out of steps.  Every loop is given as many
  steps as its bound, so this result is never produced by the functions below. -/
  | fuelExhausted
  deriving DecidableEq, Repr

/-- Result of running a function that may panic. -/
inductive Run (α : Type) where
  | ok (a : α)
  | panic (f : Fault)
  deriving DecidableEq, Repr

/-- Sequencing of runs: a panic stops the run. -/
def Run.bind {α β : Type} : Run α → (α → Run β) → Run β
  | .ok a, f => f a
  | .panic p, _ => .panic p

instance : Monad Run where
  pure := Run.ok
  bind := Run.bind

/-- The expression `make([]T, n)`: `n` zero values. -/
def make {α : Type} (n : Nat) (zero : α) : List α := List.replicate n zero

/-- The expression `xs[i]`: panics when `i` is out of range. -/
def index {α : Type} (xs : List α) (i : Nat) : Run α :=
  match xs[i]? with
  | some x => .ok x
  | none => .panic .indexOutOfRange

/-- The assignment `xs[i] = x`: panics when `i` is out of range. -/
def assign {α : Type} (xs : List α) (i : Nat) (x : α) : Run (List α) :=
  if i < xs.length then .ok (xs.set i x) else .panic .indexOutOfRange

/-- The loop `for i := i0; cond(i); i = post(i) { body }` on a state, with a
bound on the number of iterations. -/
def forLoop {σ : Type} (cond : Nat → Bool) (post : Nat → Nat) (body : Nat → σ → Run σ) :
    Nat → Nat → σ → Run σ
  | 0, i, s => if cond i then .panic .fuelExhausted else .ok s
  | fuel + 1, i, s =>
    if cond i then
      (body i s).bind (fun s1 => forLoop cond post body fuel (post i) s1)
    else .ok s

/-! ## Dump source and reader façade -/

/-- The interface `OvsDumpSource`: each operation returns the lines and the
error (`none` is `nil`); `E` is the type of the errors of the source. -/
structure OvsDumpSource (E : Type) where
  TunDumpFlows : Str → Int → List Str × Option E
  TunDumpPorts : Str → Int → List Str × Option E
  ExDumpFlows : Str → Int → List Str × Option E
  ExDumpPorts : Str → Int → List Str × Option E
  IntDumpFlows : Str → Int → List Str × Option E
  IntDumpPorts : Str → Int → List Str × Option E

/-- The type `OvsDumpReader`. -/
structure OvsDumpReader (E : Type) where
  dumpSource : OvsDumpSource E

/-- Body of the first loop of the `Flows` functions: the state is `entrySet`
and `counter`. -/
def flowScanBody {F : Type} [GoFloat64 F] (lines : List Str) (i : Nat)
    (st : List (Flow F) × Nat) : Run (List (Flow F) × Nat) := do
  let line ← index lines i
  let (flowEntry, err) := parseOpenFlowFlowDumpLine line
  if err = none then do
    let entrySet ← assign st.1 st.2 flowEntry
    pure (entrySet, st.2 + 1)
  else pure st

/-- Body of the copy loop `retrySet[i] = entrySet[i]`. -/
def copyBody {α : Type} (entrySet : List α) (i : Nat) (retrySet : List α) :
    Run (List α) := do
  let x ← index entrySet i
  assign retrySet i x

/-- Body of the copy loop `if err == nil { retrySet[i] = entrySet[i] }`, where
`err` is the error of the dump source. -/
def copyBodyGuarded {α E : Type} (err : Option E) (entrySet : List α) (i : Nat)
    (retrySet : List α) : Run (List α) :=
  if err.isNone then copyBody entrySet i retrySet else pure retrySet

/-- The method `TunFlows`: the sequence (`none` is `nil`) and the error. -/
def TunFlows {E F : Type} [GoFloat64 F] (o : OvsDumpReader E) (ip : Str) (port : Int) :
    Run (Option (List (Flow F)) × Option E) :=
  let (lines, err) := o.dumpSource.TunDumpFlows ip port
  if err.isSome then pure (none, err)
  else do
    let entrySet : List (Flow F) := make lines.length Flow.zero
    let (entrySet, counter) ←
      forLoop (fun i => i < lines.length) (· + 1) (flowScanBody lines) lines.length 0
        (entrySet, 0)
    let retrySet : List (Flow F) := make counter Flow.zero
    let retrySet ← forLoop (fun i => i < counter) (· + 1) (copyBody entrySet) counter 0 retrySet
    pure (some retrySet, none)

/-- The method `ExFlows`. -/
def ExFlows {E F : Type} [GoFloat64 F] (o : OvsDumpReader E) (ip : Str) (port : Int) :
    Run (Option (List (Flow F)) × Option E) :=
  let (lines, err) := o.dumpSource.ExDumpFlows ip port
  if err.isSome then pure (none, err)
  else do
    let entrySet : List (Flow F) := make lines.length Flow.zero
    let (entrySet, counter) ←
      forLoop (fun i => i < lines.length) (· + 1) (flowScanBody lines) lines.length 0
        (entrySet, 0)
    let retrySet : List (Flow F) := make counter Flow.zero
    let retrySet ← forLoop (fun i => i < counter) (· + 1) (copyBody entrySet) counter 0 retrySet
    pure (some retrySet, none)

/-- The method `IntFlows`. -/
def IntFlows {E F : Type} [GoFloat64 F] (o : OvsDumpReader E) (ip : Str) (port : Int) :
    Run (Option (List (Flow F)) × Option E) :=
  let (lines, err) := o.dumpSource.IntDumpFlows ip port
  if err.isSome then pure (none, err)
  else do
    let entrySet : List (Flow F) := make lines.length Flow.zero
    let (entrySet, counter) ←
      forLoop (fun i => i < lines.length) (· + 1) (flowScanBody lines) lines.length 0
        (entrySet, 0)
    let retrySet : List (Flow F) := make counter Flow.zero
    let retrySet ←
      forLoop (fun i => i < counter) (· + 1) (copyBodyGuarded err entrySet) counter 0 retrySet
    pure (some retrySet, none)

/-- Body of the loop of `TunPorts`: the state is `entrySet`. -/
def tunPortBody (lines : List Str) (i : Nat) (entrySet : List Port) : Run (List Port) := do
  let a ← index lines i
  let b ← index lines (i + 1)
  let (entry, err) := parseOpenFlowPortDumpLine a b
  if err = none then assign entrySet (i / 2) entry else pure entrySet

/-- Body of the first loop of `ExPorts`: the state is `entrySet` and `counter`. -/
def exPortBody (lines : List Str) (i : Nat) (st : List Port × Nat) :
    Run (List Port × Nat) := do
  let a ← index lines i
  let b ← index lines (i + 1)
  let (flowEntry, err) := parseOpenFlowPortDumpLine a b
  if err = none then do
    let entrySet ← assign st.1 st.2 flowEntry
    pure (entrySet, st.2 + 1)
  else pure st

/-- Body of the first loop of `IntPorts`, with its guard `i+1 < len(lines)`. -/
def intPortBody (lines : List Str) (i : Nat) (st : List Port × Nat) :
    Run (List Port × Nat) :=
  if i + 1 < lines.length then do
    let a ← index lines i
    let b ← index lines (i + 1)
    let (entry, err) := parseOpenFlowPortDumpLine a b
    if err = none then do
      let entrySet ← assign st.1 st.2 entry
      pure (entrySet, st.2 + 1)
    else pure st
  else pure st

/-- The method `TunPorts`. -/
def TunPorts {E : Type} (o : OvsDumpReader E) (ip : Str) (port : Int) :
    Run (Option (List Port) × Option E) :=
  let (lines, err) := o.dumpSource.TunDumpPorts ip port
  if err.isSome then pure (none, err)
  else do
    let entrySet : List Port := make (lines.length / 2) Port.zero
    let entrySet ←
      forLoop (fun i => i < lines.length) (· + 2) (tunPortBody lines) lines.length 0 entrySet
    pure (some entrySet, none)

/-- The method `ExPorts`. -/
def ExPorts {E : Type} (o : OvsDumpReader E) (ip : Str) (port : Int) :
    Run (Option (List Port) × Option E) :=
  let (lines, err) := o.dumpSource.ExDumpPorts ip port
  if err.isSome then pure (none, err)
  else do
    let entrySet : List Port := make (lines.length / 2) Port.zero
    let (entrySet, counter) ←
      forLoop (fun i => i < lines.length) (· + 2) (exPortBody lines) lines.length 0
        (entrySet, 0)
    let retrySet : List Port := make counter Port.zero
    let retrySet ←
      forLoop (fun i => i < counter) (· + 1) (copyBodyGuarded err entrySet) counter 0 retrySet
    pure (some retrySet, none)

/-- The method `IntPorts`. -/
def IntPorts {E : Type} (o : OvsDumpReader E) (ip : Str) (port : Int) :
    Run (Option (List Port) × Option E) :=
  let (lines, err) := o.dumpSource.IntDumpPorts ip port
  if err.isSome then pure (none, err)
  else do
    let entrySet : List Port := make (lines.length / 2) Port.zero
    let (entrySet, counter) ←
      forLoop (fun i => i < lines.length) (· + 2) (intPortBody lines) lines.length 0
        (entrySet, 0)
    let retrySet : List Port := make counter Port.zero
    let retrySet ← forLoop (fun i => i < counter) (· + 1) (copyBody entrySet) counter 0 retrySet
    pure (some retrySet, none)

/-! ## Groups -/

/-- Puts a character in front of the first text of a list. -/
def consHead (c : Char) : List Str → List Str
  | [] => [[c]]
  | seg :: rest => (c :: seg) :: rest

/-- Worker of `Split` for a non-empty separator: `skip` is the number of
characters of the current occurrence of the separator still to be dropped. -/
def splitAux (sep : Str) : Nat → Str → List Str
  | _, [] => [[]]
  | skip + 1, _ :: s => splitAux sep skip s
  | 0, c :: s =>
    if sep.isPrefixOf (c :: s) then [] :: splitAux sep (sep.length - 1) s
    else consHead c (splitAux sep 0 s)

/-- The function `strings.Split(s, sep)`: the texts between the non-overlapping
occurrences of `sep`, from the left; an empty `sep` splits after each
character. -/
def Split (s sep : Str) : List Str :=
  if sep = [] then s.map (fun c => [c]) else splitAux sep 0 s

/-- Worker of `Count` for a non-empty separator. -/
def countAux (sep : Str) : Nat → Str → Nat
  | _, [] => 0
  | skip + 1, _ :: s => countAux sep skip s
  | 0, c :: s =>
    if sep.isPrefixOf (c :: s) then 1 + countAux sep (sep.length - 1) s
    else countAux sep 0 s

/-- The function `strings.Count(s, sep)`: the number of non-overlapping
occurrences of `sep` in `s`; one more than the number of characters for an
empty `sep`. -/
def Count (s sep : Str) : Nat :=
  if sep = [] then s.length + 1 else countAux sep 0 s

/-- The pattern `[0-9]+`. -/
def RE.digits : RE := .seq (.cls .digit) (.star true .digit)

/-- Syntax of the pattern `groupsLine`. -/
def groupsLineRE : RE :=
  RE.cat [
    .str "group_id=", .group 1 (.star false .dot),
    .str ",", .star true .space, .str "type=", .group 2 (.manyNot ','),
    .str ",bucket=", .group 3 (.seq (.star true .dot) .eot)]

/-- Group names of the pattern `groupsLine`. -/
def groupsLineNames : List String := ["", "groupid", "type", "buckets"]

/-- The pattern `groupsLine`. -/
def groupsLine : Regexp where
  re := groupsLineRE
  names := groupsLineNames

/-- Syntax of the pattern `bucketAction`. -/
def bucketActionRE : RE :=
  RE.cat [.str "actions=", .group 1 (.star false .dot), .opt (.str ","), .eot]

/-- The pattern `bucketAction`; its one group has no name. -/
def bucketAction : Regexp where
  re := bucketActionRE
  names := ["", ""]

/-- Syntax of the pattern `groupStatsLine`. -/
def groupStatsLineRE : RE :=
  RE.cat [
    .str "group_id=", .group 1 (.star false .dot),
    .str ",duration=", .group 2 (.manyNot ','),
    .str "s,", .group 3 (.seq (.star true .dot) .eot)]

/-- Group names of the pattern `groupStatsLine`. -/
def groupStatsLineNames : List String := ["", "groupid", "duration", "counts"]

/-- The pattern `groupStatsLine`. -/
def groupStatsLine : Regexp where
  re := groupStatsLineRE
  names := groupStatsLineNames

/-- Syntax of the pattern `countLine`. -/
def countLineRE : RE :=
  RE.cat [
    .str "ref_count=", .group 1 .digits,
    .str ",packet_count=", .group 2 .digits,
    .str ",byte_count=", .group 3 .digits,
    .star true .dot]

/-- Group names of the pattern `countLine`. -/
def countLineNames : List String := ["", "ref_count", "packet_count", "byte_count"]

/-- The pattern `countLine`. -/
def countLine : Regexp where
  re := countLineRE
  names := countLineNames

/-- Modelled from the spec: the declaration of the record type `Bucket` is not
in the source file; the fields are those the two group parsers assign, with the
types of the data model. -/
structure Bucket where
  Actions : Str
  Packets : Int
  Bytes : Int
  deriving DecidableEq, Repr

/-- Modelled from the spec: the declaration of the record type `Group` is not
in the source file; the fields are those the two group parsers assign, with the
types of the data model.  A nil `Buckets` slice is the empty list. -/
structure Group where
  GroupId : Str
  GroupType : Str
  Duration : Int
  Packets : Int
  Bytes : Int
  Buckets : List Bucket
  deriving DecidableEq, Repr

/-- The zero value `Bucket{}`. -/
def Bucket.zero : Bucket := { Actions := [], Packets := 0, Bytes := 0 }

/-- Body of the loop over the bucket texts in `parseOpenFlowGroupsDumpLine`: the
entry at the index of the text is a zero value whose `Actions` is set to
`subMatch[1]` when `len(subMatch) > 1`. -/
def bucketEntryOf (bucket : Str) : Bucket :=
  let subMatch := bucketAction.FindStringSubmatch bucket
  if subMatch.length > 1 then { Bucket.zero with Actions := subMatch.getD 1 [] }
  else Bucket.zero

/-- The function `parseOpenFlowGroupsDumpLine`.  The loop
`for idx, bucket := range buckets` writes entry `idx` of a slice made with the
length of `buckets`, so it is the map of its body over the bucket texts. -/
def parseOpenFlowGroupsDumpLine (line : Str) : Group :=
  let match1 := groupsLine.FindStringSubmatch line
  let result := getRegexpMap match1 groupsLine.SubexpNames
  let group : Group :=
    { GroupId := result.get "groupid"
      GroupType := result.get "type"
      Duration := 0
      Packets := 0
      Bytes := 0
      Buckets := [] }
  if (result.get "buckets").length > 0 then
    let buckets := Split (result.get "buckets") "bucket=".toList
    let bucketEntries := buckets.map bucketEntryOf
    { group with Buckets := bucketEntries }
  else group

/-- The slice `[]Bucket` of a Group as the run-time holds it: the address of its
first element in the memory of buckets, and its length.  The capacity is left
out: the code neither appends to such a slice nor reslices it.  The nil slice
has length 0. -/
structure BucketSlice where
  ptr : Nat
  len : Nat
  deriving DecidableEq, Repr

/-- A Group variable in memory, what a `*Group` points to: the fields of the
struct `Group`, the field `Buckets` being a slice header. -/
structure GroupVar where
  GroupId : Str
  GroupType : Str
  Duration : Int
  Packets : Int
  Bytes : Int
  Buckets : BucketSlice
  deriving DecidableEq, Repr

/-- The memory `parseOpenFlowGroupStatsDumpLine` works on: the Group variables,
a pointer `*Group` being a position in `groups`, and the memory of buckets, by
address.  Nothing keeps the slices of two Group variables apart: they may share
elements. -/
structure Heap where
  groups : List GroupVar
  buckets : Nat → Bucket

/-- The place `s[i]` of a bucket slice: its address; panics when `i` is out of
range. -/
def BucketSlice.index (s : BucketSlice) (i : Nat) : Run Nat :=
  if i < s.len then .ok (s.ptr + i) else .panic .indexOutOfRange

/-- The memory of buckets after the assignment of `b` at address `a`. -/
def storeBucket (mem : Nat → Bucket) (a : Nat) (b : Bucket) : Nat → Bucket :=
  fun x => if x = a then b else mem x

/-- The elements of a bucket slice, read from the memory of buckets. -/
def readBuckets (mem : Nat → Bucket) (s : BucketSlice) : List Bucket :=
  (List.range s.len).map (fun i => mem (s.ptr + i))

/-- The Group value a Group variable holds. -/
def GroupVar.value (v : GroupVar) (mem : Nat → Bucket) : Group :=
  { GroupId := v.GroupId, GroupType := v.GroupType, Duration := v.Duration,
    Packets := v.Packets, Bytes := v.Bytes, Buckets := readBuckets mem v.Buckets }

/-- The Group values of the Group variables, in order. -/
def Heap.toGroups (h : Heap) : List Group := h.groups.map (fun v => v.value h.buckets)

/-- The Group value `*p` of a pointer, if `p` points to a Group variable. -/
def Heap.group (h : Heap) (p : Nat) : Option Group := h.toGroups[p]?

/-- Group variables for the Groups of a list, each with a bucket array of its
own: the arrays lie one after the other, from address `a`. -/
def groupVars (a : Nat) : List Group → List GroupVar
  | [] => []
  | g :: gs =>
    { GroupId := g.GroupId, GroupType := g.GroupType, Duration := g.Duration,
      Packets := g.Packets, Bytes := g.Bytes, Buckets := ⟨a, g.Buckets.length⟩ }
      :: groupVars (a + g.Buckets.length) gs

/-- The memory in which the Groups of a list are stored one by one, as a call of
`parseOpenFlowGroupsDumpLine` per Group leaves them: no two of them share a
bucket. -/
def Heap.ofGroups (gs : List Group) : Heap :=
  { groups := groupVars 0 gs
    buckets := fun a => (gs.flatMap (fun g => g.Buckets)).getD a Bucket.zero }

/-- A Go `map[string]*Group`: keys with the position of their Group variable. -/
abbrev GroupIdMap := List (Str × Nat)

/-- The lookup `groupIdMap[key]`: `none` is the nil pointer an absent key
gives. -/
def GroupIdMap.get (m : GroupIdMap) (key : Str) : Option Nat := List.lookup key m

/-- Body of the loop `for j := 1; j < len(bucketCounts); j++` of
`parseOpenFlowGroupStatsDumpLine`: the two assignments to fields of
`group.Buckets[j-1]` write the memory of buckets in place. -/
def statsBucketBody (bucketCounts : List Str) (buckets : BucketSlice) (j : Nat)
    (mem : Nat → Bucket) : Run (Nat → Bucket) := do
  let seg ← index bucketCounts 0
  let bucketMatch := countLine.FindStringSubmatch seg
  let bucketResult := getRegexpMap bucketMatch countLine.SubexpNames
  let a ← buckets.index (j - 1)
  let mem := storeBucket mem a
    { mem a with Packets := (Atoi (bucketResult.get "packet_count")).1 }
  let a ← buckets.index (j - 1)
  pure (storeBucket mem a { mem a with Bytes := (Atoi (bucketResult.get "byte_count")).1 })

/-- The function `parseOpenFlowGroupStatsDumpLine`: the memory after the update
of the Group variable the id map points to.  Dereferencing the nil pointer of
an absent key panics; so does, in the embedding, a position that holds no Group
variable. -/
def parseOpenFlowGroupStatsDumpLine (line : Str) (groupIdMap : GroupIdMap)
    (heap : Heap) : Run Heap :=
  let match1 := groupStatsLine.FindStringSubmatch line
  let result := getRegexpMap match1 groupStatsLine.SubexpNames
  match groupIdMap.get (result.get "groupid") with
  | none => .panic .nilDereference
  | some p =>
    match heap.groups[p]? with
    | none => .panic .nilDereference
    | some group => do
      let group := { group with Duration := (Atoi (result.get "duration")).1 }
      let bucketCounts := Split (result.get "counts") ":".toList
      let seg0 ← index bucketCounts 0
      let subMatch := countLine.FindStringSubmatch seg0
      let subResult := getRegexpMap subMatch countLine.SubexpNames
      let group := { group with Packets := (Atoi (subResult.get "packet_count")).1 }
      let group := { group with Bytes := (Atoi (subResult.get "byte_count")).1 }
      let mem ← forLoop (fun j => j < bucketCounts.length) (· + 1)
        (statsBucketBody bucketCounts group.Buckets) bucketCounts.length 1 heap.buckets
      pure { groups := heap.groups.set p group, buckets := mem }

/-- The bucket with its two counters set. -/
def Bucket.withCounts (b : Bucket) (pv bv : Int) : Bucket :=
  { b with Packets := pv, Bytes := bv }

/-- The colon-separated segments of the counts of a stats line (of the empty
text when the stats pattern does not match). -/
def statsSegments (line : Str) : List Str :=
  Split (groupStatsLine.capture line "counts") ":".toList

/-- The packet counter a segment of counts gives. -/
def segPackets (seg : Str) : Int := fieldValue (countLine.capture seg "packet_count")

/-- The byte counter a segment of counts gives. -/
def segBytes (seg : Str) : Int := fieldValue (countLine.capture seg "byte_count")

/-- What `parseOpenFlowGroupStatsDumpLine` makes of a Group when it completes:
the duration of the line, the counters of segment 0 on the Group, and the
counters of segment 0 again on the first `k - 1` buckets, `k` being the number
of segments. -/
def statsUpdate (line : Str) (g : Group) : Group :=
  let segs := statsSegments line
  let pv := segPackets (segs.headD [])
  let bv := segBytes (segs.headD [])
  { GroupId := g.GroupId
    GroupType := g.GroupType
    Duration := fieldValue (groupStatsLine.capture line "duration")
    Packets := pv
    Bytes := bv
    Buckets := (g.Buckets.take (segs.length - 1)).map (fun b => b.withCounts pv bv)
      ++ g.Buckets.drop (segs.length - 1) }

/-- The memory of buckets after the counters `pv` and `bv` have been written
on the buckets at the addresses from `lo` up to `hi`, `hi` excluded. -/
def writeCounts (mem : Nat → Bucket) (lo hi : Nat) (pv bv : Int) : Nat → Bucket :=
  fun a => if lo ≤ a ∧ a < hi then (mem a).withCounts pv bv else mem a

/-- What `parseOpenFlowGroupStatsDumpLine` makes of the memory when it
completes, `v` being the Group variable at `p`: the variable gets the duration
of the line and the counters of segment 0, and the first `k - 1` buckets of its
slice get the counters of segment 0 in place, `k` being the number of
segments. -/
def Heap.statsUpdate (h : Heap) (p : Nat) (v : GroupVar) (line : Str) : Heap :=
  let segs := statsSegments line
  let pv := segPackets (segs.headD [])
  let bv := segBytes (segs.headD [])
  { groups := h.groups.set p
      { v with Duration := fieldValue (groupStatsLine.capture line "duration"),
               Packets := pv, Bytes := bv }
    buckets := writeCounts h.buckets v.Buckets.ptr (v.Buckets.ptr + (segs.length - 1)) pv bv }

/-- Two bucket slices share no bucket: one of them is empty, or one ends before
the other starts. -/
def BucketSlice.apart (s t : BucketSlice) : Prop :=
  s.len = 0 ∨ t.len = 0 ∨ s.ptr + s.len ≤ t.ptr ∨ t.ptr + t.len ≤ s.ptr

instance (s t : BucketSlice) : Decidable (s.apart t) := by
  unfold BucketSlice.apart
  exact inferInstance

/-- The part of a Group that no run of the stats parser on another Group can
change: every field but the counters of the buckets. -/
def Group.frame (g : Group) : Str × Str × Int × Int × Int × List Str :=
  (g.GroupId, g.GroupType, g.Duration, g.Packets, g.Bytes, g.Buckets.map (fun b => b.Actions))

/-- A group header line, from the texts of its id, its type and its bucket
tail: `group_id=I, type=T,bucket=tail`. -/
def headerText (I T tail : Str) : Str :=
  "group_id=".toList ++ I ++ ", type=".toList ++ T ++ ",bucket=".toList ++ tail

/-- The comma that may end a bucket section. -/
def commaText (c : Bool) : Str := if c then [','] else []

/-- A bucket tail, from the actions `A` of its first section and, for each
further section, whether a comma comes before its `bucket=` and its actions:
`actions=A1bucket=actions=A2,bucket=actions=A3...`. -/
def bucketsText (A : Str) : List (Bool × Str) → Str
  | [] => "actions=".toList ++ A
  | (c, A1) :: rest =>
    "actions=".toList ++ A ++ commaText c ++ "bucket=".toList ++ bucketsText A1 rest

/-- A segment of counts, from the texts of its three counters and what follows
them: `ref_count=R,packet_count=P,byte_count=B...`. -/
def countsText (R P B tail : Str) : Str :=
  "ref_count=".toList ++ R ++ ",packet_count=".toList ++ P ++ ",byte_count=".toList ++ B
    ++ tail

/-- A group stats line, from the texts of its id, its duration and its counts:
`group_id=I,duration=Ds,counts`. -/
def statsText (I D counts : Str) : Str :=
  "group_id=".toList ++ I ++ ",duration=".toList ++ D ++ "s,".toList ++ counts

/-! ## Concrete inputs -/

/-- A symbolic `float64`: the zero value, or the value of a text. -/
inductive SymFloat where
  | zero
  | ofText (s : Str)
  deriving DecidableEq, Repr

instance : GoFloat64 SymFloat where
  zero := .zero
  ParseFloat s := (.ofText s, false)

/-- The line of scenario S1. -/
def lineS1 : Str :=
  " cookie=0x0, duration=12.345s, table=0, n_packets=5, n_bytes=420, idle_age=3, hard_age=7, priority=100,ip actions=output:2".toList

/-- A flow line whose duration is too large for a `float64`. -/
def lineBigDuration : Str :=
  " cookie=0x0, duration=1e999s, table=0, n_packets=5, n_bytes=420, idle_age=3, hard_age=7, priority=100,ip actions=output:2".toList

/-- The line of scenario S2. -/
def lineS2 : Str :=
  " cookie=0x0, duration=1s, table=0, n_packets=0, n_bytes=0, idle_age=0, hard_age=0, priority=0 actions=drop".toList

/-- First line of scenario S3. -/
def lineS3a : Str :=
  "  port  1: rx pkts=?, bytes=?, drop=0, errs=0, frame=0, over=0, crc=0".toList

/-- Second line of scenario S3. -/
def lineS3b : Str :=
  "           tx pkts=10, bytes=800, drop=0, errs=0, coll=0".toList

/-- A flow line whose packet counter is too large for an `int`. -/
def lineBigCounter : Str :=
  " cookie=0x0, duration=1s, table=0, n_packets=99999999999999999999, n_bytes=0, idle_age=0, hard_age=0, priority=1,ip actions=drop".toList

/-- A first line of a port block whose `errs` counter is a quoted `?`. -/
def lineQuotedUnknown : Str :=
  "  port  1: rx pkts=0, bytes=0, drop=0, errs=\"?, frame=0, over=0, crc=0".toList

/-- A first line of a port block whose port number is quoted. -/
def lineQuotedPort : Str :=
  "  port  \"1\": rx pkts=?, bytes=?, drop=0, errs=0, frame=0, over=0, crc=0".toList

/-- The group header line of scenario S5. -/
def lineS5header : Str :=
  "group_id=7, type=select,bucket=actions=output:1bucket=actions=output:2".toList

/-- The group stats line of scenario S5. -/
def lineS5stats : Str :=
  "group_id=7,duration=30s,ref_count=1,packet_count=100,byte_count=9000:ref_count=0,packet_count=60,byte_count=5400:ref_count=0,packet_count=40,byte_count=3600".toList

/-- A memory in which two Group variables share their bucket array, as after
the copy `g8 := g7` of a Group struct: the Group `7` of scenario S5 and a Group
`8` with the same slice. -/
def sharedHeap : Heap :=
  { groups :=
      [{ GroupId := "7".toList, GroupType := "select".toList, Duration := 0, Packets := 0,
         Bytes := 0, Buckets := ⟨0, 2⟩ },
       { GroupId := "8".toList, GroupType := "select".toList, Duration := 0, Packets := 0,
         Bytes := 0, Buckets := ⟨0, 2⟩ }]
    buckets := fun a =>
      [({ Actions := "output:1".toList, Packets := 0, Bytes := 0 } : Bucket),
       { Actions := "output:2".toList, Packets := 0, Bytes := 0 }].getD a Bucket.zero }

/-- A group header line for the id of scenario S5, with one bucket. -/
def lineOneBucket : Str := "group_id=7, type=select,bucket=actions=output:1".toList

/-- A first line of a port block whose `errs` counter is unknown. -/
def lineUnknownErrs : Str :=
  "  port  1: rx pkts=?, bytes=?, drop=0, errs=?, frame=0, over=0, crc=0".toList

/-- A port block with no unknown counter, first line. -/
def linePlainA : Str :=
  "  port  2: rx pkts=1, bytes=2, drop=3, errs=4, frame=5, over=6, crc=7".toList

/-- A port block with no unknown counter, second line. -/
def linePlainB : Str :=
  " tx pkts=10, bytes=800, drop=0, errs=8, coll=9".toList

/-- A dump source that returns the same lines, and no error, for every
operation. -/
def constSource (lines : List Str) : OvsDumpSource Unit where
  TunDumpFlows _ _ := (lines, none)
  TunDumpPorts _ _ := (lines, none)
  ExDumpFlows _ _ := (lines, none)
  ExDumpPorts _ _ := (lines, none)
  IntDumpFlows _ _ := (lines, none)
  IntDumpPorts _ _ := (lines, none)

/-- A dump source that fails with the error `e` for every operation, whatever
lines it returns along with it. -/
def failingSource {E : Type} (lines : List Str) (e : E) : OvsDumpSource E where
  TunDumpFlows _ _ := (lines, some e)
  TunDumpPorts _ _ := (lines, some e)
  ExDumpFlows _ _ := (lines, some e)
  ExDumpPorts _ _ := (lines, some e)
  IntDumpFlows _ _ := (lines, some e)
  IntDumpPorts _ _ := (lines, some e)

/-- The three bridge roles. -/
inductive Role where
  | Tun
  | Ex
  | Int
  deriving DecidableEq, Repr

/-- The flow dump operation of a role. -/
def OvsDumpSource.DumpFlows {E : Type} (src : OvsDumpSource E) : Role → Str → Int → List Str × Option E
  | .Tun => src.TunDumpFlows
  | .Ex => src.ExDumpFlows
  | .Int => src.IntDumpFlows

/-- The port dump operation of a role. -/
def OvsDumpSource.DumpPorts {E : Type} (src : OvsDumpSource E) : Role → Str → Int → List Str × Option E
  | .Tun => src.TunDumpPorts
  | .Ex => src.ExDumpPorts
  | .Int => src.IntDumpPorts

/-- The `Flows` method of a role. -/
def Flows {E F : Type} [GoFloat64 F] (role : Role) (o : OvsDumpReader E) (ip : Str) (port : Int) :
    Run (Option (List (Flow F)) × Option E) :=
  match role with
  | .Tun => TunFlows o ip port
  | .Ex => ExFlows o ip port
  | .Int => IntFlows o ip port

/-- The `Ports` method of a role. -/
def Ports {E : Type} (role : Role) (o : OvsDumpReader E) (ip : Str) (port : Int) :
    Run (Option (List Port) × Option E) :=
  match role with
  | .Tun => TunPorts o ip port
  | .Ex => ExPorts o ip port
  | .Int => IntPorts o ip port

/-- What one line contributes to the result of a `Flows` method: the record
when the line parser returns no error. -/
def flowOf {F : Type} [GoFloat64 F] (line : Str) : Option (Flow F) :=
  match (parseOpenFlowFlowDumpLine line : Flow F × Option String) with
  | (flow, none) => some flow
  | (_, some _) => none

/-- The flow records of a line sequence: the parser applied to each line in
order, keeping the records of the lines on which it returns no error. -/
def parsedFlows {F : Type} [GoFloat64 F] (lines : List Str) : List (Flow F) :=
  lines.filterMap flowOf

/-- The consecutive pairs of a line sequence; a trailing unpaired line is left
out. -/
def pairs : List Str → List (Str × Str)
  | a :: b :: rest => (a, b) :: pairs rest
  | _ => []

/-- What one pair of lines contributes to the result of a compacting `Ports`
method: the record when the block parser returns no error. -/
def portOf (p : Str × Str) : Option Port :=
  match parseOpenFlowPortDumpLine p.1 p.2 with
  | (port, none) => some port
  | (_, some _) => none

/-- The port records of a line sequence: the block parser applied to each
consecutive pair in order, keeping the records of the pairs on which it returns
no error. -/
def parsedPorts (lines : List Str) : List Port :=
  (pairs lines).filterMap portOf

/-- What `TunPorts` leaves in the slot of a pair of lines: the record when the
block parser returns no error, and the previous content `e` of the slot
otherwise. -/
def slotOf (p : Str × Str) (e : Port) : Port :=
  match parseOpenFlowPortDumpLine p.1 p.2 with
  | (port, none) => port
  | (_, some _) => e

/-- The records a façade operation returns: flows or ports. -/
abbrev Records (F : Type) := List (Flow F) ⊕ List Port

/-- The six façade operations. -/
inductive Op where
  | TunFlows
  | ExFlows
  | IntFlows
  | TunPorts
  | ExPorts
  | IntPorts
  deriving DecidableEq, Repr

/-- The dump-source operation a façade operation calls. -/
def Op.dump {E : Type} (op : Op) (src : OvsDumpSource E) : Str → Int → List Str × Option E :=
  match op with
  | .TunFlows => src.TunDumpFlows
  | .ExFlows => src.ExDumpFlows
  | .IntFlows => src.IntDumpFlows
  | .TunPorts => src.TunDumpPorts
  | .ExPorts => src.ExDumpPorts
  | .IntPorts => src.IntDumpPorts

/-- Tags the sequence of a result as flows. -/
def asFlows {E F : Type} (r : Run (Option (List (Flow F)) × Option E)) :
    Run (Option (Records F) × Option E) :=
  r.bind (fun p => .ok (p.1.map Sum.inl, p.2))

/-- Tags the sequence of a result as ports. -/
def asPorts {E F : Type} (r : Run (Option (List Port) × Option E)) :
    Run (Option (Records F) × Option E) :=
  r.bind (fun p => .ok (p.1.map Sum.inr, p.2))

/-- Runs a façade operation. -/
def Op.run {E F : Type} [GoFloat64 F] (op : Op) (o : OvsDumpReader E) (ip : Str) (port : Int) :
    Run (Option (Records F) × Option E) :=
  match op with
  | .TunFlows => asFlows (Ovs.TunFlows o ip port)
  | .ExFlows => asFlows (Ovs.ExFlows o ip port)
  | .IntFlows => asFlows (Ovs.IntFlows o ip port)
  | .TunPorts => asPorts (Ovs.TunPorts o ip port)
  | .ExPorts => asPorts (Ovs.ExPorts o ip port)
  | .IntPorts => asPorts (Ovs.IntPorts o ip port)

/-! ## Theorems -/

section loops

@[simp] theorem Run.pure_eq {α : Type} (a : α) : (pure a : Run α) = Run.ok a := rfl

@[simp] theorem Run.bind_eq {α β : Type} (x : Run α) (f : α → Run β) :
    (x >>= f) = Run.bind x f := rfl

@[simp] theorem Run.ok_bind {α β : Type} (a : α) (f : α → Run β) :
    Run.bind (Run.ok a) f = f a := rfl

@[simp] theorem Run.panic_bind {α β : Type} (p : Fault) (f : α → Run β) :
    Run.bind (Run.panic p) f = Run.panic p := rfl

theorem index_of_lt {α : Type} (xs : List α) (i : Nat) (h : i < xs.length) :
    index xs i = Run.ok xs[i] := by
  simp [index, List.getElem?_eq_getElem h]

theorem index_of_ge {α : Type} (xs : List α) (i : Nat) (h : xs.length ≤ i) :
    index xs i = Run.panic .indexOutOfRange := by
  simp [index, List.getElem?_eq_none h]

theorem index_append_cons {α : Type} (pre : List α) (x : α) (rest : List α) :
    index (pre ++ x :: rest) pre.length = Run.ok x := by
  have h : (pre ++ x :: rest)[pre.length]? = some x := by
    rw [List.getElem?_append_right (Nat.le_refl _)]
    simp
  simp [index, h]

theorem take_succ_set {α : Type} (x : α) :
    ∀ (rs : List α) (i : Nat), i < rs.length → (rs.set i x).take (i + 1) = rs.take i ++ [x]
  | [], i, h => by simp at h
  | r :: rs, 0, _ => by simp
  | r :: rs, i + 1, h => by
    have h1 : i < rs.length := by simpa using h
    simp [take_succ_set x rs i h1]

theorem drop_succ_set {α : Type} (x : α) :
    ∀ (rs : List α) (i k : Nat), (rs.set i x).drop (i + 1 + k) = rs.drop (i + 1 + k)
  | [], i, k => by simp
  | r :: rs, 0, k => by simp [Nat.add_comm]
  | r :: rs, i + 1, k => by
    have h := drop_succ_set x rs i k
    have e : i + 1 + 1 + k = (i + 1 + k) + 1 := by omega
    rw [e]
    simpa using h

/-- The copy loop moves the first `c` entries of `entrySet` into `retrySet`. -/
theorem copy_loop {α : Type} (es : List α) (c : Nat) (hc : c ≤ es.length) :
    ∀ (fuel i : Nat) (rs : List α), i ≤ c → c - i ≤ fuel → rs.length = c →
      forLoop (fun i => decide (i < c)) (· + 1) (copyBody es) fuel i rs
        = Run.ok (rs.take i ++ (es.take c).drop i) := by
  intro fuel
  induction fuel with
  | zero =>
    intro i rs hi hf hl
    have : i = c := by omega
    subst this
    simp [forLoop, ← hl]
  | succ fuel ih =>
    intro i rs hi hf hl
    by_cases h : i < c
    · have hes : i < es.length := by omega
      have hrs : i < rs.length := by omega
      simp only [forLoop, h, decide_True, if_true, copyBody, Run.bind_eq,
        index_of_lt es i hes, Run.ok_bind, assign, hrs]
      rw [ih (i + 1) _ (by omega) (by omega) (by simpa using hl)]
      congr 1
      have h1 : (List.take c es).drop i = es[i] :: (List.take c es).drop (i + 1) := by
        rw [List.drop_eq_getElem_cons (by simp; omega)]
        simp
      rw [h1, take_succ_set _ _ _ hrs]
      simp
    · have : i = c := by omega
      subst this
      simp [forLoop, ← hl]

/-- The copy loop started on `make(c)` returns the first `c` entries. -/
theorem copy_loop_make {α : Type} (es : List α) (c : Nat) (z : α) (hc : c ≤ es.length) :
    forLoop (fun i => decide (i < c)) (· + 1) (copyBody es) c 0 (make c z)
      = Run.ok (es.take c) := by
  rw [copy_loop es c hc c 0 (make c z) (by omega) (by omega) (by simp [make])]
  simp

/-- The guarded copy loop is the copy loop when the error is `nil`. -/
theorem copyBodyGuarded_none {α E : Type} (es : List α) :
    copyBodyGuarded (none : Option E) es = copyBody es := by
  funext i rs
  simp [copyBodyGuarded]

/-- The scan loop of the `Flows` methods writes the records of the remaining
lines from position `counter` on. -/
theorem flow_scan_loop {F : Type} [GoFloat64 F] (lines : List Str) :
    ∀ (rest pre : List Str) (es : List (Flow F)) (c fuel : Nat),
      lines = pre ++ rest → rest.length ≤ fuel → c ≤ pre.length → es.length = lines.length →
      forLoop (fun i => decide (i < lines.length)) (· + 1) (flowScanBody lines) fuel
          pre.length (es, c)
        = Run.ok (es.take c ++ rest.filterMap flowOf
            ++ es.drop (c + (rest.filterMap (flowOf : Str → Option (Flow F))).length),
          c + (rest.filterMap (flowOf : Str → Option (Flow F))).length) := by
  intro rest
  induction rest with
  | nil =>
    intro pre es c fuel hl hf hc he
    have hlen : lines.length = pre.length := by simp [hl]
    cases fuel <;> simp [forLoop, hlen]
  | cons l rest ih =>
    intro pre es c fuel hl hf hc he
    have hlen : pre.length < lines.length := by simp [hl]
    obtain ⟨fuel, rfl⟩ : ∃ f, fuel = f + 1 := ⟨fuel - 1, by simp at hf; omega⟩
    have hidx : index lines pre.length = Run.ok l := by
      rw [hl]; exact index_append_cons pre l rest
    have hl2 : lines = (pre ++ [l]) ++ rest := by simp [hl]
    have hpl : (pre ++ [l]).length = pre.length + 1 := by simp
    have hces : c < es.length := by omega
    simp only [forLoop, hlen, decide_True, if_true, flowScanBody, Run.bind_eq, hidx,
      Run.ok_bind]
    rcases hp : (parseOpenFlowFlowDumpLine l : Flow F × Option String) with ⟨flow, err⟩
    cases err with
    | none =>
      have hfo : (flowOf l : Option (Flow F)) = some flow := by simp [flowOf, hp]
      simp only [assign, hces, if_true, Run.ok_bind, Run.pure_eq]
      rw [← hpl, ih (pre ++ [l]) _ (c + 1) fuel hl2 (by simp at hf; omega) (by omega)
        (by simpa using he)]
      simp only [List.filterMap_cons, hfo, List.length_cons]
      rw [take_succ_set _ _ _ hces]
      have e : c + 1 + (List.filterMap (flowOf : Str → Option (Flow F)) rest).length
          = c + ((List.filterMap (flowOf : Str → Option (Flow F)) rest).length + 1) := by omega
      rw [drop_succ_set, e]
      simp
    | some e =>
      have hfo : (flowOf l : Option (Flow F)) = none := by simp [flowOf, hp]
      simp only [Run.pure_eq, reduceCtorEq, if_false, Run.ok_bind]
      rw [← hpl, ih (pre ++ [l]) _ c fuel hl2 (by simp at hf; omega) (by omega) he]
      simp only [List.filterMap_cons, hfo]

/-- The two loops of a `Flows` method compute the records of the lines. -/
theorem flows_loops {E F : Type} [GoFloat64 F] (lines : List Str) :
    (forLoop (fun i => decide (i < lines.length)) (· + 1) (flowScanBody lines) lines.length 0
        (make lines.length (Flow.zero : Flow F), 0)).bind
      (fun st => (forLoop (fun i => decide (i < st.2)) (· + 1) (copyBody st.1) st.2 0
        (make st.2 Flow.zero)).bind (fun retrySet => Run.ok (some retrySet, (none : Option E))))
      = Run.ok (some (parsedFlows lines), none) := by
  have h := flow_scan_loop lines lines [] (make lines.length (Flow.zero : Flow F)) 0
    lines.length rfl (Nat.le_refl _) (Nat.le_refl _) (by simp [make])
  simp only [List.length_nil] at h
  rw [h]
  simp only [Run.ok_bind, List.take_zero, List.nil_append, Nat.zero_add]
  rw [copy_loop_make _ _ _ (by simp)]
  simp [parsedFlows]

theorem index_append_cons_succ {α : Type} (pre : List α) (x y : α) (rest : List α) :
    index (pre ++ x :: y :: rest) (pre.length + 1) = Run.ok y := by
  have h := index_append_cons (pre ++ [x]) y rest
  simpa using h

/-- The scan loop of `IntPorts` writes the records of the remaining pairs from
position `counter` on, and skips a trailing unpaired line. -/
theorem int_scan_loop (lines : List Str) :
    ∀ (rest pre : List Str) (es : List Port) (c fuel : Nat),
      lines = pre ++ rest → rest.length ≤ fuel → c + rest.length / 2 ≤ es.length →
      forLoop (fun i => decide (i < lines.length)) (· + 2) (intPortBody lines) fuel
          pre.length (es, c)
        = Run.ok (es.take c ++ (pairs rest).filterMap portOf
            ++ es.drop (c + ((pairs rest).filterMap portOf).length),
          c + ((pairs rest).filterMap portOf).length)
  | [], pre, es, c, fuel, hl, _, _ => by
    have hlen : lines.length = pre.length := by simp [hl]
    cases fuel <;> simp [forLoop, hlen, pairs]
  | [a], pre, es, c, fuel, hl, hf, _ => by
    have hlen : lines.length = pre.length + 1 := by simp [hl]
    obtain ⟨fuel, rfl⟩ : ∃ f, fuel = f + 1 := ⟨fuel - 1, by simp at hf; omega⟩
    cases fuel <;> simp [forLoop, hlen, intPortBody, pairs]
  | a :: b :: rest, pre, es, c, fuel, hl, hf, he => by
    have hlen : lines.length = pre.length + rest.length + 2 := by simp [hl]; omega
    obtain ⟨fuel, rfl⟩ : ∃ f, fuel = f + 1 := ⟨fuel - 1, by simp at hf; omega⟩
    have hl2 : lines = (pre ++ [a, b]) ++ rest := by simp [hl]
    have hpl : (pre ++ [a, b]).length = pre.length + 2 := by simp
    have hces : c < es.length := by simp at he; omega
    have hi0 : index lines pre.length = Run.ok a := by
      rw [hl]; exact index_append_cons pre a (b :: rest)
    have hi1 : index lines (pre.length + 1) = Run.ok b := by
      rw [hl]; exact index_append_cons_succ pre a b rest
    have hc1 : pre.length < lines.length := by omega
    have hc2 : pre.length + 1 < lines.length := by omega
    simp only [forLoop, hc1, decide_True, if_true, intPortBody, hc2, Run.bind_eq, hi0, hi1,
      Run.ok_bind]
    rcases hp : parseOpenFlowPortDumpLine a b with ⟨entry, err⟩
    cases err with
    | none =>
      have hfo : portOf (a, b) = some entry := by simp [portOf, hp]
      simp only [assign, hces, if_true, Run.ok_bind, Run.pure_eq]
      rw [← hpl, int_scan_loop lines rest (pre ++ [a, b]) _ (c + 1) fuel hl2
        (by simp at hf; omega) (by simp at he ⊢; omega)]
      simp only [pairs, List.filterMap_cons, hfo, List.length_cons]
      rw [take_succ_set _ _ _ hces]
      have e : c + 1 + (List.filterMap portOf (pairs rest)).length
          = c + ((List.filterMap portOf (pairs rest)).length + 1) := by omega
      rw [drop_succ_set, e]
      simp
    | some e =>
      have hfo : portOf (a, b) = none := by simp [portOf, hp]
      simp only [Run.pure_eq, reduceCtorEq, if_false, Run.ok_bind]
      rw [← hpl, int_scan_loop lines rest (pre ++ [a, b]) _ c fuel hl2
        (by simp at hf; omega) (by simp at he ⊢; omega)]
      simp only [pairs, List.filterMap_cons, hfo]

/-- On what remains of the lines when an even number of them is left, the scan
loop of `ExPorts` does what the scan loop of `IntPorts` does. -/
theorem ex_scan_loop (lines : List Str) :
    ∀ (rest pre : List Str) (es : List Port) (c fuel : Nat),
      lines = pre ++ rest → rest.length % 2 = 0 → rest.length ≤ fuel →
      c + rest.length / 2 ≤ es.length →
      forLoop (fun i => decide (i < lines.length)) (· + 2) (exPortBody lines) fuel
          pre.length (es, c)
        = Run.ok (es.take c ++ (pairs rest).filterMap portOf
            ++ es.drop (c + ((pairs rest).filterMap portOf).length),
          c + ((pairs rest).filterMap portOf).length)
  | [], pre, es, c, fuel, hl, _, _, _ => by
    have hlen : lines.length = pre.length := by simp [hl]
    cases fuel <;> simp [forLoop, hlen, pairs]
  | [a], pre, es, c, fuel, hl, hev, hf, _ => by
    simp at hev
  | a :: b :: rest, pre, es, c, fuel, hl, hev, hf, he => by
    have hlen : lines.length = pre.length + rest.length + 2 := by simp [hl]; omega
    obtain ⟨fuel, rfl⟩ : ∃ f, fuel = f + 1 := ⟨fuel - 1, by simp at hf; omega⟩
    have hl2 : lines = (pre ++ [a, b]) ++ rest := by simp [hl]
    have hpl : (pre ++ [a, b]).length = pre.length + 2 := by simp
    have hces : c < es.length := by simp at he; omega
    have hev2 : rest.length % 2 = 0 := by simp at hev; omega
    have hi0 : index lines pre.length = Run.ok a := by
      rw [hl]; exact index_append_cons pre a (b :: rest)
    have hi1 : index lines (pre.length + 1) = Run.ok b := by
      rw [hl]; exact index_append_cons_succ pre a b rest
    have hc1 : pre.length < lines.length := by omega
    simp only [forLoop, hc1, decide_True, if_true, exPortBody, Run.bind_eq, hi0, hi1,
      Run.ok_bind]
    rcases hp : parseOpenFlowPortDumpLine a b with ⟨entry, err⟩
    cases err with
    | none =>
      have hfo : portOf (a, b) = some entry := by simp [portOf, hp]
      simp only [assign, hces, if_true, Run.ok_bind, Run.pure_eq]
      rw [← hpl, ex_scan_loop lines rest (pre ++ [a, b]) _ (c + 1) fuel hl2 hev2
        (by simp at hf; omega) (by simp at he ⊢; omega)]
      simp only [pairs, List.filterMap_cons, hfo, List.length_cons]
      rw [take_succ_set _ _ _ hces]
      have e : c + 1 + (List.filterMap portOf (pairs rest)).length
          = c + ((List.filterMap portOf (pairs rest)).length + 1) := by omega
      rw [drop_succ_set, e]
      simp
    | some e =>
      have hfo : portOf (a, b) = none := by simp [portOf, hp]
      simp only [Run.pure_eq, reduceCtorEq, if_false, Run.ok_bind]
      rw [← hpl, ex_scan_loop lines rest (pre ++ [a, b]) _ c fuel hl2 hev2
        (by simp at hf; omega) (by simp at he ⊢; omega)]
      simp only [pairs, List.filterMap_cons, hfo]

theorem pairs_length_le (lines : List Str) : (pairs lines).length ≤ lines.length / 2 := by
  match lines with
  | [] => simp [pairs]
  | [a] => simp [pairs]
  | a :: b :: rest =>
    have := pairs_length_le rest
    simp only [pairs, List.length_cons]
    omega

theorem parsedPorts_length_le (lines : List Str) :
    (parsedPorts lines).length ≤ lines.length / 2 :=
  Nat.le_trans (List.length_filterMap_le _ _) (pairs_length_le lines)

/-- The two loops of `IntPorts` compute the records of the pairs of lines. -/
theorem int_ports_loops {E : Type} (lines : List Str) :
    (forLoop (fun i => decide (i < lines.length)) (· + 2) (intPortBody lines) lines.length 0
        (make (lines.length / 2) Port.zero, 0)).bind
      (fun st => (forLoop (fun i => decide (i < st.2)) (· + 1) (copyBody st.1) st.2 0
        (make st.2 Port.zero)).bind (fun retrySet => Run.ok (some retrySet, (none : Option E))))
      = Run.ok (some (parsedPorts lines), none) := by
  have h := int_scan_loop lines lines [] (make (lines.length / 2) Port.zero) 0
    lines.length rfl (Nat.le_refl _) (by simp [make])
  simp only [List.length_nil] at h
  rw [h]
  simp only [Run.ok_bind, List.take_zero, List.nil_append, Nat.zero_add]
  rw [copy_loop_make _ _ _ (by simp)]
  simp [parsedPorts]

/-- On an even number of lines the two loops of `ExPorts` compute the records
of the pairs of lines. -/
theorem ex_ports_loops {E : Type} (lines : List Str) (hev : lines.length % 2 = 0) :
    (forLoop (fun i => decide (i < lines.length)) (· + 2) (exPortBody lines) lines.length 0
        (make (lines.length / 2) Port.zero, 0)).bind
      (fun st => (forLoop (fun i => decide (i < st.2)) (· + 1) (copyBody st.1) st.2 0
        (make st.2 Port.zero)).bind (fun retrySet => Run.ok (some retrySet, (none : Option E))))
      = Run.ok (some (parsedPorts lines), none) := by
  have h := ex_scan_loop lines lines [] (make (lines.length / 2) Port.zero) 0
    lines.length rfl hev (Nat.le_refl _) (by simp [make])
  simp only [List.length_nil] at h
  rw [h]
  simp only [Run.ok_bind, List.take_zero, List.nil_append, Nat.zero_add]
  rw [copy_loop_make _ _ _ (by simp)]
  simp [parsedPorts]

/-- The method `IntPorts` on lines returned without error. -/
theorem IntPorts_eq {E : Type} (o : OvsDumpReader E) (ip : Str) (port : Int) (L : List Str)
    (h : o.dumpSource.IntDumpPorts ip port = (L, none)) :
    IntPorts o ip port = Run.ok (some (parsedPorts L), none) := by
  simp only [IntPorts, h, Option.isSome_none, Bool.false_eq_true, if_false, Run.bind_eq,
    Run.pure_eq]
  exact int_ports_loops L

/-- The method `ExPorts` on an even number of lines returned without error. -/
theorem ExPorts_eq {E : Type} (o : OvsDumpReader E) (ip : Str) (port : Int) (L : List Str)
    (h : o.dumpSource.ExDumpPorts ip port = (L, none)) (hev : L.length % 2 = 0) :
    ExPorts o ip port = Run.ok (some (parsedPorts L), none) := by
  simp only [ExPorts, h, Option.isSome_none, Bool.false_eq_true, if_false, Run.bind_eq,
    Run.pure_eq, copyBodyGuarded_none]
  exact ex_ports_loops L hev

/-- On an even number of lines the loop of `TunPorts` fills the slot of each
pair on which the block parser succeeds and leaves the other slots as they are. -/
theorem tun_scan_loop (lines : List Str) :
    ∀ (rest pre : List Str) (es : List Port) (fuel : Nat),
      lines = pre ++ rest → rest.length % 2 = 0 → pre.length % 2 = 0 → rest.length ≤ fuel →
      es.length = lines.length / 2 →
      forLoop (fun i => decide (i < lines.length)) (· + 2) (tunPortBody lines) fuel
          pre.length es
        = Run.ok (es.take (pre.length / 2)
            ++ List.zipWith slotOf (pairs rest) (es.drop (pre.length / 2)))
  | [], pre, es, fuel, hl, _, _, _, he => by
    have hlen : lines.length = pre.length := by simp [hl]
    have : es.length ≤ pre.length / 2 := by omega
    cases fuel <;> simp [forLoop, hlen, pairs, List.take_of_length_le this]
  | [a], pre, es, fuel, hl, hev, _, _, _ => by
    simp at hev
  | a :: b :: rest, pre, es, fuel, hl, hev, hpe, hf, he => by
    have hlen : lines.length = pre.length + rest.length + 2 := by simp [hl]; omega
    obtain ⟨fuel, rfl⟩ : ∃ f, fuel = f + 1 := ⟨fuel - 1, by simp at hf; omega⟩
    have hl2 : lines = (pre ++ [a, b]) ++ rest := by simp [hl]
    have hpl : (pre ++ [a, b]).length = pre.length + 2 := by simp
    have hev2 : rest.length % 2 = 0 := by simp at hev; omega
    have hces : pre.length / 2 < es.length := by omega
    have hhalf : (pre.length + 2) / 2 = pre.length / 2 + 1 := by omega
    have hi0 : index lines pre.length = Run.ok a := by
      rw [hl]; exact index_append_cons pre a (b :: rest)
    have hi1 : index lines (pre.length + 1) = Run.ok b := by
      rw [hl]; exact index_append_cons_succ pre a b rest
    have hc1 : pre.length < lines.length := by omega
    have hdrop : es.drop (pre.length / 2)
        = es[pre.length / 2] :: es.drop (pre.length / 2 + 1) :=
      List.drop_eq_getElem_cons hces
    simp only [forLoop, hc1, decide_True, if_true, tunPortBody, Run.bind_eq, hi0, hi1,
      Run.ok_bind]
    rcases hp : parseOpenFlowPortDumpLine a b with ⟨entry, err⟩
    cases err with
    | none =>
      have hso : ∀ e, slotOf (a, b) e = entry := by intro e; simp [slotOf, hp]
      simp only [assign, hces, if_true, Run.ok_bind, Run.pure_eq]
      rw [← hpl, tun_scan_loop lines rest (pre ++ [a, b]) _ fuel hl2 hev2
        (by rw [hpl]; omega) (by simp at hf; omega) (by simpa using he)]
      rw [hpl, hhalf, take_succ_set _ _ _ hces]
      have := drop_succ_set entry es (pre.length / 2) 0
      simp only [Nat.add_zero] at this
      rw [this, hdrop]
      simp only [pairs, List.zipWith_cons_cons, hso, List.append_assoc, List.singleton_append]
    | some e =>
      have hso : ∀ e, slotOf (a, b) e = e := by intro e; simp [slotOf, hp]
      simp only [Run.pure_eq, reduceCtorEq, if_false, Run.ok_bind]
      rw [← hpl, tun_scan_loop lines rest (pre ++ [a, b]) _ fuel hl2 hev2
        (by rw [hpl]; omega) (by simp at hf; omega) he]
      rw [hpl, hhalf, List.take_succ, hdrop, List.getElem?_eq_getElem hces]
      simp only [pairs, List.zipWith_cons_cons, hso, List.append_assoc, Option.toList,
        List.singleton_append]

/-- On an odd number of remaining lines the loop of `TunPorts` panics. -/
theorem tun_scan_loop_odd (lines : List Str) :
    ∀ (rest pre : List Str) (es : List Port) (fuel : Nat),
      lines = pre ++ rest → rest.length % 2 = 1 → pre.length % 2 = 0 → rest.length ≤ fuel →
      es.length = lines.length / 2 →
      forLoop (fun i => decide (i < lines.length)) (· + 2) (tunPortBody lines) fuel
          pre.length es
        = Run.panic .indexOutOfRange
  | [], pre, es, fuel, hl, hodd, _, _, _ => by
    simp at hodd
  | [a], pre, es, fuel, hl, _, _, hf, _ => by
    have hlen : lines.length = pre.length + 1 := by simp [hl]
    obtain ⟨fuel, rfl⟩ : ∃ f, fuel = f + 1 := ⟨fuel - 1, by simp at hf; omega⟩
    have hi0 : index lines pre.length = Run.ok a := by
      rw [hl]; exact index_append_cons pre a []
    have hi1 : index lines (pre.length + 1) = Run.panic .indexOutOfRange :=
      index_of_ge _ _ (by omega)
    simp [forLoop, hlen, tunPortBody, hi0, hi1]
  | a :: b :: rest, pre, es, fuel, hl, hodd, hpe, hf, he => by
    have hlen : lines.length = pre.length + rest.length + 2 := by simp [hl]; omega
    obtain ⟨fuel, rfl⟩ : ∃ f, fuel = f + 1 := ⟨fuel - 1, by simp at hf; omega⟩
    have hl2 : lines = (pre ++ [a, b]) ++ rest := by simp [hl]
    have hpl : (pre ++ [a, b]).length = pre.length + 2 := by simp
    have hodd2 : rest.length % 2 = 1 := by simp at hodd; omega
    have hces : pre.length / 2 < es.length := by omega
    have hi0 : index lines pre.length = Run.ok a := by
      rw [hl]; exact index_append_cons pre a (b :: rest)
    have hi1 : index lines (pre.length + 1) = Run.ok b := by
      rw [hl]; exact index_append_cons_succ pre a b rest
    have hc1 : pre.length < lines.length := by omega
    simp only [forLoop, hc1, decide_True, if_true, tunPortBody, Run.bind_eq, hi0, hi1,
      Run.ok_bind]
    rcases hp : parseOpenFlowPortDumpLine a b with ⟨entry, err⟩
    cases err with
    | none =>
      simp only [assign, hces, if_true, Run.ok_bind, Run.pure_eq]
      rw [← hpl]
      exact tun_scan_loop_odd lines rest (pre ++ [a, b]) _ fuel hl2 hodd2
        (by rw [hpl]; omega) (by simp at hf; omega) (by simpa using he)
    | some e =>
      simp only [Run.pure_eq, reduceCtorEq, if_false, Run.ok_bind]
      rw [← hpl]
      exact tun_scan_loop_odd lines rest (pre ++ [a, b]) _ fuel hl2 hodd2
        (by rw [hpl]; omega) (by simp at hf; omega) he

/-- On an odd number of remaining lines the scan loop of `ExPorts` panics. -/
theorem ex_scan_loop_odd (lines : List Str) :
    ∀ (rest pre : List Str) (es : List Port) (c fuel : Nat),
      lines = pre ++ rest → rest.length % 2 = 1 → rest.length ≤ fuel →
      c + rest.length / 2 ≤ es.length →
      forLoop (fun i => decide (i < lines.length)) (· + 2) (exPortBody lines) fuel
          pre.length (es, c)
        = Run.panic .indexOutOfRange
  | [], pre, es, c, fuel, hl, hodd, _, _ => by
    simp at hodd
  | [a], pre, es, c, fuel, hl, _, hf, _ => by
    have hlen : lines.length = pre.length + 1 := by simp [hl]
    obtain ⟨fuel, rfl⟩ : ∃ f, fuel = f + 1 := ⟨fuel - 1, by simp at hf; omega⟩
    have hi0 : index lines pre.length = Run.ok a := by
      rw [hl]; exact index_append_cons pre a []
    have hi1 : index lines (pre.length + 1) = Run.panic .indexOutOfRange :=
      index_of_ge _ _ (by omega)
    simp [forLoop, hlen, exPortBody, hi0, hi1]
  | a :: b :: rest, pre, es, c, fuel, hl, hodd, hf, he => by
    have hlen : lines.length = pre.length + rest.length + 2 := by simp [hl]; omega
    obtain ⟨fuel, rfl⟩ : ∃ f, fuel = f + 1 := ⟨fuel - 1, by simp at hf; omega⟩
    have hl2 : lines = (pre ++ [a, b]) ++ rest := by simp [hl]
    have hpl : (pre ++ [a, b]).length = pre.length + 2 := by simp
    have hodd2 : rest.length % 2 = 1 := by simp at hodd; omega
    have hces : c < es.length := by simp at he; omega
    have hi0 : index lines pre.length = Run.ok a := by
      rw [hl]; exact index_append_cons pre a (b :: rest)
    have hi1 : index lines (pre.length + 1) = Run.ok b := by
      rw [hl]; exact index_append_cons_succ pre a b rest
    have hc1 : pre.length < lines.length := by omega
    simp only [forLoop, hc1, decide_True, if_true, exPortBody, Run.bind_eq, hi0, hi1,
      Run.ok_bind]
    rcases hp : parseOpenFlowPortDumpLine a b with ⟨entry, err⟩
    cases err with
    | none =>
      simp only [assign, hces, if_true, Run.ok_bind, Run.pure_eq]
      rw [← hpl]
      exact ex_scan_loop_odd lines rest (pre ++ [a, b]) _ (c + 1) fuel hl2 hodd2
        (by simp at hf; omega) (by simp at he ⊢; omega)
    | some e =>
      simp only [Run.pure_eq, reduceCtorEq, if_false, Run.ok_bind]
      rw [← hpl]
      exact ex_scan_loop_odd lines rest (pre ++ [a, b]) _ c fuel hl2 hodd2
        (by simp at hf; omega) (by simp at he ⊢; omega)

/-- The method `TunPorts` on an even number of lines returned without error:
one slot per pair, zero-valued when the block parser fails on the pair. -/
theorem TunPorts_eq {E : Type} (o : OvsDumpReader E) (ip : Str) (port : Int) (L : List Str)
    (h : o.dumpSource.TunDumpPorts ip port = (L, none)) (hev : L.length % 2 = 0) :
    TunPorts o ip port
      = Run.ok (some ((pairs L).map (fun p => slotOf p Port.zero)), none) := by
  simp only [TunPorts, h, Option.isSome_none, Bool.false_eq_true, if_false, Run.bind_eq,
    Run.pure_eq]
  have hl := tun_scan_loop L L [] (make (L.length / 2) Port.zero) L.length rfl hev rfl
    (Nat.le_refl _) (by simp [make])
  simp only [List.length_nil] at hl
  rw [hl]
  simp only [Run.ok_bind, Nat.zero_div, List.take_zero, List.nil_append, List.drop_zero]
  have hz : ∀ (ps : List (Str × Str)) (n : Nat), ps.length ≤ n →
      List.zipWith slotOf ps (List.replicate n Port.zero)
        = ps.map (fun p => slotOf p Port.zero) := by
    intro ps
    induction ps with
    | nil => intro n _; simp
    | cons p ps ih =>
      intro n hn
      obtain ⟨n, rfl⟩ : ∃ m, n = m + 1 := ⟨n - 1, by simp at hn; omega⟩
      simp [List.replicate_succ, ih n (by simpa using hn)]
  rw [make, hz _ _ (pairs_length_le L)]

/-- The method `TunPorts` panics on an odd number of lines. -/
theorem TunPorts_panics_of_odd {E : Type} (o : OvsDumpReader E) (ip : Str) (port : Int)
    (L : List Str) (h : o.dumpSource.TunDumpPorts ip port = (L, none))
    (hodd : L.length % 2 = 1) : TunPorts o ip port = Run.panic .indexOutOfRange := by
  simp only [TunPorts, h, Option.isSome_none, Bool.false_eq_true, if_false, Run.bind_eq,
    Run.pure_eq]
  have hl := tun_scan_loop_odd L L [] (make (L.length / 2) Port.zero) L.length rfl hodd rfl
    (Nat.le_refl _) (by simp [make])
  simp only [List.length_nil] at hl
  rw [hl]
  rfl

/-- The method `ExPorts` panics on an odd number of lines. -/
theorem ExPorts_panics_of_odd {E : Type} (o : OvsDumpReader E) (ip : Str) (port : Int)
    (L : List Str) (h : o.dumpSource.ExDumpPorts ip port = (L, none))
    (hodd : L.length % 2 = 1) : ExPorts o ip port = Run.panic .indexOutOfRange := by
  simp only [ExPorts, h, Option.isSome_none, Bool.false_eq_true, if_false, Run.bind_eq,
    Run.pure_eq]
  have hl := ex_scan_loop_odd L L [] (make (L.length / 2) Port.zero) 0 L.length rfl hodd
    (Nat.le_refl _) (by simp [make])
  simp only [List.length_nil] at hl
  rw [hl]
  rfl

end loops

section regexp

theorem starGreedy_some (c : CClass) (k : Str → Option Caps) :
    ∀ (s : Str) (r : Caps), starGreedy c k s = some r → ∃ t, k t = some r
  | [], r, h => ⟨[], h⟩
  | x :: s, r, h => by
    unfold starGreedy at h
    split at h
    · split at h
      · rename_i r1 h1
        cases h
        exact starGreedy_some c k s r h1
      · exact ⟨_, h⟩
    · exact ⟨_, h⟩

theorem starLazy_some (c : CClass) (k : Str → Option Caps) :
    ∀ (s : Str) (r : Caps), starLazy c k s = some r → ∃ t, k t = some r
  | [], r, h => ⟨[], h⟩
  | x :: s, r, h => by
    unfold starLazy at h
    split at h
    · rename_i r1 h1
      cases h
      exact ⟨_, h1⟩
    · split at h
      · exact starLazy_some c k s r h
      · cases h

/-- Matching keeps the number of capture registers. -/
theorem RE.run_length (n : Nat) :
    ∀ (re : RE) (k : Str → Caps → Option Caps),
      (∀ t c r, c.length = n → k t c = some r → r.length = n) →
      ∀ (s : Str) (caps r : Caps), caps.length = n → re.run k s caps = some r → r.length = n := by
  intro re
  induction re with
  | lit w =>
    intro k hk s caps r hc h
    unfold RE.run at h
    split at h
    · exact hk _ _ _ hc h
    · cases h
  | cls c =>
    intro k hk s caps r hc h
    unfold RE.run at h
    split at h
    · cases h
    · split at h
      · exact hk _ _ _ hc h
      · cases h
  | star g c =>
    intro k hk s caps r hc h
    cases g
    · unfold RE.run at h
      obtain ⟨t, ht⟩ := starLazy_some _ _ _ _ h
      exact hk _ _ _ hc ht
    · unfold RE.run at h
      obtain ⟨t, ht⟩ := starGreedy_some _ _ _ _ h
      exact hk _ _ _ hc ht
  | seq a b iha ihb =>
    intro k hk s caps r hc h
    unfold RE.run at h
    exact iha _ (fun t c r1 hc1 h1 => ihb k hk t c r1 hc1 h1) s caps r hc h
  | opt a iha =>
    intro k hk s caps r hc h
    unfold RE.run at h
    split at h
    · rename_i r1 h1
      cases h
      exact iha k hk s caps _ hc h1
    · exact hk _ _ _ hc h
  | group idx a iha =>
    intro k hk s caps r hc h
    unfold RE.run at h
    exact iha _ (fun t c r1 hc1 h1 => hk t _ r1 (by simpa using hc1) h1) s caps r hc h
  | eot =>
    intro k hk s caps r hc h
    unfold RE.run at h
    split at h
    · exact hk _ _ _ hc h
    · cases h

theorem Regexp.matchHere_length (r : Regexp) (s : Str) (caps : Caps)
    (h : r.matchHere s = some caps) : caps.length = r.names.length := by
  unfold Regexp.matchHere at h
  refine RE.run_length r.names.length r.re _ ?_ s _ caps (by simp) h
  intro t c r1 hc h1
  cases h1
  simpa using hc

theorem Regexp.search_length (r : Regexp) :
    ∀ (s : Str) (caps : Caps), r.search s = some caps → caps.length = r.names.length
  | [], caps, h => r.matchHere_length [] caps h
  | x :: s, caps, h => by
    unfold Regexp.search at h
    split at h
    · rename_i c1 h1
      cases h
      exact r.matchHere_length _ _ h1
    · exact Regexp.search_length r s caps h

/-- The result of `FindStringSubmatch` is nil or has one entry per group name. -/
theorem Regexp.FindStringSubmatch_length (r : Regexp) (s : Str) :
    r.FindStringSubmatch s = [] ∨ (r.FindStringSubmatch s).length = r.names.length := by
  unfold Regexp.FindStringSubmatch
  split
  · rename_i caps h
    exact Or.inr (r.search_length s caps h)
  · exact Or.inl rfl

theorem StrMap.insert_ne_nil (m : StrMap) (k : String) (v : Str) : m.insert k v ≠ [] := by
  cases m with
  | nil => simp [StrMap.insert]
  | cons p rest =>
    obtain ⟨k1, v1⟩ := p
    unfold StrMap.insert
    split <;> simp

theorem foldl_insert_ne_nil :
    ∀ (ps : List (String × Str)) (m : StrMap), m ≠ [] →
      ps.foldl (fun result p => StrMap.insert result p.1 p.2) m ≠ []
  | [], m, h => h
  | p :: ps, m, _ => by
    simp only [List.foldl_cons]
    exact foldl_insert_ne_nil ps _ (StrMap.insert_ne_nil m p.1 p.2)

/-- The map of `getRegexpMap` is empty exactly when the match is nil. -/
theorem getRegexpMap_length_eq_zero (m : List Str) (names : List String) (hn : names ≠ []) :
    (getRegexpMap m names).length = 0 ↔ m = [] := by
  constructor
  · intro h
    cases m with
    | nil => rfl
    | cons c cs =>
      cases names with
      | nil => exact absurd rfl hn
      | cons n ns =>
        exfalso
        have := foldl_insert_ne_nil (ns.zip cs) (StrMap.insert [] n c)
          (StrMap.insert_ne_nil _ _ _)
        simp only [getRegexpMap, List.zip_cons_cons, List.foldl_cons] at h
        exact this (List.length_eq_zero.mp h)
  · intro h
    subst h
    simp [getRegexpMap]

theorem list_length_12 {α : Type} (m : List α) (h : m.length = 12) :
    ∃ c0 c1 c2 c3 c4 c5 c6 c7 c8 c9 c10 c11, m = [c0, c1, c2, c3, c4, c5, c6, c7, c8, c9, c10, c11] := by
  match m, h with
  | [c0, c1, c2, c3, c4, c5, c6, c7, c8, c9, c10, c11], _ =>
    exact ⟨c0, c1, c2, c3, c4, c5, c6, c7, c8, c9, c10, c11, rfl⟩

/-- The map built from the twelve registers of a match of `flowLine`. -/
theorem flow_map_explicit (c0 c1 c2 c3 c4 c5 c6 c7 c8 c9 c10 c11 : Str) :
    getRegexpMap [c0, c1, c2, c3, c4, c5, c6, c7, c8, c9, c10, c11] flowLineNames
      = [("", c9), ("cookie", c1), ("duration", c2), ("table", c3), ("packets", c4),
          ("bytes", c5), ("idle_age", c6), ("hard_age", c7), ("priority", c8),
          ("match", c10), ("actions", c11)] := by
  simp only [getRegexpMap, flowLineNames, List.zip_cons_cons, List.zip_nil_right,
    List.foldl_cons, List.foldl_nil]
  simp [StrMap.insert]

/-- The entries of the map built for `flowLine` are the groups of the match. -/
theorem flow_result_get (line : Str) (name : String)
    (hn : name ∈ ["cookie", "duration", "table", "packets", "bytes", "idle_age", "hard_age",
      "priority", "match", "actions"]) :
    (getRegexpMap (flowLine.FindStringSubmatch line) flowLine.SubexpNames).get name
      = flowLine.capture line name := by
  unfold Regexp.capture
  have hnames : flowLine.names = flowLineNames := rfl
  rcases flowLine.FindStringSubmatch_length line with h | h
  · rw [h]
    simp [getRegexpMap, StrMap.get]
  · rw [hnames] at h
    obtain ⟨c0, c1, c2, c3, c4, c5, c6, c7, c8, c9, c10, c11, hm⟩ := list_length_12 _ h
    rw [hm, Regexp.SubexpNames, hnames, flow_map_explicit]
    simp only [List.mem_cons, List.mem_singleton, List.not_mem_nil, or_false] at hn
    have i1 : flowLineNames.indexOf "cookie" = 1 := by decide
    have i2 : flowLineNames.indexOf "duration" = 2 := by decide
    have i3 : flowLineNames.indexOf "table" = 3 := by decide
    have i4 : flowLineNames.indexOf "packets" = 4 := by decide
    have i5 : flowLineNames.indexOf "bytes" = 5 := by decide
    have i6 : flowLineNames.indexOf "idle_age" = 6 := by decide
    have i7 : flowLineNames.indexOf "hard_age" = 7 := by decide
    have i8 : flowLineNames.indexOf "priority" = 8 := by decide
    have i10 : flowLineNames.indexOf "match" = 10 := by decide
    have i11 : flowLineNames.indexOf "actions" = 11 := by decide
    rcases hn with rfl | rfl | rfl | rfl | rfl | rfl | rfl | rfl | rfl | rfl
    · rw [i1]; simp [StrMap.get]
    · rw [i2]; simp [StrMap.get]
    · rw [i3]; simp [StrMap.get]
    · rw [i4]; simp [StrMap.get]
    · rw [i5]; simp [StrMap.get]
    · rw [i6]; simp [StrMap.get]
    · rw [i7]; simp [StrMap.get]
    · rw [i8]; simp [StrMap.get]
    · rw [i10]; simp [StrMap.get]
    · rw [i11]; simp [StrMap.get]

theorem stripPrefix_append : ∀ (w s : Str), stripPrefix w (w ++ s) = some s
  | [], s => by cases s <;> rfl
  | a :: w, s => by simp [stripPrefix, stripPrefix_append w s]

theorem consumed_append (w t : Str) : consumed (w ++ t) t = w := by
  simp [consumed]

theorem consumed_append2 (a b t : Str) : consumed (a ++ (b ++ t)) t = a ++ b := by
  rw [← List.append_assoc, consumed_append]

theorem consumed_nil (s : Str) : consumed s [] = s := by
  simp [consumed]

theorem RE.run_seq (a b : RE) (k : Str → Caps → Option Caps) (s : Str) (caps : Caps) :
    (RE.seq a b).run k s caps = a.run (fun t caps1 => b.run k t caps1) s caps := by
  rw [RE.run]

theorem RE.run_lit_append (w : Str) (k : Str → Caps → Option Caps) (s : Str) (caps : Caps) :
    (RE.lit w).run k (w ++ s) caps = k s caps := by
  rw [RE.run, stripPrefix_append]

theorem RE.run_group (i : Nat) (a : RE) (k : Str → Caps → Option Caps) (s : Str) (caps : Caps) :
    (RE.group i a).run k s caps
      = a.run (fun t caps1 => k t (caps1.set i (consumed s t))) s caps := by
  rw [RE.run]

theorem RE.run_opt_of_some (a : RE) (k : Str → Caps → Option Caps) (s : Str) (caps X : Caps)
    (h : a.run k s caps = some X) : (RE.opt a).run k s caps = some X := by
  rw [RE.run, h]

/-- A greedy repetition runs over a prefix of characters of the class when the
match then goes through. -/
theorem starGreedy_append (c : CClass) (k : Str → Option Caps) (t : Str) (X : Caps)
    (ht : starGreedy c k t = some X) :
    ∀ (w : Str), (∀ x ∈ w, c.test x = true) → starGreedy c k (w ++ t) = some X
  | [], _ => ht
  | y :: w, hw => by
    have h1 : c.test y = true := hw y (List.mem_cons_self _ _)
    have h2 := starGreedy_append c k t X ht w (fun x hx => hw x (List.mem_cons_of_mem _ hx))
    simp [starGreedy, h1, h2]

theorem starGreedy_stop (c : CClass) (k : Str → Option Caps) (s : Str) (h : stopsAt c s) :
    starGreedy c k s = k s := by
  cases s with
  | nil => rfl
  | cons y s =>
    have : c.test y = false := h y (by simp)
    simp [starGreedy, this]

/-- A capturing greedy repetition takes the whole run of characters of its class
when the rest of the match goes through from there. -/
theorem RE.run_group_star (i : Nat) (c : CClass) (k : Str → Caps → Option Caps) (w s : Str)
    (caps X : Caps) (hw : ∀ x ∈ w, c.test x = true) (hs : stopsAt c s)
    (hk : k s (caps.set i w) = some X) :
    (RE.group i (.star true c)).run k (w ++ s) caps = some X := by
  rw [RE.run_group, RE.run]
  apply starGreedy_append _ _ _ _ _ w hw
  rw [starGreedy_stop _ _ _ hs, consumed_append]
  exact hk

/-- The same at the end of the input. -/
theorem RE.run_group_star_end (i : Nat) (c : CClass) (k : Str → Caps → Option Caps) (w : Str)
    (caps X : Caps) (hw : ∀ x ∈ w, c.test x = true)
    (hk : k [] (caps.set i w) = some X) :
    (RE.group i (.star true c)).run k w caps = some X := by
  have h := RE.run_group_star i c k w [] caps X hw (by simp [stopsAt]) hk
  simpa using h

/-- A capturing greedy repetition gives back one character when the rest of the
match fails after the whole run and goes through one character earlier. -/
theorem RE.run_group_star_back (i : Nat) (c : CClass) (k : Str → Caps → Option Caps)
    (w : Str) (y : Char) (s : Str) (caps X : Caps) (hw : ∀ x ∈ w, c.test x = true)
    (hy : c.test y = true) (hs : stopsAt c s)
    (hk1 : k s (caps.set i (w ++ [y])) = none)
    (hk : k (y :: s) (caps.set i w) = some X) :
    (RE.group i (.star true c)).run k (w ++ y :: s) caps = some X := by
  rw [RE.run_group, RE.run]
  apply starGreedy_append _ _ _ _ _ w hw
  have e : w ++ y :: s = (w ++ [y]) ++ s := by simp
  rw [starGreedy, if_pos hy, starGreedy_stop _ _ _ hs]
  have e1 : consumed (w ++ y :: s) s = w ++ [y] := by rw [e, consumed_append]
  rw [e1, hk1]
  simp only []
  rw [consumed_append]
  exact hk

theorem test_notChar_of_not_mem (c : Char) (w : Str) (h : c ∉ w) :
    ∀ x ∈ w, (CClass.notChar c).test x = true := by
  intro x hx
  have : x ≠ c := fun e => h (e ▸ hx)
  simpa [CClass.test] using this

theorem test_dot_of_not_mem (w : Str) (h : '\n' ∉ w) :
    ∀ x ∈ w, CClass.dot.test x = true := by
  intro x hx
  have : x ≠ '\n' := fun e => h (e ▸ hx)
  simpa [CClass.test] using this

theorem Regexp.search_of_matchHere (r : Regexp) (s : Str) (X : Caps)
    (h : r.matchHere s = some X) : r.search s = some X := by
  cases s with
  | nil => exact h
  | cons x s => rw [Regexp.search, h]

theorem Regexp.search_cons_of_none (r : Regexp) (x : Char) (s : Str)
    (h : r.matchHere (x :: s) = none) : r.search (x :: s) = r.search s := by
  rw [Regexp.search, h]

/-- The match of `flowLine` on a line in the format of the flow dump: the
groups are the texts of the fields. -/
theorem flow_match (C D T P B I H R M A : Str) (hC : ',' ∉ C) (hD : ',' ∉ D) (hT : ',' ∉ T)
    (hP : ',' ∉ P) (hB : ',' ∉ B) (hI : ',' ∉ I) (hH : ',' ∉ H) (hR : ',' ∉ R)
    (hM : ' ' ∉ M) (hA : '\n' ∉ A) :
    flowLine.FindStringSubmatch (flowText C D T P B I H R M A)
      = [(flowText C D T P B I H R M A).tail, C, D, T, P, B, I, H, R, ',' :: M, M, A] := by
  have hform : flowText C D T P B I H R M A = ' ' :: ("cookie=".toList ++ (C ++
      (", duration=".toList ++ (D ++ ('s' :: (", table=".toList ++ (T ++
      (", n_packets=".toList ++ (P ++ (", n_bytes=".toList ++ (B ++
      (", idle_age=".toList ++ (I ++ (", hard_age=".toList ++ (H ++
      (", priority=".toList ++ (R ++ (",".toList ++ (M ++
      (" actions=".toList ++ A)))))))))))))))))))) := by
    simp [flowText]
  rw [hform]
  obtain ⟨body, hbody⟩ : ∃ body, ("cookie=".toList ++ (C ++
      (", duration=".toList ++ (D ++ ('s' :: (", table=".toList ++ (T ++
      (", n_packets=".toList ++ (P ++ (", n_bytes=".toList ++ (B ++
      (", idle_age=".toList ++ (I ++ (", hard_age=".toList ++ (H ++
      (", priority=".toList ++ (R ++ (",".toList ++ (M ++
      (" actions=".toList ++ A)))))))))))))))))))) = body := ⟨_, rfl⟩
  rw [hbody]
  have hnone : flowLine.matchHere (' ' :: body) = none := by
    simp only [Regexp.matchHere, flowLine, flowLineRE, RE.cat, RE.str]
    rw [RE.run_seq, RE.run]
    rfl
  have hsome : flowLine.matchHere body = some [body, C, D, T, P, B, I, H, R, ',' :: M, M, A] := by
    simp only [Regexp.matchHere, flowLine, flowLineRE, RE.cat, RE.str, RE.manyNot]
    rw [← hbody]
    rw [RE.run_seq, RE.run_lit_append]
    rw [RE.run_seq]
    refine RE.run_group_star _ _ _ _ _ _ _ (test_notChar_of_not_mem _ _ hC)
      (by simp [stopsAt, CClass.test]) ?_
    beta_reduce
    rw [RE.run_seq, RE.run_lit_append]
    rw [RE.run_seq]
    refine RE.run_group_star_back _ _ _ _ _ _ _ _ (test_notChar_of_not_mem _ _ hD)
      (by simp [CClass.test]) (by simp [stopsAt, CClass.test]) ?_ ?_
    · beta_reduce
      rw [RE.run_seq, RE.run]
      rfl
    beta_reduce
    rw [show ∀ r : Str, 's' :: (", table=".toList ++ r) = "s, table=".toList ++ r from
      fun _ => rfl]
    rw [RE.run_seq, RE.run_lit_append]
    rw [RE.run_seq]
    refine RE.run_group_star _ _ _ _ _ _ _ (test_notChar_of_not_mem _ _ hT)
      (by simp [stopsAt, CClass.test]) ?_
    beta_reduce
    rw [RE.run_seq, RE.run_lit_append]
    rw [RE.run_seq]
    refine RE.run_group_star _ _ _ _ _ _ _ (test_notChar_of_not_mem _ _ hP)
      (by simp [stopsAt, CClass.test]) ?_
    beta_reduce
    rw [RE.run_seq, RE.run_lit_append]
    rw [RE.run_seq]
    refine RE.run_group_star _ _ _ _ _ _ _ (test_notChar_of_not_mem _ _ hB)
      (by simp [stopsAt, CClass.test]) ?_
    beta_reduce
    rw [RE.run_seq, RE.run_lit_append]
    rw [RE.run_seq]
    refine RE.run_group_star _ _ _ _ _ _ _ (test_notChar_of_not_mem _ _ hI)
      (by simp [stopsAt, CClass.test]) ?_
    beta_reduce
    rw [RE.run_seq, RE.run_lit_append]
    rw [RE.run_seq]
    refine RE.run_group_star _ _ _ _ _ _ _ (test_notChar_of_not_mem _ _ hH)
      (by simp [stopsAt, CClass.test]) ?_
    beta_reduce
    rw [RE.run_seq, RE.run_lit_append]
    rw [RE.run_seq]
    refine RE.run_group_star _ _ _ _ _ _ _ (test_notChar_of_not_mem _ _ hR)
      (by simp [stopsAt, CClass.test]) ?_
    beta_reduce
    rw [RE.run_seq]
    refine RE.run_opt_of_some _ _ _ _ _ ?_
    rw [RE.run_group, RE.run_seq, RE.run_lit_append]
    refine RE.run_group_star _ _ _ _ _ _ _ (test_notChar_of_not_mem _ _ hM)
      (by simp [stopsAt, CClass.test]) ?_
    beta_reduce
    rw [consumed_append2, RE.run_seq, RE.run_lit_append]
    refine RE.run_group_star_end _ _ _ _ _ _ (test_dot_of_not_mem _ hA) ?_
    rw [consumed_nil]
    simp [flowLineNames]
  unfold Regexp.FindStringSubmatch
  rw [Regexp.search_cons_of_none _ _ _ hnone, Regexp.search_of_matchHere _ _ _ hsome]
  rfl

/-- The named groups of a match of `flowLine`, from its twelve registers. -/
theorem flow_capture_of_match (line : Str) (c0 c1 c2 c3 c4 c5 c6 c7 c8 c9 c10 c11 : Str)
    (hm : flowLine.FindStringSubmatch line = [c0, c1, c2, c3, c4, c5, c6, c7, c8, c9, c10, c11]) :
    flowLine.capture line "cookie" = c1 ∧ flowLine.capture line "duration" = c2 ∧
    flowLine.capture line "table" = c3 ∧ flowLine.capture line "packets" = c4 ∧
    flowLine.capture line "bytes" = c5 ∧ flowLine.capture line "idle_age" = c6 ∧
    flowLine.capture line "hard_age" = c7 ∧ flowLine.capture line "priority" = c8 ∧
    flowLine.capture line "match" = c10 ∧ flowLine.capture line "actions" = c11 := by
  have hnames : flowLine.names = flowLineNames := rfl
  have i1 : flowLineNames.indexOf "cookie" = 1 := by decide
  have i2 : flowLineNames.indexOf "duration" = 2 := by decide
  have i3 : flowLineNames.indexOf "table" = 3 := by decide
  have i4 : flowLineNames.indexOf "packets" = 4 := by decide
  have i5 : flowLineNames.indexOf "bytes" = 5 := by decide
  have i6 : flowLineNames.indexOf "idle_age" = 6 := by decide
  have i7 : flowLineNames.indexOf "hard_age" = 7 := by decide
  have i8 : flowLineNames.indexOf "priority" = 8 := by decide
  have i10 : flowLineNames.indexOf "match" = 10 := by decide
  have i11 : flowLineNames.indexOf "actions" = 11 := by decide
  simp only [Regexp.capture, hm, hnames, i1, i2, i3, i4, i5, i6, i7, i8, i10, i11]
  simp

theorem list_length_14 {α : Type} (m : List α) (h : m.length = 14) :
    ∃ c0 c1 c2 c3 c4 c5 c6 c7 c8 c9 c10 c11 c12 c13,
      m = [c0, c1, c2, c3, c4, c5, c6, c7, c8, c9, c10, c11, c12, c13] := by
  match m, h with
  | [c0, c1, c2, c3, c4, c5, c6, c7, c8, c9, c10, c11, c12, c13], _ =>
    exact ⟨c0, c1, c2, c3, c4, c5, c6, c7, c8, c9, c10, c11, c12, c13, rfl⟩

/-- The map built from the fourteen registers of a match of `portLine`. -/
theorem port_map_explicit (c0 c1 c2 c3 c4 c5 c6 c7 c8 c9 c10 c11 c12 c13 : Str) :
    getRegexpMap [c0, c1, c2, c3, c4, c5, c6, c7, c8, c9, c10, c11, c12, c13] portLineNames
      = [("", c0), ("port", c1), ("rxpackets", c2), ("rxbytes", c3), ("rxdrops", c4),
          ("rxerrors", c5), ("rxframerr", c6), ("rxoverruns", c7), ("rxcrcerrors", c8),
          ("txpackets", c9), ("txbytes", c10), ("txdrops", c11), ("txerrors", c12),
          ("txcollisions", c13)] := by
  simp only [getRegexpMap, portLineNames, List.zip_cons_cons, List.zip_nil_right,
    List.foldl_cons, List.foldl_nil]
  simp [StrMap.insert]

/-- The entries of the map built for `portLine` are the groups of the match. -/
theorem port_result_get (line : Str) (name : String)
    (hn : name ∈ ["port", "rxpackets", "rxbytes", "rxdrops", "rxerrors", "rxframerr",
      "rxoverruns", "rxcrcerrors", "txpackets", "txbytes", "txdrops", "txerrors",
      "txcollisions"]) :
    (getRegexpMap (portLine.FindStringSubmatch line) portLine.SubexpNames).get name
      = portLine.capture line name := by
  unfold Regexp.capture
  have hnames : portLine.names = portLineNames := rfl
  rcases portLine.FindStringSubmatch_length line with h | h
  · rw [h]
    simp [getRegexpMap, StrMap.get]
  · rw [hnames] at h
    obtain ⟨c0, c1, c2, c3, c4, c5, c6, c7, c8, c9, c10, c11, c12, c13, hm⟩ :=
      list_length_14 _ h
    rw [hm, Regexp.SubexpNames, hnames, port_map_explicit]
    simp only [List.mem_cons, List.mem_singleton, List.not_mem_nil, or_false] at hn
    have i1 : portLineNames.indexOf "port" = 1 := by decide
    have i2 : portLineNames.indexOf "rxpackets" = 2 := by decide
    have i3 : portLineNames.indexOf "rxbytes" = 3 := by decide
    have i4 : portLineNames.indexOf "rxdrops" = 4 := by decide
    have i5 : portLineNames.indexOf "rxerrors" = 5 := by decide
    have i6 : portLineNames.indexOf "rxframerr" = 6 := by decide
    have i7 : portLineNames.indexOf "rxoverruns" = 7 := by decide
    have i8 : portLineNames.indexOf "rxcrcerrors" = 8 := by decide
    have i9 : portLineNames.indexOf "txpackets" = 9 := by decide
    have i10 : portLineNames.indexOf "txbytes" = 10 := by decide
    have i11 : portLineNames.indexOf "txdrops" = 11 := by decide
    have i12 : portLineNames.indexOf "txerrors" = 12 := by decide
    have i13 : portLineNames.indexOf "txcollisions" = 13 := by decide
    rcases hn with rfl | rfl | rfl | rfl | rfl | rfl | rfl | rfl | rfl | rfl | rfl | rfl | rfl
    · rw [i1]; simp [StrMap.get]
    · rw [i2]; simp [StrMap.get]
    · rw [i3]; simp [StrMap.get]
    · rw [i4]; simp [StrMap.get]
    · rw [i5]; simp [StrMap.get]
    · rw [i6]; simp [StrMap.get]
    · rw [i7]; simp [StrMap.get]
    · rw [i8]; simp [StrMap.get]
    · rw [i9]; simp [StrMap.get]
    · rw [i10]; simp [StrMap.get]
    · rw [i11]; simp [StrMap.get]
    · rw [i12]; simp [StrMap.get]
    · rw [i13]; simp [StrMap.get]

theorem digit_toNat_le (c : Char) (h : '0' ≤ c ∧ c ≤ '9') : c.toNat - '0'.toNat ≤ 9 := by
  have h2 : c.toNat ≤ '9'.toNat := h.2
  have h9 : '9'.toNat = 57 := by decide
  have h0 : '0'.toNat = 48 := by decide
  omega

theorem foldl_digits_ge (ds : Str) : ∀ n : Nat,
    n ≤ ds.foldl (fun n c => 10 * n + (c.toNat - '0'.toNat)) n := by
  induction ds with
  | nil => intro n; exact Nat.le_refl _
  | cons c ds ih =>
    intro n
    simp only [List.foldl_cons]
    exact Nat.le_trans (by omega) (ih _)

/-- The loop of `ParseUint` in closed form, in terms of the digits the text
starts with. -/
theorem parseUintLoop_eq (s : Str) : ∀ n : Nat, n < 2 ^ 64 →
    parseUintLoop n s =
      if 2 ^ 64 ≤ (leadingDigits s).foldl (fun n c => 10 * n + (c.toNat - '0'.toNat)) n then
        (maxUint64, some .ErrRange)
      else if leadingDigits s = s then
        ((leadingDigits s).foldl (fun n c => 10 * n + (c.toNat - '0'.toNat)) n, none)
      else (0, some .ErrSyntax) := by
  induction s with
  | nil =>
    intro n hn
    have hn2 : ¬ 18446744073709551616 ≤ n := by
      have hpow : (2 : Nat) ^ 64 = 18446744073709551616 := by norm_num
      omega
    simp [parseUintLoop, leadingDigits, hn2]
  | cons c s ih =>
    intro n hn
    by_cases hc : '0' ≤ c ∧ c ≤ '9'
    · have hd := digit_toNat_le c hc
      have hlead : leadingDigits (c :: s) = c :: leadingDigits s := by
        simp [leadingDigits, List.takeWhile_cons, hc.1, hc.2]
      rw [hlead]
      simp only [List.foldl_cons, List.cons.injEq, true_and]
      have hge := foldl_digits_ge (leadingDigits s) (10 * n + (c.toNat - '0'.toNat))
      have hmax : maxUint64 = 18446744073709551615 := by norm_num [maxUint64]
      have hpow : (2 : Nat) ^ 64 = 18446744073709551616 := by norm_num
      rw [parseUintLoop, if_pos hc]
      by_cases h1 : n ≥ maxUint64 / 10 + 1
      · rw [if_pos h1, if_pos]
        rw [hmax] at h1
        omega
      · rw [if_neg h1]
        simp only []
        by_cases h2 : 2 ^ 64 ≤ n * 10 + (c.toNat - '0'.toNat)
        · have hmod : (n * 10 + (c.toNat - '0'.toNat)) % 2 ^ 64
              = n * 10 + (c.toNat - '0'.toNat) - 2 ^ 64 := by
            rw [Nat.mod_eq_sub_mod h2, Nat.mod_eq_of_lt]
            rw [hmax] at h1
            omega
          rw [if_pos, if_pos]
          · omega
          · left
            rw [hmod]
            omega
        · have hmod : (n * 10 + (c.toNat - '0'.toNat)) % 2 ^ 64
              = n * 10 + (c.toNat - '0'.toNat) := Nat.mod_eq_of_lt (by omega)
          rw [hmod, if_neg]
          · have := ih (n * 10 + (c.toNat - '0'.toNat)) (by omega)
            rw [this, Nat.mul_comm n 10]
          · rw [hmax]
            omega
    · have hlead : leadingDigits (c :: s) = [] := by
        simp only [leadingDigits]
        rw [List.takeWhile_cons, if_neg]
        simpa using hc
      have hn2 : ¬ 18446744073709551616 ≤ n := by
        have hpow : (2 : Nat) ^ 64 = 18446744073709551616 := by norm_num
        omega
      rw [hlead, parseUintLoop, if_neg hc]
      simp [hn2]

theorem allDigits_iff (ds : Str) : allDigits ds = true ↔ (ds ≠ [] ∧ leadingDigits ds = ds) := by
  simp only [allDigits, leadingDigits, Bool.and_eq_true, Bool.not_eq_true', List.isEmpty_eq_false,
    List.takeWhile_eq_self_iff, List.all_eq_true, ne_eq]

/-- The function `ParseUint` in closed form. -/
theorem ParseUint_eq (ds : Str) :
    ParseUint ds =
      if 2 ^ 64 ≤ digitsVal (leadingDigits ds) then (maxUint64, some .ErrRange)
      else if allDigits ds = true then (digitsVal ds, none)
      else (0, some .ErrSyntax) := by
  unfold ParseUint
  by_cases h0 : ds = []
  · subst h0
    simp [leadingDigits, digitsVal, allDigits]
  · rw [if_neg h0, parseUintLoop_eq ds 0 (by norm_num)]
    simp only [allDigits_iff, h0, not_false_eq_true, true_and, ne_eq]
    by_cases h1 : leadingDigits ds = ds
    · simp only [h1, if_true, digitsVal]
    · simp only [h1, if_false, digitsVal]

theorem leadingDigits_of_allDigits (ds : Str) (h : allDigits ds = true) :
    leadingDigits ds = ds := ((allDigits_iff ds).mp h).2

/-- The function `Atoi` in terms of the integer the text denotes.  When it
denotes one: that integer, or the nearest end of the range and an error when it
is out of range.  When it denotes none: an error, with value 0 unless the
leading digits are out of the range of `uint64`, where the value is the end of
the range of `int` on the side of the sign. -/
theorem Atoi_eq (s : Str) :
    Atoi s = match intOfText s with
      | none =>
        (if overflowsUint64 s then (if s.head? = some '-' then minInt else maxInt) else 0, true)
      | some v =>
        if maxInt < v then (maxInt, true)
        else if v < minInt then (minInt, true)
        else (v, false) := by
  have hcut : (2 : Nat) ^ (intSize - 1) = 9223372036854775808 := by norm_num [intSize]
  have hmax : maxInt = 9223372036854775807 := by norm_num [maxInt]
  have hmin : minInt = -9223372036854775808 := by norm_num [minInt]
  have hu : maxUint64 = 18446744073709551615 := by norm_num [maxUint64]
  have hpow : (2 : Nat) ^ 64 = 18446744073709551616 := by norm_num
  -- the conversion of the unsigned part, by sign
  have key : ∀ (c : Char) (rest ds : Str), ds = (if c = '+' ∨ c = '-' then rest else c :: rest) →
      ParseInt (c :: rest)
      = if 2 ^ 64 ≤ digitsVal (leadingDigits ds) then
          (if (c == '-') = true then (-9223372036854775808 : Int) else 9223372036854775807,
            some NumError.ErrRange)
        else if allDigits ds = true then
          (if (c == '-') = true then
            (if 9223372036854775808 < digitsVal ds then
              ((-9223372036854775808 : Int), some NumError.ErrRange)
              else (-(digitsVal ds : Int), none))
          else
            (if 9223372036854775808 ≤ digitsVal ds then
              ((9223372036854775807 : Int), some NumError.ErrRange)
              else ((digitsVal ds : Int), none)))
        else (0, some NumError.ErrSyntax) := by
    intro c rest ds hds
    simp only [ParseInt, ← hds, hcut]
    rw [ParseUint_eq, hu]
    by_cases h1 : 2 ^ 64 ≤ digitsVal (leadingDigits ds)
    · simp only [h1, if_true]
      cases (c == '-') <;> simp
    · simp only [h1, if_false]
      by_cases h2 : allDigits ds = true
      · simp only [h2, if_true]
        cases (c == '-')
        · by_cases h3 : 9223372036854775808 ≤ digitsVal ds
          · simp [h3]
          · simp [h3]
        · by_cases h3 : 9223372036854775808 < digitsVal ds
          · simp [h3]
          · simp [h3]
      · simp [h2]
  cases s with
  | nil => simp [Atoi, ParseInt, intOfText, overflowsUint64, unsignedPart, leadingDigits, digitsVal]
  | cons c rest =>
    have huns : unsignedPart (c :: rest) = if c = '+' ∨ c = '-' then rest else c :: rest := rfl
    have hint : intOfText (c :: rest)
        = if allDigits (if c = '+' ∨ c = '-' then rest else c :: rest) = true then
            some (if (c == '-') = true then
              -(digitsVal (if c = '+' ∨ c = '-' then rest else c :: rest) : Int)
              else (digitsVal (if c = '+' ∨ c = '-' then rest else c :: rest) : Int))
          else none := by
      by_cases hm : c = '-'
      · subst hm
        simp [intOfText]
      · by_cases hp : c = '+'
        · simp [intOfText, hm, hp]
        · simp [intOfText, hm, hp]
    have hhead : ((c :: rest).head? = some '-') ↔ (c == '-') = true := by simp
    simp only [Atoi]
    rw [key c rest _ rfl, hint]
    simp only [overflowsUint64, huns, hhead, hmax, hmin]
    generalize (if c = '+' ∨ c = '-' then rest else c :: rest) = ds
    generalize (c == '-') = neg
    by_cases h1 : 2 ^ 64 ≤ digitsVal (leadingDigits ds)
    · simp only [h1, if_true, decide_True]
      by_cases h2 : allDigits ds = true
      · rw [leadingDigits_of_allDigits ds h2] at h1
        simp only [h2, if_true]
        cases neg
        · have : (9223372036854775807 : Int) < (digitsVal ds : Int) := by omega
          simp [this]
        · have : ¬ (9223372036854775807 : Int) < -(digitsVal ds : Int) := by omega
          have h4 : -(digitsVal ds : Int) < -9223372036854775808 := by omega
          simp [this, h4]
      · simp only [h2, Bool.false_eq_true, if_false]
        cases neg <;> simp
    · simp only [h1, if_false, decide_False]
      by_cases h2 : allDigits ds = true
      · simp only [h2, if_true]
        cases neg
        · have h5 : ¬ (digitsVal ds : Int) < -9223372036854775808 := by omega
          by_cases h3 : 9223372036854775808 ≤ digitsVal ds
          · have h4 : (9223372036854775807 : Int) < (digitsVal ds : Int) := by omega
            simp [h3, h4]
          · have h4 : ¬ (9223372036854775807 : Int) < (digitsVal ds : Int) := by omega
            simp [h3, h4, h5]
        · have : ¬ (9223372036854775807 : Int) < -(digitsVal ds : Int) := by omega
          by_cases h3 : 9223372036854775808 < digitsVal ds
          · have h4 : -(digitsVal ds : Int) < -9223372036854775808 := by omega
            simp [h3, this, h4]
          · have h4 : ¬ -(digitsVal ds : Int) < -9223372036854775808 := by omega
            simp [h3, this, h4]
      · simp [h2]

theorem allDigits_not_mem (ds : Str) (c : Char) (hc : ¬ ('0' ≤ c ∧ c ≤ '9'))
    (h : allDigits ds = true) : c ∉ ds := by
  intro hmem
  simp only [allDigits, Bool.and_eq_true, List.all_eq_true, decide_eq_true_eq] at h
  exact hc (h.2 c hmem)

/-- A text that denotes a decimal integer holds no character other than a sign
and digits. -/
theorem intOfText_not_mem (s : Str) (v : Int) (c : Char) (hc : ¬ ('0' ≤ c ∧ c ≤ '9'))
    (hm : c ≠ '-') (hp : c ≠ '+') (h : intOfText s = some v) : c ∉ s := by
  cases s with
  | nil => simp
  | cons x rest =>
    simp only [intOfText] at h
    split_ifs at h with h1 h2 h3 h4 h5
    · subst h1
      have := allDigits_not_mem rest c hc h2
      simp [this, hm]
    · subst h3
      have := allDigits_not_mem rest c hc h4
      simp [this, hp]
    · exact allDigits_not_mem _ c hc h5

/-- The function `Atoi` on a text that denotes an integer in the range of `int`. -/
theorem Atoi_of_inRange (s : Str) (v : Int) (h : intOfText s = some v) (h1 : minInt ≤ v)
    (h2 : v ≤ maxInt) : Atoi s = (v, false) := by
  rw [Atoi_eq, h]
  simp only []
  rw [if_neg (by omega), if_neg (by omega)]

/-- The value of `Atoi` is the field value of the text. -/
theorem Atoi_fst (s : Str) : (Atoi s).1 = fieldValue s := by
  rw [Atoi_eq, fieldValue]
  cases intOfText s with
  | none => rfl
  | some v =>
    simp only []
    split_ifs <;> rfl

/-- The error of `Atoi` is non-nil exactly when the text denotes no decimal
integer or one outside the range of `int`. -/
theorem Atoi_snd (s : Str) :
    (Atoi s).2 = true ↔ (intOfText s = none ∨ ∃ v, intOfText s = some v ∧ (maxInt < v ∨ v < minInt)) := by
  rw [Atoi_eq]
  cases intOfText s with
  | none => simp
  | some v =>
    simp only []
    split_ifs with h1 h2
    · simp [h1]
    · simp [h2]
    · simp [h1, h2]

theorem flowLine_names_ne_nil : flowLine.SubexpNames ≠ [] := by
  simp [Regexp.SubexpNames, flowLine, flowLineNames]

theorem portLine_names_ne_nil : portLine.SubexpNames ≠ [] := by
  simp [Regexp.SubexpNames, portLine, portLineNames]

/-- The error of the flow line parser, in terms of the match and its groups. -/
theorem flow_error_eq {F : Type} [GoFloat64 F] (line : Str) :
    (parseOpenFlowFlowDumpLine line : Flow F × Option String).2
      = if flowLine.FindStringSubmatch line = [] then parseError
        else if flowLine.capture line "match" ≠ [] ∧ flowLine.capture line "actions" ≠ [] ∧
          flowLine.capture line "table" ≠ [] ∧ flowLine.capture line "priority" ≠ [] then none
        else parseError := by
  unfold parseOpenFlowFlowDumpLine
  simp only [getRegexpMap_length_eq_zero _ _ flowLine_names_ne_nil]
  rw [flow_result_get line "match" (by simp), flow_result_get line "actions" (by simp),
    flow_result_get line "table" (by simp), flow_result_get line "priority" (by simp)]
  split
  · rfl
  · split <;> rfl

/-- The record of the flow line parser, in terms of the groups of the match. -/
theorem flow_record_eq {F : Type} [GoFloat64 F] (line : Str) :
    (parseOpenFlowFlowDumpLine line : Flow F × Option String).1
      = { Cookie := flowLine.capture line "cookie"
          Duration := (GoFloat64.ParseFloat (flowLine.capture line "duration")).1
          Table := flowLine.capture line "table"
          Packets := (Atoi (flowLine.capture line "packets")).1
          Bytes := (Atoi (flowLine.capture line "bytes")).1
          IdleAge := (Atoi (flowLine.capture line "idle_age")).1
          HardAge := (Atoi (flowLine.capture line "hard_age")).1
          Priority := flowLine.capture line "priority"
          Match := flowLine.capture line "match"
          Action := flowLine.capture line "actions" } := by
  have h : ∀ (x : Flow F) (e1 e2 e3 : Option String) (p q : Prop) [Decidable p] [Decidable q],
      (if p then (x, e1) else if q then (x, e2) else (x, e3)).1 = x := by
    intro x e1 e2 e3 p q _ _
    split
    · rfl
    · split <;> rfl
  unfold parseOpenFlowFlowDumpLine
  simp only [h]
  rw [flow_result_get line "match" (by simp), flow_result_get line "actions" (by simp),
    flow_result_get line "table" (by simp), flow_result_get line "priority" (by simp),
    flow_result_get line "cookie" (by simp), flow_result_get line "duration" (by simp),
    flow_result_get line "packets" (by simp), flow_result_get line "bytes" (by simp),
    flow_result_get line "idle_age" (by simp), flow_result_get line "hard_age" (by simp)]

/-- The error of the port block parser, in terms of the match and its groups. -/
theorem port_error_eq (a b : Str) :
    (parseOpenFlowPortDumpLine a b).2
      = if portLine.FindStringSubmatch (normalise a b) = [] then parseError
        else if portLine.capture (normalise a b) "port" ≠ [] then none
        else parseError := by
  unfold parseOpenFlowPortDumpLine normalise
  simp only [getRegexpMap_length_eq_zero _ _ portLine_names_ne_nil]
  rw [port_result_get _ "port" (by simp)]
  split
  · rfl
  · split <;> rfl

/-- The record of the port block parser, in terms of the groups of the match. -/
theorem port_record_eq (a b : Str) :
    (parseOpenFlowPortDumpLine a b).1
      = { PortNumber := portLine.capture (normalise a b) "port"
          RxPackets := (Atoi (portLine.capture (normalise a b) "rxpackets")).1
          TxPackets := (Atoi (portLine.capture (normalise a b) "txpackets")).1
          RxBytes := (Atoi (portLine.capture (normalise a b) "rxbytes")).1
          TxBytes := (Atoi (portLine.capture (normalise a b) "txbytes")).1
          RxDrops := (Atoi (portLine.capture (normalise a b) "rxdrops")).1
          TxDrops := (Atoi (portLine.capture (normalise a b) "txdrops")).1
          RxErrors := portLine.capture (normalise a b) "rxerrors"
          TxErrors := portLine.capture (normalise a b) "txerrors"
          RxFrameErr := portLine.capture (normalise a b) "rxframerr"
          RxOverruns := portLine.capture (normalise a b) "rxoverruns"
          RxCrcErrors := portLine.capture (normalise a b) "rxcrcerrors"
          TxCollisions := portLine.capture (normalise a b) "txcollisions" } := by
  have h : ∀ (x : Port) (e1 e2 e3 : Option String) (p q : Prop) [Decidable p] [Decidable q],
      (if p then (x, e1) else if q then (x, e2) else (x, e3)).1 = x := by
    intro x e1 e2 e3 p q _ _
    split
    · rfl
    · split <;> rfl
  unfold parseOpenFlowPortDumpLine normalise
  simp only [h]
  rw [port_result_get _ "port" (by simp), port_result_get _ "rxpackets" (by simp),
    port_result_get _ "txpackets" (by simp), port_result_get _ "rxbytes" (by simp),
    port_result_get _ "txbytes" (by simp), port_result_get _ "rxdrops" (by simp),
    port_result_get _ "txdrops" (by simp), port_result_get _ "rxerrors" (by simp),
    port_result_get _ "txerrors" (by simp), port_result_get _ "rxframerr" (by simp),
    port_result_get _ "rxoverruns" (by simp), port_result_get _ "rxcrcerrors" (by simp),
    port_result_get _ "txcollisions" (by simp)]

end regexp



/-- C1: for every bridge role and every line sequence `L` that the role's
`DumpFlows` returns without error, the role's `Flows` method returns, without
error or panic, exactly the records of the lines of `L` on which the flow line
parser succeeds, in input order; the right-hand side does not depend on the
role, so the three methods compute the same function of `L`. -/
theorem Flows_eq_parsedFlows {E F : Type} [GoFloat64 F] (role : Role) (o : OvsDumpReader E)
    (ip : Str) (port : Int) (L : List Str)
    (h : o.dumpSource.DumpFlows role ip port = (L, none)) :
    (Flows role o ip port : Run (Option (List (Flow F)) × Option E))
      = Run.ok (some (parsedFlows L), none) := by
  cases role
  · simp only [OvsDumpSource.DumpFlows] at h
    simp only [Flows, TunFlows, h, Option.isSome_none, Bool.false_eq_true, if_false,
      Run.bind_eq, Run.pure_eq]
    exact flows_loops L
  · simp only [OvsDumpSource.DumpFlows] at h
    simp only [Flows, ExFlows, h, Option.isSome_none, Bool.false_eq_true, if_false,
      Run.bind_eq, Run.pure_eq]
    exact flows_loops L
  · simp only [OvsDumpSource.DumpFlows] at h
    simp only [Flows, IntFlows, h, Option.isSome_none, Bool.false_eq_true, if_false,
      Run.bind_eq, Run.pure_eq, copyBodyGuarded_none]
    exact flows_loops L

set_option maxRecDepth 100000 in
/-- Witness of C1: the lines of scenarios S1 and S2, read through `IntFlows`. -/
theorem Flows_eq_parsedFlows_witness :
    (constSource [lineS1, lineS2]).DumpFlows .Int [] 0 = ([lineS1, lineS2], none) ∧
    (Flows .Int ⟨constSource [lineS1, lineS2]⟩ [] 0 :
        Run (Option (List (Flow SymFloat)) × Option Unit))
      = Run.ok (some (parsedFlows [lineS1, lineS2]), none) ∧
    (parsedFlows [lineS1, lineS2] : List (Flow SymFloat)).length = 1 :=
  ⟨rfl, Flows_eq_parsedFlows .Int ⟨constSource [lineS1, lineS2]⟩ [] 0 [lineS1, lineS2] rfl,
    by decide⟩

/-- C4: for each of the six façade operations, if the dump-source operation it
calls returns an error `e` (along with any lines whatever), the façade
operation returns the nil sequence and exactly `e`; the lines are not looked at,
so the result is the same for every line sequence. -/
theorem facade_error_propagated {E F : Type} [GoFloat64 F] (op : Op) (o : OvsDumpReader E)
    (ip : Str) (port : Int) (e : E) (h : (op.dump o.dumpSource ip port).2 = some e) :
    (op.run o ip port : Run (Option (Records F) × Option E)) = Run.ok (none, some e) := by
  cases op <;> simp only [Op.dump] at h <;>
    simp [Op.run, asFlows, asPorts, Ovs.TunFlows, Ovs.ExFlows, Ovs.IntFlows, Ovs.TunPorts,
      Ovs.ExPorts, Ovs.IntPorts, h]

/-- Witness of C4: a source failing with error 7 while handing back an odd
number of lines, read through `TunPorts`. -/
theorem facade_error_propagated_witness :
    (Op.TunPorts.dump (failingSource [lineS3a] (7 : Nat)) [] 0).2 = some 7 ∧
    (Op.TunPorts.run ⟨failingSource [lineS3a] (7 : Nat)⟩ [] 0 :
        Run (Option (Records SymFloat) × Option Nat)) = Run.ok (none, some 7) :=
  ⟨rfl, facade_error_propagated Op.TunPorts ⟨failingSource [lineS3a] 7⟩ [] 0 7 rfl⟩

theorem capture_of_no_match (r : Regexp) (s : Str) (name : String)
    (h : r.FindStringSubmatch s = []) : r.capture s name = [] := by
  simp [Regexp.capture, h]

set_option maxRecDepth 100000 in
/-- C5: the flow line parser returns an error exactly when the pattern does not
match the line or one of the groups `match`, `actions`, `table`, `priority` is
empty; it returns no error exactly when the returned record has a non-empty
`Match`, `Action`, `Table` and `Priority`; and the line of scenario S2, which
has no match clause, is rejected. -/
theorem flow_parse_fails_iff {F : Type} [GoFloat64 F] (line : Str) :
    ((parseOpenFlowFlowDumpLine line : Flow F × Option String).2 ≠ none ↔
      (flowLine.FindStringSubmatch line = [] ∨ flowLine.capture line "match" = [] ∨
        flowLine.capture line "actions" = [] ∨ flowLine.capture line "table" = [] ∨
        flowLine.capture line "priority" = [])) ∧
    ((parseOpenFlowFlowDumpLine line : Flow F × Option String).2 = none ↔
      ((parseOpenFlowFlowDumpLine line : Flow F × Option String).1.Match ≠ [] ∧
        (parseOpenFlowFlowDumpLine line : Flow F × Option String).1.Action ≠ [] ∧
        (parseOpenFlowFlowDumpLine line : Flow F × Option String).1.Table ≠ [] ∧
        (parseOpenFlowFlowDumpLine line : Flow F × Option String).1.Priority ≠ [])) ∧
    (flowLine.FindStringSubmatch lineS2 ≠ [] ∧
      (parseOpenFlowFlowDumpLine lineS2 : Flow F × Option String).2 ≠ none) := by
  refine ⟨?_, ?_, ?_, ?_⟩
  · rw [flow_error_eq]
    by_cases h0 : flowLine.FindStringSubmatch line = []
    · simp [h0, parseError]
    · simp only [h0, if_false, false_or]
      split
      · rename_i h
        simp only [ne_eq, not_true_eq_false, false_iff]
        tauto
      · rename_i h
        simp only [parseError, ne_eq, reduceCtorEq, not_false_eq_true, true_iff]
        tauto
  · rw [flow_error_eq, flow_record_eq]
    by_cases h0 : flowLine.FindStringSubmatch line = []
    · simp [h0, parseError, capture_of_no_match _ _ _ h0]
    · simp only [h0, if_false]
      split
      · rename_i h
        simp only [true_iff]
        exact h
      · rename_i h
        simp only [parseError, reduceCtorEq, false_iff]
        exact h
  · decide
  · rw [flow_error_eq]
    have h0 : flowLine.FindStringSubmatch lineS2 ≠ [] := by decide
    have h1 : flowLine.capture lineS2 "match" = [] := by decide
    simp [h0, h1, parseError]

/-- C8: the port block parser returns no error exactly when the port pattern
matches the normalised concatenation of the two lines and the group `port` is
non-empty; and exactly when the returned record has a non-empty `PortNumber`. -/
theorem port_parse_succeeds_iff (first_line second_line : Str) :
    ((parseOpenFlowPortDumpLine first_line second_line).2 = none ↔
      (portLine.FindStringSubmatch (normalise first_line second_line) ≠ [] ∧
        portLine.capture (normalise first_line second_line) "port" ≠ [])) ∧
    ((parseOpenFlowPortDumpLine first_line second_line).2 = none ↔
      (parseOpenFlowPortDumpLine first_line second_line).1.PortNumber ≠ []) := by
  refine ⟨?_, ?_⟩
  · rw [port_error_eq]
    by_cases h0 : portLine.FindStringSubmatch (normalise first_line second_line) = []
    · simp [h0, parseError]
    · simp only [h0, if_false, ne_eq, not_false_eq_true, true_and]
      split
      · rename_i h
        simp only [true_iff]
        exact h
      · rename_i h
        simp only [parseError, reduceCtorEq, false_iff]
        exact h
  · rw [port_error_eq, port_record_eq]
    by_cases h0 : portLine.FindStringSubmatch (normalise first_line second_line) = []
    · simp [h0, parseError, capture_of_no_match _ _ _ h0]
    · simp only [h0, if_false]
      split
      · rename_i h
        simp only [true_iff]
        exact h
      · rename_i h
        simp only [parseError, reduceCtorEq, false_iff]
        exact h

set_option maxRecDepth 100000 in
/-- C2 (the code at the failing input): on the three lines of scenario S4,
`TunPorts` and `ExPorts` panic with an index out of range, at `lines[i+1]` of
the last iteration, while `IntPorts`, which guards that access, returns the one
port of the first pair, as it does on the first two lines alone. -/
theorem odd_line_count_panics :
    TunPorts ⟨constSource [lineS3a, lineS3b, lineS3a]⟩ [] 0 = Run.panic .indexOutOfRange ∧
    ExPorts ⟨constSource [lineS3a, lineS3b, lineS3a]⟩ [] 0 = Run.panic .indexOutOfRange ∧
    IntPorts ⟨constSource [lineS3a, lineS3b, lineS3a]⟩ [] 0
      = Run.ok (some [(parseOpenFlowPortDumpLine lineS3a lineS3b).1], none) ∧
    IntPorts ⟨constSource [lineS3a, lineS3b]⟩ [] 0
      = Run.ok (some [(parseOpenFlowPortDumpLine lineS3a lineS3b).1], none) ∧
    TunPorts ⟨constSource [lineS3a, lineS3b]⟩ [] 0
      = Run.ok (some [(parseOpenFlowPortDumpLine lineS3a lineS3b).1], none) ∧
    ExPorts ⟨constSource [lineS3a, lineS3b]⟩ [] 0
      = Run.ok (some [(parseOpenFlowPortDumpLine lineS3a lineS3b).1], none) := by
  refine ⟨?_, ?_, ?_, ?_, ?_, ?_⟩ <;> decide

set_option maxRecDepth 100000 in
/-- C3 (the code at the failing input): on two lines that do not form a port
block, the parser fails, `ExPorts` and `IntPorts` return the empty sequence, and
`TunPorts` returns a sequence holding one zero-valued record, whose `PortNumber`
is empty. -/
theorem TunPorts_keeps_failed_slot :
    (parseOpenFlowPortDumpLine "x".toList "y".toList).2 ≠ none ∧
    TunPorts ⟨constSource ["x".toList, "y".toList]⟩ [] 0 = Run.ok (some [Port.zero], none) ∧
    Port.zero.PortNumber = [] ∧
    ExPorts ⟨constSource ["x".toList, "y".toList]⟩ [] 0 = Run.ok (some [], none) ∧
    IntPorts ⟨constSource ["x".toList, "y".toList]⟩ [] 0 = Run.ok (some [], none) := by
  refine ⟨?_, ?_, ?_, ?_, ?_⟩ <;> decide

set_option maxRecDepth 100000 in
/-- C7 (the code at the failing input): on the two lines of scenario S3 the
parser succeeds and returns the record of the scenario, except that
`RxCrcErrors` is the text `0` followed by ten of the eleven spaces that start
the second line. -/
theorem port_S3_value :
    parseOpenFlowPortDumpLine lineS3a lineS3b
      = ({ PortNumber := "1".toList, RxPackets := 0, TxPackets := 10, RxBytes := 0,
           TxBytes := 800, RxDrops := 0, TxDrops := 0, RxErrors := "0".toList,
           TxErrors := "0".toList, RxFrameErr := "0".toList, RxOverruns := "0".toList,
           RxCrcErrors := "0          ".toList, TxCollisions := "0".toList }, none) ∧
    (parseOpenFlowPortDumpLine lineS3a lineS3b).1.RxCrcErrors ≠ "0".toList := by
  refine ⟨?_, ?_⟩ <;> decide

/-- C6: on a line ` cookie=C, duration=Ds, table=T, n_packets=P, n_bytes=B,
idle_age=I, hard_age=H, priority=R,M actions=A` where `C`, `D`, `T`, `R` hold no
comma, `T`, `R`, `M`, `A` are non-empty, `M` holds no space, `A` no newline, and
`P`, `B`, `I`, `H` denote decimal integers in the range of `int`, the flow line
parser succeeds and returns the texts `C`, `T`, `R`, `M`, `A`, the four integers,
and as `Duration` the value `strconv.ParseFloat` gives for `D`. -/
theorem flow_field_fidelity {F : Type} [GoFloat64 F] (C D T P B I H R M A : Str)
    (p b i h : Int) (hC : ',' ∉ C) (hD : ',' ∉ D) (hT : ',' ∉ T) (hR : ',' ∉ R)
    (hT0 : T ≠ []) (hR0 : R ≠ []) (hM0 : M ≠ []) (hM : ' ' ∉ M) (hA0 : A ≠ [])
    (hA : '\n' ∉ A)
    (hP : intOfText P = some p) (hPr : minInt ≤ p ∧ p ≤ maxInt)
    (hB : intOfText B = some b) (hBr : minInt ≤ b ∧ b ≤ maxInt)
    (hI : intOfText I = some i) (hIr : minInt ≤ i ∧ i ≤ maxInt)
    (hH : intOfText H = some h) (hHr : minInt ≤ h ∧ h ≤ maxInt) :
    (parseOpenFlowFlowDumpLine (flowText C D T P B I H R M A) : Flow F × Option String)
      = ({ Cookie := C, Duration := (GoFloat64.ParseFloat D).1, Table := T, Packets := p,
           Bytes := b, IdleAge := i, HardAge := h, Priority := R, Match := M, Action := A },
         none) := by
  have hm := flow_match C D T P B I H R M A hC hD hT
    (intOfText_not_mem P p ',' (by decide) (by decide) (by decide) hP)
    (intOfText_not_mem B b ',' (by decide) (by decide) (by decide) hB)
    (intOfText_not_mem I i ',' (by decide) (by decide) (by decide) hI)
    (intOfText_not_mem H h ',' (by decide) (by decide) (by decide) hH) hR hM hA
  obtain ⟨e1, e2, e3, e4, e5, e6, e7, e8, e10, e11⟩ := flow_capture_of_match _ _ _ _ _ _ _ _ _ _ _ _ _ hm
  apply Prod.ext
  · rw [flow_record_eq, e1, e2, e3, e4, e5, e6, e7, e8, e10, e11,
      Atoi_of_inRange P p hP hPr.1 hPr.2, Atoi_of_inRange B b hB hBr.1 hBr.2,
      Atoi_of_inRange I i hI hIr.1 hIr.2, Atoi_of_inRange H h hH hHr.1 hHr.2]
  · rw [flow_error_eq, e3, e8, e10, e11, hm]
    simp [hM0, hA0, hT0, hR0]

set_option maxRecDepth 100000 in
/-- Witness of C6: scenario S1. -/
theorem flow_field_fidelity_witness :
    (parseOpenFlowFlowDumpLine lineS1 : Flow SymFloat × Option String)
      = ({ Cookie := "0x0".toList, Duration := SymFloat.ofText "12.345".toList,
           Table := "0".toList, Packets := 5, Bytes := 420, IdleAge := 3, HardAge := 7,
           Priority := "100".toList, Match := "ip".toList, Action := "output:2".toList },
         none) :=
  flow_field_fidelity (F := SymFloat) "0x0".toList "12.345".toList "0".toList "5".toList
    "420".toList "3".toList "7".toList "100".toList "ip".toList "output:2".toList 5 420 3 7
    (by decide) (by decide) (by decide) (by decide) (by decide) (by decide) (by decide)
    (by decide) (by decide) (by decide) (by decide) (by decide) (by decide) (by decide)
    (by decide) (by decide) (by decide) (by decide)

theorem roundFloat64_of_range (neg : Bool) (num den : Nat)
    (h : (roundFloat64 neg num den).2 = true) : (roundFloat64 neg num den).1 = .inf neg := by
  unfold roundFloat64 at h ⊢
  by_cases h1 : num = 0 ∨ den = 0
  · rw [if_pos h1] at h
    cases h
  · rw [if_neg h1] at h ⊢
    by_cases h2 : den * 2 ^ 1024 ≤ num
    · rw [if_pos h2]
    · rw [if_neg h2] at h ⊢
      by_cases h3 : 971 < (nearestFinite num den).2
      · rw [if_pos h3]
      · rw [if_neg h3] at h
        cases h

theorem FloatText.round_of_range (r : FloatText) (h : r.round.2 = true) :
    r.round.1 = .inf r.neg := by
  unfold FloatText.round at h ⊢
  simp only [] at h ⊢
  split_ifs at h ⊢ <;> exact roundFloat64_of_range _ _ _ h

/-- The value `ParseFloat` returns with an error: the zero with a syntax error,
an infinity with a range error. -/
theorem ParseFloat_of_error (s : Str) :
    ((Float64.ParseFloat s).2 = some .ErrSyntax → (Float64.ParseFloat s).1 = Float64.zero) ∧
    ((Float64.ParseFloat s).2 = some .ErrRange →
      ∃ neg, (Float64.ParseFloat s).1 = Float64.inf neg) := by
  unfold Float64.ParseFloat
  cases hsp : special s with
  | some p =>
    obtain ⟨v, n⟩ := p
    simp only []
    split_ifs <;> simp
  | none =>
    simp only []
    cases hr : readFloat s with
    | none => simp
    | some r =>
      simp only []
      by_cases hrest : r.rest ≠ []
      · simp [hrest]
      · rw [if_neg hrest]
        by_cases h2 : r.round.2 = true
        · rw [if_pos h2]
          exact ⟨fun h => (by cases h), fun _ => ⟨r.neg, r.round_of_range h2⟩⟩
        · rw [if_neg h2]
          exact ⟨fun h => (by cases h), fun h => (by cases h)⟩

set_option exponentiation.threshold 2000 in
set_option maxRecDepth 100000 in
/-- C9 (counterexample): two flow lines that match the flow pattern.  On the
one with `n_packets=99999999999999999999` the conversion of that text by `Atoi`
fails, and the field `Packets` of the record is the largest `int`, not 0.  On
the one with `duration=1e999s` the conversion of `1e999` by `ParseFloat` fails
with a range error, and the field `Duration` is `+Inf`, not 0.  Neither record
is rejected. -/
theorem numeric_tolerance_counterexample :
    flowLine.FindStringSubmatch lineBigCounter ≠ [] ∧
    flowLine.capture lineBigCounter "packets" = "99999999999999999999".toList ∧
    (Atoi (flowLine.capture lineBigCounter "packets")).2 = true ∧
    (parseOpenFlowFlowDumpLine lineBigCounter : Flow SymFloat × Option String).1.Packets
      = 9223372036854775807 ∧
    (parseOpenFlowFlowDumpLine lineBigCounter : Flow SymFloat × Option String).1.Packets ≠ 0 ∧
    (parseOpenFlowFlowDumpLine lineBigCounter : Flow SymFloat × Option String).2 = none ∧
    flowLine.capture lineBigDuration "duration" = "1e999".toList ∧
    Float64.ParseFloat "1e999".toList = (Float64.inf false, some .ErrRange) ∧
    (parseOpenFlowFlowDumpLine lineBigDuration : Flow Float64 × Option String).1.Duration
      = Float64.inf false ∧
    (parseOpenFlowFlowDumpLine lineBigDuration : Flow Float64 × Option String).1.Duration
      ≠ Float64.zero ∧
    (parseOpenFlowFlowDumpLine lineBigDuration : Flow Float64 × Option String).2 = none := by
  refine ⟨?_, ?_, ?_, ?_, ?_, ?_, ?_, ?_, ?_, ?_, ?_⟩ <;> decide

/-- C9 (amended): for every flow line and every port block, each integer field
is the field value of its captured text.  That value is 0 when the text does
not denote a decimal integer (non-numeric or empty text), unless the digits the
text starts with, after a sign, already denote a number outside the range of
`uint64`: then it is the largest `int`, or the smallest when the sign is `-`,
because `Atoi` stops reading at the overflow.  It is the nearest end of the
range of `int` when the text denotes an integer outside the range.  The
conversion by `Atoi` fails exactly when the text denotes no integer or one out
of range.  The field `Duration` is the value `strconv.ParseFloat` returns for
its text, which is 0 when the conversion fails with a syntax error and an
infinity when it fails with a range error.  Whether the record is rejected
depends on the match and the text groups alone, not on any conversion. -/
theorem numeric_tolerance_amended {F : Type} [GoFloat64 F] (line first_line second_line s t : Str) :
    ((parseOpenFlowFlowDumpLine line : Flow F × Option String).1.Packets
        = fieldValue (flowLine.capture line "packets") ∧
      (parseOpenFlowFlowDumpLine line : Flow F × Option String).1.Bytes
        = fieldValue (flowLine.capture line "bytes") ∧
      (parseOpenFlowFlowDumpLine line : Flow F × Option String).1.IdleAge
        = fieldValue (flowLine.capture line "idle_age") ∧
      (parseOpenFlowFlowDumpLine line : Flow F × Option String).1.HardAge
        = fieldValue (flowLine.capture line "hard_age") ∧
      (parseOpenFlowFlowDumpLine line : Flow F × Option String).1.Duration
        = (GoFloat64.ParseFloat (flowLine.capture line "duration")).1) ∧
    ((parseOpenFlowPortDumpLine first_line second_line).1.RxPackets
        = fieldValue (portLine.capture (normalise first_line second_line) "rxpackets") ∧
      (parseOpenFlowPortDumpLine first_line second_line).1.TxPackets
        = fieldValue (portLine.capture (normalise first_line second_line) "txpackets") ∧
      (parseOpenFlowPortDumpLine first_line second_line).1.RxBytes
        = fieldValue (portLine.capture (normalise first_line second_line) "rxbytes") ∧
      (parseOpenFlowPortDumpLine first_line second_line).1.TxBytes
        = fieldValue (portLine.capture (normalise first_line second_line) "txbytes") ∧
      (parseOpenFlowPortDumpLine first_line second_line).1.RxDrops
        = fieldValue (portLine.capture (normalise first_line second_line) "rxdrops") ∧
      (parseOpenFlowPortDumpLine first_line second_line).1.TxDrops
        = fieldValue (portLine.capture (normalise first_line second_line) "txdrops")) ∧
    ((intOfText s = none → overflowsUint64 s = false → fieldValue s = 0) ∧
      (intOfText s = none → overflowsUint64 s = true →
        fieldValue s = if s.head? = some '-' then minInt else maxInt) ∧
      (∀ v, intOfText s = some v → maxInt < v → fieldValue s = maxInt) ∧
      (∀ v, intOfText s = some v → v < minInt → fieldValue s = minInt) ∧
      ((Atoi s).2 = true ↔
        (intOfText s = none ∨ ∃ v, intOfText s = some v ∧ (maxInt < v ∨ v < minInt)))) ∧
    ((parseOpenFlowFlowDumpLine line : Flow Float64 × Option String).1.Duration
        = (Float64.ParseFloat (flowLine.capture line "duration")).1 ∧
      ((Float64.ParseFloat t).2 = some .ErrSyntax → (Float64.ParseFloat t).1 = Float64.zero) ∧
      ((Float64.ParseFloat t).2 = some .ErrRange →
        ∃ neg, (Float64.ParseFloat t).1 = Float64.inf neg)) ∧
    (((parseOpenFlowFlowDumpLine line : Flow F × Option String).2 = none ↔
        (flowLine.FindStringSubmatch line ≠ [] ∧ flowLine.capture line "match" ≠ [] ∧
          flowLine.capture line "actions" ≠ [] ∧ flowLine.capture line "table" ≠ [] ∧
          flowLine.capture line "priority" ≠ [])) ∧
      ((parseOpenFlowPortDumpLine first_line second_line).2 = none ↔
        (portLine.FindStringSubmatch (normalise first_line second_line) ≠ [] ∧
          portLine.capture (normalise first_line second_line) "port" ≠ []))) := by
  refine ⟨?_, ?_, ⟨?_, ?_, ?_, ?_, Atoi_snd s⟩,
    ⟨?_, (ParseFloat_of_error t).1, (ParseFloat_of_error t).2⟩, ?_, ?_⟩
  · rw [flow_record_eq]
    simp only [Atoi_fst, and_self]
  · rw [port_record_eq]
    simp only [Atoi_fst, and_self]
  · intro h ho
    simp [fieldValue, h, ho]
  · intro h ho
    simp [fieldValue, h, ho]
  · intro v h hv
    simp [fieldValue, h, hv]
  · intro v h hv
    have hmm : minInt ≤ maxInt := by norm_num [minInt, maxInt]
    have : ¬ maxInt < v := by omega
    simp [fieldValue, h, hv, this]
  · rw [flow_record_eq]
    rfl
  · rw [flow_error_eq]
    by_cases h0 : flowLine.FindStringSubmatch line = []
    · simp [h0, parseError]
    · simp only [h0, if_false, ne_eq, not_false_eq_true, true_and]
      split
      · rename_i h
        simp only [true_iff]
        exact h
      · rename_i h
        simp only [parseError, reduceCtorEq, false_iff]
        exact h
  · rw [port_error_eq]
    by_cases h0 : portLine.FindStringSubmatch (normalise first_line second_line) = []
    · simp [h0, parseError]
    · simp only [h0, if_false, ne_eq, not_false_eq_true, true_and]
      split
      · rename_i h
        simp only [true_iff]
        exact h
      · rename_i h
        simp only [parseError, reduceCtorEq, false_iff]
        exact h

section normalisation

theorem replaceUnknown_nil : replaceUnknown [] = [] := by
  simp [replaceUnknown, ReplaceAll, replaceAllAux]

theorem replaceUnknown_eq_q (s : Str) :
    replaceUnknown ('=' :: '?' :: s) = '=' :: '0' :: replaceUnknown s := by
  simp [replaceUnknown, ReplaceAll, replaceAllAux, List.isPrefixOf]

theorem replaceUnknown_cons (c : Char) (s : Str) (h : ¬ (c = '=' ∧ s.head? = some '?')) :
    replaceUnknown (c :: s) = c :: replaceUnknown s := by
  cases s with
  | nil => simp [replaceUnknown, ReplaceAll, replaceAllAux, List.isPrefixOf]
  | cons d s =>
    have h1 : ¬ (c = '=' ∧ d = '?') := by simpa using h
    have h2 : ¬ ('=' = c ∧ '?' = d) := fun e => h1 ⟨e.1.symm, e.2.symm⟩
    simp [replaceUnknown, ReplaceAll, replaceAllAux, List.isPrefixOf, h2]

theorem stripQuotes_eq_filter (s : Str) : stripQuotes s = s.filter (fun c => c != '"') := by
  have h : ∀ t : Str, replaceAllAux ['"'] [] 0 t = t.filter (fun c => c != '"') := by
    intro t
    induction t with
    | nil => rfl
    | cons c t ih =>
      by_cases hc : c = '"'
      · subst hc
        simp [replaceAllAux, List.isPrefixOf, ih]
      · have h2 : ¬ ('"' = c) := fun e => hc e.symm
        simp [replaceAllAux, List.isPrefixOf, ih, hc, h2]
  simp [stripQuotes, ReplaceAll, h]

/-- Induction along the replacement of `=?`. -/
theorem replaceUnknown_induction (P : Str → Prop) (h0 : P [])
    (h1 : ∀ s, P s → P ('=' :: '?' :: s))
    (h2 : ∀ c s, ¬ (c = '=' ∧ s.head? = some '?') → P s → P (c :: s)) : ∀ s, P s
  | [] => h0
  | [c] => h2 c [] (by simp) h0
  | c :: d :: s =>
    if h : c = '=' ∧ d = '?' then by
      obtain ⟨rfl, rfl⟩ := h
      exact h1 s (replaceUnknown_induction P h0 h1 h2 s)
    else h2 c (d :: s) (by simpa using h) (replaceUnknown_induction P h0 h1 h2 (d :: s))

theorem head_replaceUnknown (s : Str) : (replaceUnknown s).head? = s.head? := by
  cases s with
  | nil => simp [replaceUnknown_nil]
  | cons c s =>
    by_cases h : c = '=' ∧ s.head? = some '?'
    · obtain ⟨rfl, h2⟩ := h
      cases s with
      | nil => simp at h2
      | cons d s =>
        have : d = '?' := by simpa using h2
        subst this
        simp [replaceUnknown_eq_q]
    · simp [replaceUnknown_cons c s h]

theorem replaceUnknown_idem : ∀ s, replaceUnknown (replaceUnknown s) = replaceUnknown s := by
  apply replaceUnknown_induction
  · simp [replaceUnknown_nil]
  · intro s ih
    rw [replaceUnknown_eq_q, replaceUnknown_cons '=' _ (by simp),
      replaceUnknown_cons '0' _ (by simp), ih]
  · intro c s h ih
    rw [replaceUnknown_cons c s h, replaceUnknown_cons c _ (by rwa [head_replaceUnknown]), ih]

/-- Replacing `=?` in each of two texts and then in their concatenation is
replacing it in the concatenation. -/
theorem replaceUnknown_append (b : Str) :
    ∀ a, replaceUnknown (replaceUnknown a ++ replaceUnknown b) = replaceUnknown (a ++ b) := by
  apply replaceUnknown_induction
  · simp [replaceUnknown_nil, replaceUnknown_idem]
  · intro s ih
    rw [replaceUnknown_eq_q]
    simp only [List.cons_append]
    rw [replaceUnknown_eq_q, replaceUnknown_cons '=' _ (by simp),
      replaceUnknown_cons '0' _ (by simp), ih]
  · intro c s h ih
    rw [replaceUnknown_cons c s h]
    simp only [List.cons_append]
    have hh : (replaceUnknown s ++ replaceUnknown b).head? = (s ++ b).head? := by
      cases s with
      | nil => simp [replaceUnknown_nil, head_replaceUnknown]
      | cons d s =>
        have := head_replaceUnknown (d :: s)
        cases hr : replaceUnknown (d :: s) with
        | nil => rw [hr] at this; simp at this
        | cons e t => rw [hr] at this; simpa using this
    by_cases q : c = '=' ∧ (s ++ b).head? = some '?'
    · obtain ⟨rfl, q2⟩ := q
      cases s with
      | cons d s =>
        exfalso
        apply h
        simpa using q2
      | nil =>
        cases b with
        | nil => simp at q2
        | cons e b =>
          have : e = '?' := by simpa using q2
          subst this
          simp only [replaceUnknown_nil, List.nil_append]
          rw [replaceUnknown_cons '?' b (by simp), replaceUnknown_eq_q, replaceUnknown_eq_q,
            replaceUnknown_idem]
    · rw [replaceUnknown_cons c _ (by rwa [hh]), replaceUnknown_cons c _ q, ih]

theorem stripQuotes_append (a b : Str) :
    stripQuotes (a ++ b) = stripQuotes a ++ stripQuotes b := by
  simp [stripQuotes_eq_filter]

theorem stripQuotes_idem (s : Str) : stripQuotes (stripQuotes s) = stripQuotes s := by
  simp [stripQuotes_eq_filter]

theorem stripQuotes_cons_quote (s : Str) : stripQuotes ('"' :: s) = stripQuotes s := by
  simp [stripQuotes_eq_filter]

theorem stripQuotes_cons (c : Char) (s : Str) (h : c ≠ '"') :
    stripQuotes (c :: s) = c :: stripQuotes s := by
  simp [stripQuotes_eq_filter, h]

theorem quotedUnknown_tail (c : Char) (s : Str) (h : quotedUnknown (c :: s) = false) :
    quotedUnknown s = false := by
  simp only [quotedUnknown, Bool.or_eq_false_iff] at h
  exact h.2

/-- Replacing `=?` and deleting double quotes commute on a text with no `=`
followed by double quotes and a `?`. -/
theorem stripQuotes_replaceUnknown :
    ∀ s, quotedUnknown s = false →
      stripQuotes (replaceUnknown s) = replaceUnknown (stripQuotes s) := by
  apply replaceUnknown_induction
  · intro _
    simp [replaceUnknown_nil, stripQuotes_eq_filter]
  · intro s ih hq
    have hs : quotedUnknown s = false := quotedUnknown_tail _ _ (quotedUnknown_tail _ _ hq)
    rw [replaceUnknown_eq_q, stripQuotes_cons '=' _ (by decide),
      stripQuotes_cons '0' _ (by decide), stripQuotes_cons '=' _ (by decide),
      stripQuotes_cons '?' _ (by decide), replaceUnknown_eq_q, ih hs]
  · intro c s h ih hq
    have hs : quotedUnknown s = false := quotedUnknown_tail _ _ hq
    rw [replaceUnknown_cons c s h]
    by_cases hc : c = '"'
    · subst hc
      rw [stripQuotes_cons_quote, stripQuotes_cons_quote, ih hs]
    · rw [stripQuotes_cons c _ hc, stripQuotes_cons c _ hc, ih hs]
      have hh : ¬ (c = '=' ∧ (stripQuotes s).head? = some '?') := by
        rintro ⟨rfl, h2⟩
        simp only [quotedUnknown, Bool.or_eq_false_iff, Bool.and_eq_false_imp,
          beq_iff_eq, true_and] at hq
        cases s with
        | nil => simp [stripQuotes_eq_filter] at h2
        | cons d s =>
          by_cases hd : d = '"'
          · subst hd
            have := hq.1 (by simp)
            simp [h2] at this
          · rw [stripQuotes_cons d s hd] at h2
            apply h
            simpa using h2
      rw [replaceUnknown_cons c _ hh]

theorem normalise_eq (a b : Str) : normalise a b = stripQuotes (replaceUnknown (a ++ b)) := rfl

/-- The port block parser is a function of the normalised concatenation. -/
theorem port_parse_congr (a b c d : Str) (h : normalise a b = normalise c d) :
    parseOpenFlowPortDumpLine a b = parseOpenFlowPortDumpLine c d := by
  apply Prod.ext
  · rw [port_record_eq, port_record_eq, h]
  · rw [port_error_eq, port_error_eq, h]

end normalisation

set_option maxRecDepth 100000 in
/-- C10 (counterexample): a block whose `errs` counter is a quoted `?`.  The
parser replaces `=?` before it deletes the quotes, so it returns `RxErrors = "?"`
on the block, and `RxErrors = "0"` on the same block with the double quote
deleted. -/
theorem quote_deletion_counterexample :
    (parseOpenFlowPortDumpLine lineQuotedUnknown lineS3b).1.RxErrors = "?".toList ∧
    (parseOpenFlowPortDumpLine (stripQuotes lineQuotedUnknown) (stripQuotes lineS3b)).1.RxErrors
      = "0".toList ∧
    parseOpenFlowPortDumpLine (stripQuotes lineQuotedUnknown) (stripQuotes lineS3b)
      ≠ parseOpenFlowPortDumpLine lineQuotedUnknown lineS3b := by
  refine ⟨?_, ?_, ?_⟩ <;> decide

/-- C10 (amended): the result of the port block parser, error and record, is
the same on a block and on the block with every `=?` of each line replaced by
`=0`; and it is the same on a block and on the block with every double quote
deleted when the concatenated block holds no `=` directly followed by one or
more double quotes and then a `?`. -/
theorem port_normalisation_invariance (a b c d : Str) (h : quotedUnknown (c ++ d) = false) :
    parseOpenFlowPortDumpLine (replaceUnknown a) (replaceUnknown b)
      = parseOpenFlowPortDumpLine a b ∧
    parseOpenFlowPortDumpLine (stripQuotes c) (stripQuotes d)
      = parseOpenFlowPortDumpLine c d := by
  constructor
  · apply port_parse_congr
    rw [normalise_eq, normalise_eq, replaceUnknown_append]
  · apply port_parse_congr
    rw [normalise_eq, normalise_eq, ← stripQuotes_append, ← stripQuotes_replaceUnknown _ h,
      stripQuotes_idem]

set_option maxRecDepth 100000 in
/-- Witness of C10 (amended): the block of scenario S3, and the same block with
its port number in double quotes. -/
theorem port_normalisation_invariance_witness :
    quotedUnknown (lineQuotedPort ++ lineS3b) = false ∧
    (parseOpenFlowPortDumpLine (replaceUnknown lineS3a) (replaceUnknown lineS3b)
        = parseOpenFlowPortDumpLine lineS3a lineS3b ∧
      parseOpenFlowPortDumpLine (stripQuotes lineQuotedPort) (stripQuotes lineS3b)
        = parseOpenFlowPortDumpLine lineQuotedPort lineS3b) :=
  ⟨by decide, port_normalisation_invariance lineS3a lineS3b lineQuotedPort lineS3b (by decide)⟩

section ports

theorem pairs_length (lines : List Str) : (pairs lines).length = lines.length / 2 := by
  match lines with
  | [] => simp [pairs]
  | [a] => simp [pairs]
  | a :: b :: rest =>
    have := pairs_length rest
    simp only [pairs, List.length_cons]
    omega

theorem pairs_getElem (lines : List Str) (k : Nat) (a b : Str)
    (ha : lines[2 * k]? = some a) (hb : lines[2 * k + 1]? = some b) :
    (pairs lines)[k]? = some (a, b) := by
  match lines, k with
  | [], _ => simp at ha
  | [x], k => simp at hb
  | x :: y :: rest, 0 =>
    simp at ha hb
    simp [pairs, ha, hb]
  | x :: y :: rest, k + 1 =>
    have e1 : 2 * (k + 1) = 2 * k + 1 + 1 := by omega
    have e2 : 2 * (k + 1) + 1 = (2 * k + 1) + 1 + 1 := by omega
    rw [e1] at ha
    rw [e2] at hb
    simp only [List.getElem?_cons_succ] at ha hb
    simp only [pairs, List.getElem?_cons_succ]
    exact pairs_getElem rest k a b ha hb

end ports

/-- C17: for every line sequence `L`, of even or odd length, that `IntDumpPorts`
returns without error, `IntPorts` returns, without error or panic, exactly the
records of the pairs `(L[0],L[1])`, `(L[2],L[3])`, ... on which the block parser
succeeds, in order; there are `len(L)/2` pairs, so the result has at most that
many entries; and on every even-length sequence `ExPorts` returns what
`IntPorts` returns. -/
theorem IntPorts_total_ExPorts_agrees {E : Type} (o o2 : OvsDumpReader E) (ip : Str)
    (port : Int) (L L2 : List Str)
    (hI : o.dumpSource.IntDumpPorts ip port = (L, none))
    (hE : o2.dumpSource.ExDumpPorts ip port = (L2, none))
    (hI2 : o2.dumpSource.IntDumpPorts ip port = (L2, none))
    (hev : L2.length % 2 = 0) :
    IntPorts o ip port = Run.ok (some ((pairs L).filterMap portOf), none) ∧
    (pairs L).length = L.length / 2 ∧
    (∀ k a b, L[2 * k]? = some a → L[2 * k + 1]? = some b → (pairs L)[k]? = some (a, b)) ∧
    ((pairs L).filterMap portOf).length ≤ L.length / 2 ∧
    ExPorts o2 ip port = IntPorts o2 ip port := by
  refine ⟨IntPorts_eq o ip port L hI, pairs_length L, pairs_getElem L,
    parsedPorts_length_le L, ?_⟩
  rw [ExPorts_eq o2 ip port L2 hE hev, IntPorts_eq o2 ip port L2 hI2]

set_option maxRecDepth 100000 in
/-- Witness of C17: the three lines of scenario S4 through `IntPorts`, and the
two lines of scenario S3 through `ExPorts` and `IntPorts`. -/
theorem IntPorts_total_ExPorts_agrees_witness :
    IntPorts ⟨constSource [lineS3a, lineS3b, lineS3a]⟩ [] 0
      = Run.ok (some ((pairs [lineS3a, lineS3b, lineS3a]).filterMap portOf), none) ∧
    (pairs [lineS3a, lineS3b, lineS3a]).length = [lineS3a, lineS3b, lineS3a].length / 2 ∧
    (∀ k a b, [lineS3a, lineS3b, lineS3a][2 * k]? = some a →
      [lineS3a, lineS3b, lineS3a][2 * k + 1]? = some b →
      (pairs [lineS3a, lineS3b, lineS3a])[k]? = some (a, b)) ∧
    ((pairs [lineS3a, lineS3b, lineS3a]).filterMap portOf).length
      ≤ [lineS3a, lineS3b, lineS3a].length / 2 ∧
    ExPorts ⟨constSource [lineS3a, lineS3b]⟩ [] 0
      = IntPorts ⟨constSource [lineS3a, lineS3b]⟩ [] 0 :=
  IntPorts_total_ExPorts_agrees ⟨constSource [lineS3a, lineS3b, lineS3a]⟩
    ⟨constSource [lineS3a, lineS3b]⟩ [] 0 [lineS3a, lineS3b, lineS3a] [lineS3a, lineS3b]
    rfl rfl rfl (by decide)

section verbatim

theorem replaceUnknown_of_no_infix :
    ∀ s : Str, ¬ ("=?".toList <:+: s) → replaceUnknown s = s := by
  apply replaceUnknown_induction
  · intro _
    exact replaceUnknown_nil
  · intro s _ h
    exfalso
    apply h
    exact ⟨[], s, by simp⟩
  · intro c s hc ih h
    rw [replaceUnknown_cons c s hc, ih]
    intro hi
    apply h
    obtain ⟨u, v, e⟩ := hi
    exact ⟨c :: u, v, by simp [← e]⟩

theorem stripQuotes_of_not_mem (s : Str) (h : '"' ∉ s) : stripQuotes s = s := by
  rw [stripQuotes_eq_filter, List.filter_eq_self]
  intro c hc
  have : c ≠ '"' := fun e => h (e ▸ hc)
  simpa using this

/-- A block with no `=?` and no double quote is its own normalised form. -/
theorem normalise_of_plain (a b : Str) (h1 : ¬ ("=?".toList <:+: (a ++ b)))
    (h2 : '"' ∉ a ++ b) : normalise a b = a ++ b := by
  rw [normalise_eq, replaceUnknown_of_no_infix _ h1, stripQuotes_of_not_mem _ h2]

end verbatim

set_option maxRecDepth 100000 in
/-- C11 (counterexample): the block of scenario S3 with `errs=?`.  The port
pattern matches the block as it is, with the text `?` for the group `rxerrors`,
but the parser returns `RxErrors = "0"`: `=?` has been replaced in the whole
block before the pattern is applied. -/
theorem text_counter_counterexample :
    portLine.FindStringSubmatch (lineUnknownErrs ++ lineS3b) ≠ [] ∧
    portLine.capture (lineUnknownErrs ++ lineS3b) "rxerrors" = "?".toList ∧
    (parseOpenFlowPortDumpLine lineUnknownErrs lineS3b).2 = none ∧
    (parseOpenFlowPortDumpLine lineUnknownErrs lineS3b).1.RxErrors = "0".toList ∧
    (parseOpenFlowPortDumpLine lineUnknownErrs lineS3b).1.RxErrors ≠ "?".toList := by
  refine ⟨?_, ?_, ?_, ?_, ?_⟩ <;> decide

/-- C11 (amended): for every port block, each of the text counters `RxErrors`,
`TxErrors`, `RxFrameErr`, `RxOverruns` and `TxCollisions` is the text of the
corresponding group (`rxerrors`, `txerrors`, `rxframerr`, `rxoverruns`,
`txcollisions`) in the normalised block, that is in the block after every `=?`
has become `=0` and every double quote is removed; and on a block that holds no
`=?` and no double quote they are the texts of those groups in the block as it
is. -/
theorem text_counters_of_normalised (a b c d : Str)
    (h1 : ¬ ("=?".toList <:+: (c ++ d))) (h2 : '"' ∉ c ++ d) :
    ((parseOpenFlowPortDumpLine a b).1.RxErrors = portLine.capture (normalise a b) "rxerrors" ∧
      (parseOpenFlowPortDumpLine a b).1.TxErrors = portLine.capture (normalise a b) "txerrors" ∧
      (parseOpenFlowPortDumpLine a b).1.RxFrameErr
        = portLine.capture (normalise a b) "rxframerr" ∧
      (parseOpenFlowPortDumpLine a b).1.RxOverruns
        = portLine.capture (normalise a b) "rxoverruns" ∧
      (parseOpenFlowPortDumpLine a b).1.TxCollisions
        = portLine.capture (normalise a b) "txcollisions") ∧
    ((parseOpenFlowPortDumpLine c d).1.RxErrors = portLine.capture (c ++ d) "rxerrors" ∧
      (parseOpenFlowPortDumpLine c d).1.TxErrors = portLine.capture (c ++ d) "txerrors" ∧
      (parseOpenFlowPortDumpLine c d).1.RxFrameErr = portLine.capture (c ++ d) "rxframerr" ∧
      (parseOpenFlowPortDumpLine c d).1.RxOverruns = portLine.capture (c ++ d) "rxoverruns" ∧
      (parseOpenFlowPortDumpLine c d).1.TxCollisions
        = portLine.capture (c ++ d) "txcollisions") := by
  constructor
  · rw [port_record_eq]
    exact ⟨rfl, rfl, rfl, rfl, rfl⟩
  · rw [port_record_eq, normalise_of_plain c d h1 h2]
    exact ⟨rfl, rfl, rfl, rfl, rfl⟩

set_option maxRecDepth 100000 in
/-- Witness of C11 (amended): the block with `errs=?`, and a block with no
unknown counter, whose text counters are 4, 8, 5, 6 and 9. -/
theorem text_counters_of_normalised_witness :
    (parseOpenFlowPortDumpLine lineUnknownErrs lineS3b).1.RxErrors
      = portLine.capture (normalise lineUnknownErrs lineS3b) "rxerrors" ∧
    portLine.capture (normalise lineUnknownErrs lineS3b) "rxerrors" = "0".toList ∧
    (parseOpenFlowPortDumpLine linePlainA linePlainB).1.RxErrors = "4".toList ∧
    (parseOpenFlowPortDumpLine linePlainA linePlainB).1.TxErrors = "8".toList ∧
    (parseOpenFlowPortDumpLine linePlainA linePlainB).1.RxFrameErr = "5".toList ∧
    (parseOpenFlowPortDumpLine linePlainA linePlainB).1.RxOverruns = "6".toList ∧
    (parseOpenFlowPortDumpLine linePlainA linePlainB).1.TxCollisions = "9".toList := by
  have h := text_counters_of_normalised lineUnknownErrs lineS3b linePlainA linePlainB
    (by decide) (by decide)
  refine ⟨h.1.1, by decide, ?_, ?_, ?_, ?_, ?_⟩
  · rw [h.2.1]; decide
  · rw [h.2.2.1]; decide
  · rw [h.2.2.2.1]; decide
  · rw [h.2.2.2.2.1]; decide
  · rw [h.2.2.2.2.2]; decide

section groups

theorem list_length_4 {α : Type} (m : List α) (h : m.length = 4) :
    ∃ c0 c1 c2 c3, m = [c0, c1, c2, c3] := by
  match m, h with
  | [c0, c1, c2, c3], _ => exact ⟨c0, c1, c2, c3, rfl⟩

/-- For a pattern with four distinct group names, the entries of the map of
`getRegexpMap` are the groups of the match. -/
theorem result_get_4 (r : Regexp) (n0 n1 n2 n3 : String) (hn : r.names = [n0, n1, n2, n3])
    (hd : [n0, n1, n2, n3].Nodup) (line : Str) (name : String) (hmem : name ∈ r.names) :
    (getRegexpMap (r.FindStringSubmatch line) r.SubexpNames).get name
      = r.capture line name := by
  unfold Regexp.capture
  rcases r.FindStringSubmatch_length line with h | h
  · rw [h]
    simp [getRegexpMap, StrMap.get]
  · rw [hn] at h hmem
    obtain ⟨c0, c1, c2, c3, hm⟩ := list_length_4 _ h
    rw [hm, Regexp.SubexpNames, hn]
    simp only [List.nodup_cons, List.mem_cons, List.mem_singleton, List.not_mem_nil,
      not_or, List.nodup_nil, and_true, not_false_eq_true] at hd
    obtain ⟨⟨h01, h02, h03⟩, ⟨h12, h13⟩, h23⟩ := hd
    simp only [List.mem_cons, List.mem_singleton, List.not_mem_nil, or_false] at hmem
    have e : getRegexpMap [c0, c1, c2, c3] [n0, n1, n2, n3]
        = [(n0, c0), (n1, c1), (n2, c2), (n3, c3)] := by
      simp [getRegexpMap, StrMap.insert, h01, h02, h03, h12, h13, h23]
    rw [e]
    rcases hmem with rfl | rfl | rfl | rfl
    · simp [StrMap.get, List.indexOf_cons]
    · simp [StrMap.get, List.indexOf_cons, h01, Ne.symm h01]
    · simp [StrMap.get, List.indexOf_cons, h02, Ne.symm h02, h12, Ne.symm h12]
    · simp [StrMap.get, List.indexOf_cons, h03, Ne.symm h03, h13, Ne.symm h13, h23,
        Ne.symm h23]

theorem stats_result_get (line : Str) (name : String)
    (h : name ∈ ["", "groupid", "duration", "counts"]) :
    (getRegexpMap (groupStatsLine.FindStringSubmatch line) groupStatsLine.SubexpNames).get name
      = groupStatsLine.capture line name :=
  result_get_4 groupStatsLine _ _ _ _ rfl (by decide) line name h

theorem count_result_get (seg : Str) (name : String)
    (h : name ∈ ["", "ref_count", "packet_count", "byte_count"]) :
    (getRegexpMap (countLine.FindStringSubmatch seg) countLine.SubexpNames).get name
      = countLine.capture seg name :=
  result_get_4 countLine _ _ _ _ rfl (by decide) seg name h

theorem groups_result_get (line : Str) (name : String)
    (h : name ∈ ["", "groupid", "type", "buckets"]) :
    (getRegexpMap (groupsLine.FindStringSubmatch line) groupsLine.SubexpNames).get name
      = groupsLine.capture line name :=
  result_get_4 groupsLine _ _ _ _ rfl (by decide) line name h

theorem consHead_ne_nil (c : Char) (l : List Str) : consHead c l ≠ [] := by
  cases l <;> simp [consHead]

theorem splitAux_ne_nil (sep : Str) : ∀ (s : Str) (skip : Nat), splitAux sep skip s ≠ []
  | [], skip => by simp [splitAux]
  | c :: s, skip + 1 => by
    rw [splitAux]
    exact splitAux_ne_nil sep s skip
  | c :: s, 0 => by
    rw [splitAux]
    split
    · simp
    · exact consHead_ne_nil _ _

/-- Splitting on a non-empty separator gives at least one text. -/
theorem Split_ne_nil (s sep : Str) (h : sep ≠ []) : Split s sep ≠ [] := by
  simp only [Split, h, if_false]
  exact splitAux_ne_nil sep s 0

theorem statsSegments_ne_nil (line : Str) : statsSegments line ≠ [] :=
  Split_ne_nil _ _ (by simp)

theorem slice_index_of_lt (s : BucketSlice) (i : Nat) (h : i < s.len) :
    s.index i = Run.ok (s.ptr + i) := by
  simp [BucketSlice.index, h]

theorem slice_index_of_ge (s : BucketSlice) (i : Nat) (h : s.len ≤ i) :
    s.index i = Run.panic .indexOutOfRange := by
  simp [BucketSlice.index, Nat.not_lt.mpr h]

/-- One iteration of the bucket loop of the stats parser, on a bucket that
exists: the bucket gets the counters of segment 0, in place. -/
theorem stats_body_ok (seg0 : Str) (rest : List Str) (s : BucketSlice) (i : Nat)
    (mem : Nat → Bucket) (h : i < s.len) :
    statsBucketBody (seg0 :: rest) s (i + 1) mem
      = Run.ok (storeBucket mem (s.ptr + i)
          ((mem (s.ptr + i)).withCounts (segPackets seg0) (segBytes seg0))) := by
  have hi : index (seg0 :: rest) 0 = Run.ok seg0 := by simp [index]
  simp only [statsBucketBody, Run.bind_eq, hi, Run.ok_bind, Nat.add_sub_cancel,
    slice_index_of_lt s i h, count_result_get seg0 "packet_count" (by simp),
    count_result_get seg0 "byte_count" (by simp), Atoi_fst, Run.pure_eq]
  congr 1
  funext x
  by_cases hx : x = s.ptr + i
  · simp only [storeBucket, hx, if_true]
    rfl
  · simp [storeBucket, hx]

/-- One iteration of the bucket loop of the stats parser, past the last
bucket: index out of range. -/
theorem stats_body_panic (seg0 : Str) (rest : List Str) (s : BucketSlice) (i : Nat)
    (mem : Nat → Bucket) (h : s.len ≤ i) :
    statsBucketBody (seg0 :: rest) s (i + 1) mem = Run.panic .indexOutOfRange := by
  have hi : index (seg0 :: rest) 0 = Run.ok seg0 := by simp [index]
  simp only [statsBucketBody, Run.bind_eq, hi, Run.ok_bind, Nat.add_sub_cancel,
    slice_index_of_ge s i h, Run.panic_bind]

/-- The bucket loop of the stats parser when the slice has a bucket for every
segment after the first. -/
theorem stats_loop_ok (seg0 : Str) (rest : List Str) (s : BucketSlice) :
    ∀ (fuel i : Nat) (mem : Nat → Bucket), i ≤ rest.length → rest.length - i ≤ fuel →
      rest.length ≤ s.len →
      forLoop (fun j => decide (j < (seg0 :: rest).length)) (· + 1)
          (statsBucketBody (seg0 :: rest) s) fuel (i + 1) mem
        = Run.ok (writeCounts mem (s.ptr + i) (s.ptr + rest.length)
            (segPackets seg0) (segBytes seg0)) := by
  intro fuel
  induction fuel with
  | zero =>
    intro i mem hi hf hb
    have : i = rest.length := by omega
    subst this
    simp only [forLoop, List.length_cons, Nat.lt_irrefl, decide_False, Bool.false_eq_true,
      if_false]
    congr 1
    funext a
    simp only [writeCounts]
    rw [if_neg (by omega)]
  | succ fuel ih =>
    intro i mem hi hf hb
    by_cases h : i < rest.length
    · have hbs : i < s.len := by omega
      have hc : i + 1 < (seg0 :: rest).length := by simpa using h
      simp only [forLoop, hc, decide_True, if_true, stats_body_ok seg0 rest s i mem hbs,
        Run.ok_bind]
      rw [ih (i + 1) _ (by omega) (by omega) hb]
      congr 1
      funext a
      simp only [writeCounts, storeBucket]
      by_cases h1 : a = s.ptr + i
      · have n1 : ¬ (s.ptr + (i + 1) ≤ a ∧ a < s.ptr + rest.length) := by omega
        have p3 : s.ptr + i ≤ a ∧ a < s.ptr + rest.length := by omega
        rw [if_neg n1, if_pos h1, if_pos p3, h1]
      · by_cases h2 : s.ptr + (i + 1) ≤ a ∧ a < s.ptr + rest.length
        · have p3 : s.ptr + i ≤ a ∧ a < s.ptr + rest.length := by omega
          rw [if_pos h2, if_neg h1, if_pos p3]
        · have n3 : ¬ (s.ptr + i ≤ a ∧ a < s.ptr + rest.length) := by omega
          rw [if_neg h2, if_neg h1, if_neg n3]
    · have : i = rest.length := by omega
      subst this
      simp only [forLoop, List.length_cons, Nat.lt_irrefl, decide_False, Bool.false_eq_true,
        if_false]
      congr 1
      funext a
      simp only [writeCounts]
      rw [if_neg (by omega)]

/-- The bucket loop of the stats parser when there are more segments after the
first than the slice has buckets: index out of range. -/
theorem stats_loop_panic (seg0 : Str) (rest : List Str) (s : BucketSlice) :
    ∀ (fuel i : Nat) (mem : Nat → Bucket), i ≤ s.len → s.len < rest.length →
      rest.length - i ≤ fuel →
      forLoop (fun j => decide (j < (seg0 :: rest).length)) (· + 1)
          (statsBucketBody (seg0 :: rest) s) fuel (i + 1) mem
        = Run.panic .indexOutOfRange := by
  intro fuel
  induction fuel with
  | zero =>
    intro i mem hi hb hf
    omega
  | succ fuel ih =>
    intro i mem hi hb hf
    have hc : i + 1 < (seg0 :: rest).length := by simp; omega
    by_cases h : i < s.len
    · simp only [forLoop, hc, decide_True, if_true, stats_body_ok seg0 rest s i mem h,
        Run.ok_bind]
      exact ih (i + 1) _ (by omega) hb (by omega)
    · simp only [forLoop, hc, decide_True, if_true,
        stats_body_panic seg0 rest s i mem (by omega), Run.panic_bind]

/-- The stats parser in closed form: it faults on an id that is not a key of a
Group variable, and when there are more segments after the first than buckets;
it updates the memory in place otherwise. -/
theorem stats_eq (line : Str) (m : GroupIdMap) (h : Heap) :
    parseOpenFlowGroupStatsDumpLine line m h
      = match m.get (groupStatsLine.capture line "groupid") with
        | none => Run.panic .nilDereference
        | some p =>
          match h.groups[p]? with
          | none => Run.panic .nilDereference
          | some v =>
            if (statsSegments line).length - 1 ≤ v.Buckets.len then
              Run.ok (h.statsUpdate p v line)
            else Run.panic .indexOutOfRange := by
  unfold parseOpenFlowGroupStatsDumpLine
  simp only [stats_result_get line "groupid" (by simp),
    stats_result_get line "duration" (by simp), stats_result_get line "counts" (by simp)]
  cases hm : m.get (groupStatsLine.capture line "groupid") with
  | none => rfl
  | some p =>
    simp only []
    cases hs : h.groups[p]? with
    | none => rfl
    | some v =>
      simp only []
      have hseg : Split (groupStatsLine.capture line "counts") ":".toList = statsSegments line :=
        rfl
      rw [hseg]
      rcases hsp : statsSegments line with _ | ⟨seg0, rest⟩
      · exact absurd hsp (statsSegments_ne_nil line)
      · have hi : index (seg0 :: rest) 0 = Run.ok seg0 := by simp [index]
        simp only [Run.bind_eq, hi, Run.ok_bind, Run.pure_eq, List.length_cons,
          Nat.add_sub_cancel, count_result_get seg0 "packet_count" (by simp),
          count_result_get seg0 "byte_count" (by simp), Atoi_fst]
        by_cases hb : rest.length ≤ v.Buckets.len
        · have hl := stats_loop_ok seg0 rest v.Buckets (rest.length + 1) 0 h.buckets
            (Nat.zero_le _) (by omega) hb
          simp only [Nat.zero_add, List.length_cons, Nat.add_zero] at hl
          rw [hl]
          simp [hb, Heap.statsUpdate, hsp, segPackets, segBytes]
        · have hl := stats_loop_panic seg0 rest v.Buckets (rest.length + 1) 0 h.buckets
            (Nat.zero_le _) (by omega) (by omega)
          simp only [Nat.zero_add, List.length_cons] at hl
          rw [hl]
          simp [hb]

end groups

section heapView

theorem readBuckets_length (mem : Nat → Bucket) (s : BucketSlice) :
    (readBuckets mem s).length = s.len := by
  simp [readBuckets]

theorem readBuckets_get (mem : Nat → Bucket) (s : BucketSlice) (j : Nat) :
    (readBuckets mem s)[j]? = if j < s.len then some (mem (s.ptr + j)) else none := by
  simp only [readBuckets, List.getElem?_map, List.getElem?_range]
  by_cases h : j < s.len
  · simp [h, List.getElem?_range h]
  · simp [h, List.getElem?_eq_none (l := List.range s.len) (by simpa using h)]

/-- The elements of the slice whose first `k` buckets got counters written in
place. -/
theorem readBuckets_writeCounts_self (mem : Nat → Bucket) (s : BucketSlice) (k : Nat)
    (pv bv : Int) (hk : k ≤ s.len) :
    readBuckets (writeCounts mem s.ptr (s.ptr + k) pv bv) s
      = ((readBuckets mem s).take k).map (fun b => b.withCounts pv bv)
        ++ (readBuckets mem s).drop k := by
  apply List.ext_getElem?
  intro j
  rw [readBuckets_get]
  by_cases hj : j < k
  · rw [List.getElem?_append_left (by simp [readBuckets_length]; omega)]
    simp only [List.getElem?_map, List.getElem?_take, hj, if_true, readBuckets_get]
    have h1 : j < s.len := by omega
    have h2 : s.ptr ≤ s.ptr + j ∧ s.ptr + j < s.ptr + k := by omega
    simp [h1, writeCounts, h2]
  · rw [List.getElem?_append_right (by simp [readBuckets_length]; omega)]
    simp only [List.length_map, List.length_take, readBuckets_length, Nat.min_eq_left hk,
      List.getElem?_drop, readBuckets_get]
    have e : k + (j - k) = j := by omega
    have h2 : ¬ (s.ptr ≤ s.ptr + j ∧ s.ptr + j < s.ptr + k) := by omega
    simp [e, writeCounts, hj]

/-- The elements of a slice that shares no bucket with the written ones are
unchanged. -/
theorem readBuckets_writeCounts_disjoint (mem : Nat → Bucket) (s : BucketSlice) (lo hi : Nat)
    (pv bv : Int) (hd : ∀ a, s.ptr ≤ a → a < s.ptr + s.len → ¬ (lo ≤ a ∧ a < hi)) :
    readBuckets (writeCounts mem lo hi pv bv) s = readBuckets mem s := by
  simp only [readBuckets, List.map_inj_left, List.mem_range]
  intro i hi1
  simp only [writeCounts]
  rw [if_neg (hd (s.ptr + i) (by omega) (by omega))]

/-- Writing counters leaves the `Actions` of every bucket of every slice as
they are. -/
theorem readBuckets_writeCounts_actions (mem : Nat → Bucket) (s : BucketSlice) (lo hi : Nat)
    (pv bv : Int) :
    (readBuckets (writeCounts mem lo hi pv bv) s).map (fun b => b.Actions)
      = (readBuckets mem s).map (fun b => b.Actions) := by
  simp only [readBuckets, List.map_map, List.map_inj_left, List.mem_range, Function.comp]
  intro i _
  simp only [writeCounts]
  split_ifs <;> rfl

theorem group_eq (h : Heap) (p : Nat) :
    h.group p = (h.groups[p]?).map (fun v => v.value h.buckets) := by
  simp [Heap.group, Heap.toGroups]

/-- The value of the Group variable at `p` after the update in place. -/
theorem group_statsUpdate_self (h : Heap) (p : Nat) (v : GroupVar) (line : Str)
    (hv : h.groups[p]? = some v) (hk : (statsSegments line).length - 1 ≤ v.Buckets.len) :
    (h.statsUpdate p v line).group p = some (statsUpdate line (v.value h.buckets)) := by
  have hp : p < h.groups.length := by
    rcases Nat.lt_or_ge p h.groups.length with h1 | h1
    · exact h1
    · rw [List.getElem?_eq_none h1] at hv
      cases hv
  rw [group_eq]
  simp only [Heap.statsUpdate, List.getElem?_set_self hp, Option.map_some', GroupVar.value,
    statsUpdate, readBuckets_writeCounts_self _ _ _ _ _ hk]

/-- The Group variables at the other positions after the update in place. -/
theorem groups_statsUpdate_other (h : Heap) (p q : Nat) (v : GroupVar) (line : Str)
    (hq : q ≠ p) : (h.statsUpdate p v line).groups[q]? = h.groups[q]? := by
  simp only [Heap.statsUpdate]
  rw [List.getElem?_set_ne (Ne.symm hq)]

end heapView

section heapCases

theorem group_eq_some (h : Heap) (p : Nat) (g : Group) :
    h.group p = some g ↔ ∃ v, h.groups[p]? = some v ∧ v.value h.buckets = g := by
  rw [group_eq]
  cases h.groups[p]? with
  | none => simp
  | some v => simp

theorem group_eq_none (h : Heap) (p : Nat) : h.group p = none ↔ h.groups[p]? = none := by
  rw [group_eq]
  cases h.groups[p]? <;> simp

theorem value_buckets_length (v : GroupVar) (mem : Nat → Bucket) :
    (v.value mem).Buckets.length = v.Buckets.len := by
  simp [GroupVar.value, readBuckets_length]

/-- The stats parser on an id that is no key of the id map. -/
theorem stats_of_no_key (line : Str) (m : GroupIdMap) (h : Heap)
    (hm : m.get (groupStatsLine.capture line "groupid") = none) :
    parseOpenFlowGroupStatsDumpLine line m h = Run.panic .nilDereference := by
  rw [stats_eq, hm]

/-- The stats parser on a pointer that points to no Group variable. -/
theorem stats_of_no_group (line : Str) (m : GroupIdMap) (h : Heap) (p : Nat)
    (hm : m.get (groupStatsLine.capture line "groupid") = some p) (hg : h.group p = none) :
    parseOpenFlowGroupStatsDumpLine line m h = Run.panic .nilDereference := by
  rw [stats_eq, hm]
  simp only [(group_eq_none h p).mp hg]

/-- The stats parser on a Group with too few buckets for the segments. -/
theorem stats_of_short (line : Str) (m : GroupIdMap) (h : Heap) (p : Nat) (g : Group)
    (hm : m.get (groupStatsLine.capture line "groupid") = some p) (hg : h.group p = some g)
    (hk : ¬ (statsSegments line).length - 1 ≤ g.Buckets.length) :
    parseOpenFlowGroupStatsDumpLine line m h = Run.panic .indexOutOfRange := by
  obtain ⟨v, hv, rfl⟩ := (group_eq_some h p g).mp hg
  rw [value_buckets_length] at hk
  rw [stats_eq, hm]
  simp only [hv, hk, if_false]

/-- The stats parser on a Group with a bucket for each segment after the
first: the memory is updated in place, and the Group at `p` has the updated
value. -/
theorem stats_of_fit (line : Str) (m : GroupIdMap) (h : Heap) (p : Nat) (g : Group)
    (hm : m.get (groupStatsLine.capture line "groupid") = some p) (hg : h.group p = some g)
    (hk : (statsSegments line).length - 1 ≤ g.Buckets.length) :
    ∃ v, h.groups[p]? = some v ∧ v.value h.buckets = g ∧
      parseOpenFlowGroupStatsDumpLine line m h = Run.ok (h.statsUpdate p v line) ∧
      (h.statsUpdate p v line).group p = some (statsUpdate line g) := by
  obtain ⟨v, hv, rfl⟩ := (group_eq_some h p _).mp hg
  rw [value_buckets_length] at hk
  refine ⟨v, hv, rfl, ?_, group_statsUpdate_self h p v line hv hk⟩
  rw [stats_eq, hm]
  simp only [hv, hk, if_true]

theorem statsUpdate_actions (line : Str) (g : Group) :
    (statsUpdate line g).Buckets.map (fun b => b.Actions)
      = g.Buckets.map (fun b => b.Actions) := by
  simp only [statsUpdate, List.map_append, List.map_map, List.map_take, List.map_drop]
  have : (fun b : Bucket => b.Actions) ∘ (fun b : Bucket =>
      b.withCounts (segPackets ((statsSegments line).headD []))
        (segBytes ((statsSegments line).headD []))) = fun b => b.Actions := by
    funext b
    rfl
  rw [this, ← List.map_take, ← List.map_drop, ← List.map_append, List.take_append_drop]

end heapCases

set_option maxRecDepth 100000 in
/-- C13 (the code at the failing input): on the stats line of scenario S5,
applied to the Group of the header line of S5, both buckets get the counters
100 and 9000 of segment 0, while segments 1 and 2 carry 60/5400 and 40/3600. -/
theorem stats_S5_buckets :
    (parseOpenFlowGroupStatsDumpLine lineS5stats [("7".toList, 0)]
        (Heap.ofGroups [parseOpenFlowGroupsDumpLine lineS5header])).bind
        (fun h => Run.ok h.toGroups)
      = Run.ok [{ GroupId := "7".toList, GroupType := "select".toList, Duration := 30,
                  Packets := 100, Bytes := 9000,
                  Buckets := [{ Actions := "output:1".toList, Packets := 100, Bytes := 9000 },
                              { Actions := "output:2".toList, Packets := 100, Bytes := 9000 }] }] ∧
    (statsSegments lineS5stats).map (fun seg => (segPackets seg, segBytes seg))
      = [(100, 9000), (60, 5400), (40, 3600)] := by
  refine ⟨?_, ?_⟩ <;> decide

/-- C15: for every stats line, with segments `seg0 :: rest`, applied to a Group
that the id map knows and that has a bucket for each segment of `rest`, the
parser completes, the Group gets the packet and byte counters of `seg0`, and so
does each of the first `len(rest)` buckets, whatever `rest` holds. -/
theorem buckets_get_aggregate (line : Str) (m : GroupIdMap) (h : Heap) (p : Nat)
    (g : Group) (seg0 : Str) (rest : List Str)
    (hm : m.get (groupStatsLine.capture line "groupid") = some p)
    (hs : h.group p = some g) (hseg : statsSegments line = seg0 :: rest)
    (hk : rest.length ≤ g.Buckets.length) :
    ∃ h' g', parseOpenFlowGroupStatsDumpLine line m h = Run.ok h' ∧ h'.group p = some g' ∧
      g'.Packets = segPackets seg0 ∧ g'.Bytes = segBytes seg0 ∧
      ∀ j, j < rest.length →
        ∃ b, g'.Buckets[j]? = some b ∧ b.Packets = segPackets seg0 ∧
          b.Bytes = segBytes seg0 ∧ b.Packets = g'.Packets ∧ b.Bytes = g'.Bytes := by
  obtain ⟨v, -, -, hrun, hview⟩ := stats_of_fit line m h p g hm hs (by simp [hseg, hk])
  refine ⟨h.statsUpdate p v line, statsUpdate line g, hrun, hview, ?_, ?_, ?_⟩
  · simp [statsUpdate, hseg]
  · simp [statsUpdate, hseg]
  · intro j hj
    have hjb : j < g.Buckets.length := by omega
    refine ⟨(g.Buckets[j]).withCounts (segPackets seg0) (segBytes seg0), ?_, rfl, rfl, ?_, ?_⟩
    · simp only [statsUpdate, hseg, List.length_cons, Nat.add_sub_cancel, List.headD_cons]
      rw [List.getElem?_append_left (by simp; omega)]
      simp [List.getElem?_take, hj, List.getElem?_eq_getElem hjb]
    · simp [statsUpdate, hseg, Bucket.withCounts]
    · simp [statsUpdate, hseg, Bucket.withCounts]

set_option maxRecDepth 100000 in
/-- Witness of C15: scenario S5. -/
theorem buckets_get_aggregate_witness :
    ∃ h' g', parseOpenFlowGroupStatsDumpLine lineS5stats [("7".toList, 0)]
        (Heap.ofGroups [parseOpenFlowGroupsDumpLine lineS5header]) = Run.ok h' ∧
      h'.group 0 = some g' ∧
      g'.Packets = segPackets "ref_count=1,packet_count=100,byte_count=9000".toList ∧
      g'.Bytes = segBytes "ref_count=1,packet_count=100,byte_count=9000".toList ∧
      ∀ j, j < ["ref_count=0,packet_count=60,byte_count=5400".toList,
          "ref_count=0,packet_count=40,byte_count=3600".toList].length →
        ∃ b, g'.Buckets[j]? = some b ∧
          b.Packets = segPackets "ref_count=1,packet_count=100,byte_count=9000".toList ∧
          b.Bytes = segBytes "ref_count=1,packet_count=100,byte_count=9000".toList ∧
          b.Packets = g'.Packets ∧ b.Bytes = g'.Bytes :=
  buckets_get_aggregate lineS5stats [("7".toList, 0)]
    (Heap.ofGroups [parseOpenFlowGroupsDumpLine lineS5header])
    0 (parseOpenFlowGroupsDumpLine lineS5header)
    "ref_count=1,packet_count=100,byte_count=9000".toList
    ["ref_count=0,packet_count=60,byte_count=5400".toList,
      "ref_count=0,packet_count=40,byte_count=3600".toList]
    (by decide) (by decide) (by decide) (by decide)

section frame

theorem writeCounts_elsewhere (mem : Nat → Bucket) (lo hi : Nat) (pv bv : Int) (a : Nat)
    (h : ¬ (lo ≤ a ∧ a < hi)) : writeCounts mem lo hi pv bv a = mem a := by
  simp only [writeCounts]
  rw [if_neg h]

/-- The value of a Group variable that shares no bucket with the written ones
is unchanged by the update in place. -/
theorem value_statsUpdate_apart (h : Heap) (p : Nat) (v w : GroupVar) (line : Str)
    (ha : BucketSlice.apart ⟨v.Buckets.ptr, (statsSegments line).length - 1⟩ w.Buckets) :
    w.value (h.statsUpdate p v line).buckets = w.value h.buckets := by
  simp only [GroupVar.value, Heap.statsUpdate]
  rw [readBuckets_writeCounts_disjoint]
  intro a h1 h2
  simp only [BucketSlice.apart] at ha
  omega

/-- The update in place changes no field of a Group variable other than the
counters of its buckets. -/
theorem value_statsUpdate_frame (h : Heap) (p : Nat) (v w : GroupVar) (line : Str) :
    Group.frame (w.value (h.statsUpdate p v line).buckets) = Group.frame (w.value h.buckets) := by
  simp only [GroupVar.value, Heap.statsUpdate, Group.frame, readBuckets_writeCounts_actions]

end frame

set_option maxRecDepth 100000 in
/-- C16 (counterexample): in a memory where the Groups `7` and `8` share their
bucket array, the stats line of scenario S5, which is for the Group `7`,
completes and changes the Group `8` as well: its buckets get the counters 100
and 9000. -/
theorem stats_frame_counterexample :
    sharedHeap.toGroups
      = [{ GroupId := "7".toList, GroupType := "select".toList, Duration := 0, Packets := 0,
           Bytes := 0,
           Buckets := [{ Actions := "output:1".toList, Packets := 0, Bytes := 0 },
                       { Actions := "output:2".toList, Packets := 0, Bytes := 0 }] },
         { GroupId := "8".toList, GroupType := "select".toList, Duration := 0, Packets := 0,
           Bytes := 0,
           Buckets := [{ Actions := "output:1".toList, Packets := 0, Bytes := 0 },
                       { Actions := "output:2".toList, Packets := 0, Bytes := 0 }] }] ∧
    GroupIdMap.get [("7".toList, 0), ("8".toList, 1)]
      (groupStatsLine.capture lineS5stats "groupid") = some 0 ∧
    (parseOpenFlowGroupStatsDumpLine lineS5stats [("7".toList, 0), ("8".toList, 1)]
        sharedHeap).bind (fun h => Run.ok h.toGroups)
      = Run.ok
        [{ GroupId := "7".toList, GroupType := "select".toList, Duration := 30, Packets := 100,
           Bytes := 9000,
           Buckets := [{ Actions := "output:1".toList, Packets := 100, Bytes := 9000 },
                       { Actions := "output:2".toList, Packets := 100, Bytes := 9000 }] },
         { GroupId := "8".toList, GroupType := "select".toList, Duration := 0, Packets := 0,
           Bytes := 0,
           Buckets := [{ Actions := "output:1".toList, Packets := 100, Bytes := 9000 },
                       { Actions := "output:2".toList, Packets := 100, Bytes := 9000 }] }] := by
  refine ⟨?_, ?_, ?_⟩ <;> decide

/-- C16 (amended): whenever the stats parser completes, it has changed the
Group variable of one pointer `p`, the one of the id of the line.  Of that
Group the id, the type, the number of buckets and the `Actions` of every bucket
are unchanged, and the buckets from index `k - 1` on are unchanged, `k` being
the number of segments.  Every other Group in memory whose slice shares no
bucket with the first `k - 1` buckets of the Group at `p` is unchanged; and in
any case every other Group keeps all its fields, its number of buckets and the
`Actions` of its buckets: only the counters of shared buckets change. -/
theorem stats_frame (line : Str) (m : GroupIdMap) (h h' : Heap)
    (hrun : parseOpenFlowGroupStatsDumpLine line m h = Run.ok h') :
    ∃ p g g', m.get (groupStatsLine.capture line "groupid") = some p ∧
      h.group p = some g ∧ h'.group p = some g' ∧ h'.groups.length = h.groups.length ∧
      g'.GroupId = g.GroupId ∧ g'.GroupType = g.GroupType ∧
      g'.Buckets.length = g.Buckets.length ∧
      g'.Buckets.map (fun b => b.Actions) = g.Buckets.map (fun b => b.Actions) ∧
      (∀ j, (statsSegments line).length - 1 ≤ j → g'.Buckets[j]? = g.Buckets[j]?) ∧
      (∀ q v w, q ≠ p → h.groups[p]? = some v → h.groups[q]? = some w →
        BucketSlice.apart ⟨v.Buckets.ptr, (statsSegments line).length - 1⟩ w.Buckets →
        h'.group q = h.group q) ∧
      (∀ q, q ≠ p → (h'.group q).map Group.frame = (h.group q).map Group.frame) := by
  cases hm : m.get (groupStatsLine.capture line "groupid") with
  | none =>
    rw [stats_of_no_key line m h hm] at hrun
    cases hrun
  | some p =>
    cases hg : h.group p with
    | none =>
      rw [stats_of_no_group line m h p hm hg] at hrun
      cases hrun
    | some g =>
      by_cases hk : (statsSegments line).length - 1 ≤ g.Buckets.length
      · obtain ⟨v, hv, hval, hrun2, hview⟩ := stats_of_fit line m h p g hm hg hk
        rw [hrun2] at hrun
        cases hrun
        refine ⟨p, g, statsUpdate line g, rfl, hg, hview, ?_, rfl, rfl, ?_,
          statsUpdate_actions line g, ?_, ?_, ?_⟩
        · simp [Heap.statsUpdate]
        · simp [statsUpdate, hk]
        · intro j hj
          simp only [statsUpdate]
          rw [List.getElem?_append_right (by simp; omega)]
          simp only [List.length_map, List.length_take, Nat.min_eq_left hk, List.getElem?_drop]
          congr 1
          omega
        · intro q v2 w hq hv2 hw ha
          rw [hv] at hv2
          cases hv2
          rw [group_eq, group_eq, groups_statsUpdate_other h p q v line hq, hw]
          simp only [Option.map_some', Option.some.injEq]
          exact value_statsUpdate_apart h p v w line ha
        · intro q hq
          rw [group_eq, group_eq, groups_statsUpdate_other h p q v line hq]
          cases h.groups[q]? with
          | none => rfl
          | some w =>
            simp only [Option.map_some', Option.some.injEq]
            exact value_statsUpdate_frame h p v w line
      · rw [stats_of_short line m h p g hm hg hk] at hrun
        cases hrun

set_option maxRecDepth 100000 in
/-- Witness of C16 (amended): scenario S5, with a second Group in memory that
has a bucket array of its own. -/
theorem stats_frame_witness :
    ∃ p g g', GroupIdMap.get [("7".toList, 0)] (groupStatsLine.capture lineS5stats "groupid")
        = some p ∧
      (Heap.ofGroups [parseOpenFlowGroupsDumpLine lineS5header,
        parseOpenFlowGroupsDumpLine lineOneBucket]).group p = some g ∧
      ((Heap.ofGroups [parseOpenFlowGroupsDumpLine lineS5header,
        parseOpenFlowGroupsDumpLine lineOneBucket]).statsUpdate 0
          { GroupId := "7".toList, GroupType := "select".toList, Duration := 0, Packets := 0,
            Bytes := 0, Buckets := ⟨0, 2⟩ } lineS5stats).group p = some g' ∧
      ((Heap.ofGroups [parseOpenFlowGroupsDumpLine lineS5header,
        parseOpenFlowGroupsDumpLine lineOneBucket]).statsUpdate 0
          { GroupId := "7".toList, GroupType := "select".toList, Duration := 0, Packets := 0,
            Bytes := 0, Buckets := ⟨0, 2⟩ } lineS5stats).groups.length
        = (Heap.ofGroups [parseOpenFlowGroupsDumpLine lineS5header,
            parseOpenFlowGroupsDumpLine lineOneBucket]).groups.length ∧
      g'.GroupId = g.GroupId ∧ g'.GroupType = g.GroupType ∧
      g'.Buckets.length = g.Buckets.length ∧
      g'.Buckets.map (fun b => b.Actions) = g.Buckets.map (fun b => b.Actions) ∧
      (∀ j, (statsSegments lineS5stats).length - 1 ≤ j → g'.Buckets[j]? = g.Buckets[j]?) ∧
      (∀ q v w, q ≠ p →
        (Heap.ofGroups [parseOpenFlowGroupsDumpLine lineS5header,
          parseOpenFlowGroupsDumpLine lineOneBucket]).groups[p]? = some v →
        (Heap.ofGroups [parseOpenFlowGroupsDumpLine lineS5header,
          parseOpenFlowGroupsDumpLine lineOneBucket]).groups[q]? = some w →
        BucketSlice.apart ⟨v.Buckets.ptr, (statsSegments lineS5stats).length - 1⟩ w.Buckets →
        ((Heap.ofGroups [parseOpenFlowGroupsDumpLine lineS5header,
          parseOpenFlowGroupsDumpLine lineOneBucket]).statsUpdate 0
            { GroupId := "7".toList, GroupType := "select".toList, Duration := 0, Packets := 0,
              Bytes := 0, Buckets := ⟨0, 2⟩ } lineS5stats).group q
          = (Heap.ofGroups [parseOpenFlowGroupsDumpLine lineS5header,
              parseOpenFlowGroupsDumpLine lineOneBucket]).group q) ∧
      (∀ q, q ≠ p →
        (((Heap.ofGroups [parseOpenFlowGroupsDumpLine lineS5header,
          parseOpenFlowGroupsDumpLine lineOneBucket]).statsUpdate 0
            { GroupId := "7".toList, GroupType := "select".toList, Duration := 0, Packets := 0,
              Bytes := 0, Buckets := ⟨0, 2⟩ } lineS5stats).group q).map Group.frame
          = ((Heap.ofGroups [parseOpenFlowGroupsDumpLine lineS5header,
              parseOpenFlowGroupsDumpLine lineOneBucket]).group q).map Group.frame) :=
  stats_frame lineS5stats [("7".toList, 0)]
    (Heap.ofGroups [parseOpenFlowGroupsDumpLine lineS5header,
      parseOpenFlowGroupsDumpLine lineOneBucket])
    ((Heap.ofGroups [parseOpenFlowGroupsDumpLine lineS5header,
      parseOpenFlowGroupsDumpLine lineOneBucket]).statsUpdate 0
        { GroupId := "7".toList, GroupType := "select".toList, Duration := 0, Packets := 0,
          Bytes := 0, Buckets := ⟨0, 2⟩ } lineS5stats)
    (by
      have e1 : GroupIdMap.get [("7".toList, 0)] (groupStatsLine.capture lineS5stats "groupid")
          = some 0 := by decide
      have e2 : (Heap.ofGroups [parseOpenFlowGroupsDumpLine lineS5header,
          parseOpenFlowGroupsDumpLine lineOneBucket]).groups[0]?
          = some { GroupId := "7".toList, GroupType := "select".toList, Duration := 0,
                   Packets := 0, Bytes := 0, Buckets := ⟨0, 2⟩ } := by decide
      have e3 : (statsSegments lineS5stats).length - 1 ≤ 2 := by decide
      rw [stats_eq, e1]
      simp only [e2, e3, if_true])

/-- C18: the stats parser completes exactly when the group id of the line (the
empty text when the stats pattern does not match) is a key of the id map for a
Group in memory and the number of segments of the counts, minus one, is at
most the number of buckets of that Group; otherwise it faults, with a nil
dereference in the first case and an index out of range in the second; the
segment list is never empty, so segment 0 can always be read. -/
theorem stats_completes_iff (line : Str) (m : GroupIdMap) (h : Heap) :
    ((∃ h', parseOpenFlowGroupStatsDumpLine line m h = Run.ok h') ↔
      ∃ p g, m.get (groupStatsLine.capture line "groupid") = some p ∧ h.group p = some g ∧
        (statsSegments line).length - 1 ≤ g.Buckets.length) ∧
    ((¬ ∃ p g, m.get (groupStatsLine.capture line "groupid") = some p ∧ h.group p = some g) →
      parseOpenFlowGroupStatsDumpLine line m h = Run.panic .nilDereference) ∧
    (∀ p g, m.get (groupStatsLine.capture line "groupid") = some p → h.group p = some g →
      ¬ (statsSegments line).length - 1 ≤ g.Buckets.length →
      parseOpenFlowGroupStatsDumpLine line m h = Run.panic .indexOutOfRange) ∧
    (groupStatsLine.FindStringSubmatch line = [] →
      groupStatsLine.capture line "groupid" = []) ∧
    statsSegments line ≠ [] ∧
    (∃ seg0, index (statsSegments line) 0 = Run.ok seg0) := by
  have hno : (¬ ∃ p g, m.get (groupStatsLine.capture line "groupid") = some p ∧
      h.group p = some g) →
      parseOpenFlowGroupStatsDumpLine line m h = Run.panic .nilDereference := by
    intro hno
    cases hm : m.get (groupStatsLine.capture line "groupid") with
    | none => exact stats_of_no_key line m h hm
    | some p =>
      cases hg : h.group p with
      | none => exact stats_of_no_group line m h p hm hg
      | some g => exact absurd ⟨p, g, hm, hg⟩ hno
  refine ⟨?_, hno, fun p g hm hg hk => stats_of_short line m h p g hm hg hk,
    capture_of_no_match _ _ _, statsSegments_ne_nil line, ?_⟩
  · constructor
    · rintro ⟨h', hrun⟩
      by_cases hex : ∃ p g, m.get (groupStatsLine.capture line "groupid") = some p ∧
          h.group p = some g
      · obtain ⟨p, g, hm, hg⟩ := hex
        by_cases hk : (statsSegments line).length - 1 ≤ g.Buckets.length
        · exact ⟨p, g, hm, hg, hk⟩
        · rw [stats_of_short line m h p g hm hg hk] at hrun
          cases hrun
      · rw [hno hex] at hrun
        cases hrun
    · rintro ⟨p, g, hm, hg, hk⟩
      obtain ⟨v, -, -, hrun, -⟩ := stats_of_fit line m h p g hm hg hk
      exact ⟨_, hrun⟩
  · rcases hsp : statsSegments line with _ | ⟨seg0, rest⟩
    · exact absurd hsp (statsSegments_ne_nil line)
    · exact ⟨seg0, by simp [index]⟩

section alloc

theorem groupVars_value (mem : Nat → Bucket) : ∀ (gs : List Group) (a : Nat),
    (∀ k b, (gs.flatMap (fun g => g.Buckets))[k]? = some b → mem (a + k) = b) →
    (groupVars a gs).map (fun v => v.value mem) = gs
  | [], _, _ => rfl
  | g :: gs, a, hmem => by
    have hflat : (g :: gs).flatMap (fun g => g.Buckets)
        = g.Buckets ++ gs.flatMap (fun g => g.Buckets) := by simp
    rw [hflat] at hmem
    have ih := groupVars_value mem gs (a + g.Buckets.length) (by
      intro k b hk
      rw [Nat.add_assoc]
      apply hmem
      rw [List.getElem?_append_right (by omega)]
      simpa using hk)
    simp only [groupVars, List.map_cons, ih, List.cons.injEq, and_true]
    have hb : readBuckets mem ⟨a, g.Buckets.length⟩ = g.Buckets := by
      apply List.ext_getElem?
      intro j
      rw [readBuckets_get]
      by_cases hj : j < g.Buckets.length
      · simp only [hj, if_true]
        rw [List.getElem?_eq_getElem hj]
        congr 1
        apply hmem
        rw [List.getElem?_append_left hj, List.getElem?_eq_getElem hj]
      · simp only [hj, if_false]
        rw [List.getElem?_eq_none (by omega)]
    simp only [GroupVar.value, hb]

/-- The Groups stored one by one are the values of their variables. -/
theorem ofGroups_toGroups (gs : List Group) : (Heap.ofGroups gs).toGroups = gs := by
  simp only [Heap.toGroups, Heap.ofGroups]
  apply groupVars_value
  intro k b hk
  simp [List.getD_eq_getElem?_getD, hk]

theorem groupVars_length (gs : List Group) : ∀ a, (groupVars a gs).length = gs.length := by
  induction gs with
  | nil => intro a; rfl
  | cons g gs ih => intro a; simp [groupVars, ih]

theorem groupVars_ptr_ge : ∀ (gs : List Group) (a q : Nat) (w : GroupVar),
    (groupVars a gs)[q]? = some w → a ≤ w.Buckets.ptr
  | [], _, _, _, h => by simp [groupVars] at h
  | g :: gs, a, 0, w, h => by
    simp only [groupVars, List.getElem?_cons_zero, Option.some.injEq] at h
    subst h
    exact Nat.le_refl _
  | g :: gs, a, q + 1, w, h => by
    simp only [groupVars, List.getElem?_cons_succ] at h
    have := groupVars_ptr_ge gs _ q w h
    omega

theorem groupVars_ordered : ∀ (gs : List Group) (a p q : Nat) (v w : GroupVar), p < q →
    (groupVars a gs)[p]? = some v → (groupVars a gs)[q]? = some w →
    v.Buckets.ptr + v.Buckets.len ≤ w.Buckets.ptr
  | [], _, _, _, _, _, _, h, _ => by simp [groupVars] at h
  | g :: gs, a, 0, q + 1, v, w, _, hv, hw => by
    simp only [groupVars, List.getElem?_cons_zero, Option.some.injEq] at hv
    simp only [groupVars, List.getElem?_cons_succ] at hw
    subst hv
    exact groupVars_ptr_ge gs _ q w hw
  | g :: gs, a, p + 1, q + 1, v, w, hpq, hv, hw => by
    simp only [groupVars, List.getElem?_cons_succ] at hv hw
    exact groupVars_ordered gs _ p q v w (by omega) hv hw

/-- The Groups stored one by one share no bucket. -/
theorem ofGroups_apart (gs : List Group) (p q : Nat) (v w : GroupVar) (hpq : p ≠ q)
    (hv : (Heap.ofGroups gs).groups[p]? = some v) (hw : (Heap.ofGroups gs).groups[q]? = some w)
    (k : Nat) (hk : k ≤ v.Buckets.len) :
    BucketSlice.apart ⟨v.Buckets.ptr, k⟩ w.Buckets := by
  simp only [Heap.ofGroups] at hv hw
  simp only [BucketSlice.apart]
  rcases Nat.lt_or_gt_of_ne hpq with h | h
  · have := groupVars_ordered gs 0 p q v w h hv hw
    right; right; left
    omega
  · have := groupVars_ordered gs 0 q p w v h hw hv
    right; right; right
    omega

/-- On Groups stored one by one, a run of the stats parser that completes
changes the value of the Group the id of the line points to, and no other. -/
theorem stats_ofGroups (line : Str) (m : GroupIdMap) (gs : List Group) (h' : Heap)
    (hrun : parseOpenFlowGroupStatsDumpLine line m (Heap.ofGroups gs) = Run.ok h') :
    ∃ p g, m.get (groupStatsLine.capture line "groupid") = some p ∧ gs[p]? = some g ∧
      h'.toGroups = gs.set p (statsUpdate line g) := by
  cases hm : m.get (groupStatsLine.capture line "groupid") with
  | none =>
    rw [stats_of_no_key line m _ hm] at hrun
    cases hrun
  | some p =>
    cases hg : (Heap.ofGroups gs).group p with
    | none =>
      rw [stats_of_no_group line m _ p hm hg] at hrun
      cases hrun
    | some g =>
      by_cases hk : (statsSegments line).length - 1 ≤ g.Buckets.length
      · obtain ⟨v, hv, hval, hrun2, hview⟩ := stats_of_fit line m _ p g hm hg hk
        rw [hrun2] at hrun
        cases hrun
        have hgs : gs[p]? = some g := by
          rw [Heap.group, ofGroups_toGroups] at hg
          exact hg
        have hkv : (statsSegments line).length - 1 ≤ v.Buckets.len := by
          rw [← hval, value_buckets_length] at hk
          exact hk
        refine ⟨p, g, rfl, hgs, ?_⟩
        apply List.ext_getElem?
        intro q
        by_cases hq : q = p
        · subst hq
          have hlt : q < gs.length := by
            rcases Nat.lt_or_ge q gs.length with h1 | h1
            · exact h1
            · rw [List.getElem?_eq_none h1] at hgs
              cases hgs
          rw [List.getElem?_set_self hlt]
          exact hview
        · rw [List.getElem?_set_ne (Ne.symm hq)]
          have e1 : ((Heap.ofGroups gs).statsUpdate p v line).toGroups[q]?
              = ((Heap.ofGroups gs).statsUpdate p v line).group q := rfl
          have e2 : gs[q]? = (Heap.ofGroups gs).group q := by
            rw [Heap.group, ofGroups_toGroups]
          rw [e1, e2, group_eq, group_eq, groups_statsUpdate_other _ p q v line hq]
          cases hw : (Heap.ofGroups gs).groups[q]? with
          | none => rfl
          | some w =>
            simp only [Option.map_some', Option.some.injEq]
            exact value_statsUpdate_apart _ p v w line
              (ofGroups_apart gs p q v w (Ne.symm hq) hv hw _ hkv)
      · rw [stats_of_short line m _ p g hm hg hk] at hrun
        cases hrun

end alloc

section patterns

theorem RE.run_lit_none (w : Str) (k : Str → Caps → Option Caps) (s : Str) (caps : Caps)
    (h : stripPrefix w s = none) : (RE.lit w).run k s caps = none := by
  rw [RE.run, h]

/-- A lazy repetition runs over a prefix of characters of the class when the
rest of the match fails at every earlier position and goes through after it. -/
theorem starLazy_append (c : CClass) (k : Str → Option Caps) (t : Str) (X : Caps)
    (ht : k t = some X) :
    ∀ (w : Str), (∀ x ∈ w, c.test x = true) →
      (∀ u v, w = u ++ v → v ≠ [] → k (v ++ t) = none) → starLazy c k (w ++ t) = some X
  | [], _, _ => by
    cases t with
    | nil => exact ht
    | cons x s => simp [starLazy, ht]
  | y :: w, hw, hf => by
    have h1 : c.test y = true := hw y (List.mem_cons_self _ _)
    have h0 : k ((y :: w) ++ t) = none := hf [] (y :: w) rfl (by simp)
    have h2 := starLazy_append c k t X ht w (fun x hx => hw x (List.mem_cons_of_mem _ hx))
      (fun u v e hv => hf (y :: u) v (by simp [e]) hv)
    simp only [List.cons_append] at h0 ⊢
    simp [starLazy, h0, h1, h2]

/-- A capturing lazy repetition takes the shortest run of characters after
which the rest of the match goes through. -/
theorem RE.run_group_lazy (i : Nat) (c : CClass) (k : Str → Caps → Option Caps) (w t : Str)
    (caps X : Caps) (hw : ∀ x ∈ w, c.test x = true)
    (hf : ∀ u v, w = u ++ v → v ≠ [] → ∀ caps1, k (v ++ t) caps1 = none)
    (hk : k t (caps.set i w) = some X) :
    (RE.group i (.star false c)).run k (w ++ t) caps = some X := by
  rw [RE.run_group, RE.run]
  apply starLazy_append _ _ _ _ _ w hw
  · intro u v e hv
    exact hf u v e hv _
  · rw [consumed_append]
    exact hk

/-- A greedy repetition outside a group takes the whole run of characters of
its class when the rest of the match goes through from there. -/
theorem RE.run_star_greedy (c : CClass) (k : Str → Caps → Option Caps) (w s : Str)
    (caps X : Caps) (hw : ∀ x ∈ w, c.test x = true) (hs : stopsAt c s)
    (hk : k s caps = some X) : (RE.star true c).run k (w ++ s) caps = some X := by
  rw [RE.run]
  apply starGreedy_append _ _ _ _ _ w hw
  rw [starGreedy_stop _ _ _ hs]
  exact hk

theorem RE.run_eot_nil (k : Str → Caps → Option Caps) (caps : Caps) :
    RE.eot.run k [] caps = k [] caps := by
  rw [RE.run]

/-- The group `(c*$)` takes the rest of the input when the input holds only
characters of the class. -/
theorem RE.run_group_rest (i : Nat) (c : CClass) (k : Str → Caps → Option Caps) (w : Str)
    (caps X : Caps) (hw : ∀ x ∈ w, c.test x = true) (hk : k [] (caps.set i w) = some X) :
    (RE.group i (.seq (.star true c) .eot)).run k w caps = some X := by
  rw [RE.run_group, RE.run_seq, RE.run]
  have h := starGreedy_append c
    (fun t => RE.eot.run (fun t caps1 => k t (caps1.set i (consumed w t))) t caps) [] X
    (by
      simp only [starGreedy]
      rw [RE.run_eot_nil, consumed_nil]
      exact hk) w hw
  simpa using h

/-- The group `([0-9]+)` takes a whole non-empty run of digits when the rest of
the match goes through from there. -/
theorem RE.run_group_digits (i : Nat) (k : Str → Caps → Option Caps) (w s : Str)
    (caps X : Caps) (hw : allDigits w = true) (hs : stopsAt .digit s)
    (hk : k s (caps.set i w) = some X) :
    (RE.group i RE.digits).run k (w ++ s) caps = some X := by
  simp only [allDigits, Bool.and_eq_true, Bool.not_eq_true', List.isEmpty_eq_false,
    List.all_eq_true, decide_eq_true_eq] at hw
  obtain ⟨hne, hall⟩ := hw
  cases w with
  | nil => exact absurd rfl hne
  | cons y w =>
    have hy : CClass.digit.test y = true := by
      have := hall y (List.mem_cons_self _ _)
      simp [CClass.test, this]
    have hw' : ∀ x ∈ w, CClass.digit.test x = true := by
      intro x hx
      have := hall x (List.mem_cons_of_mem _ hx)
      simp [CClass.test, this]
    rw [RE.run_group, RE.digits, RE.run_seq]
    simp only [List.cons_append]
    rw [RE.run, if_pos hy, RE.run]
    apply starGreedy_append _ _ _ _ _ w hw'
    rw [starGreedy_stop _ _ _ hs]
    have e : consumed (y :: (w ++ s)) s = y :: w := by
      rw [← List.cons_append, consumed_append]
    simp only [e]
    exact hk

end patterns

section groupsHeader

theorem consHead_length (c : Char) (l : List Str) (h : l ≠ []) :
    (consHead c l).length = l.length := by
  cases l with
  | nil => exact absurd rfl h
  | cons a l => simp [consHead]

theorem splitAux_length (sep : Str) :
    ∀ (s : Str) (skip : Nat), (splitAux sep skip s).length = countAux sep skip s + 1
  | [], skip => by simp [splitAux, countAux]
  | c :: s, skip + 1 => by
    rw [splitAux, countAux]
    exact splitAux_length sep s skip
  | c :: s, 0 => by
    rw [splitAux, countAux]
    split
    · simp [splitAux_length sep s (sep.length - 1)]
      omega
    · rw [consHead_length _ _ (splitAux_ne_nil sep s 0)]
      exact splitAux_length sep s 0

/-- Splitting on a non-empty separator gives one text more than there are
occurrences of the separator. -/
theorem Split_length (s sep : Str) (h : sep ≠ []) : (Split s sep).length = Count s sep + 1 := by
  simp only [Split, Count, h, if_false]
  exact splitAux_length sep s 0

/-- The header parser in terms of the groups of the match. -/
theorem groups_eq (line : Str) :
    parseOpenFlowGroupsDumpLine line
      = { GroupId := groupsLine.capture line "groupid"
          GroupType := groupsLine.capture line "type"
          Duration := 0
          Packets := 0
          Bytes := 0
          Buckets :=
            if groupsLine.capture line "buckets" = [] then []
            else (Split (groupsLine.capture line "buckets") "bucket=".toList).map bucketEntryOf } := by
  unfold parseOpenFlowGroupsDumpLine
  simp only [groups_result_get line "groupid" (by simp),
    groups_result_get line "type" (by simp), groups_result_get line "buckets" (by simp)]
  by_cases h : groupsLine.capture line "buckets" = []
  · simp [h]
  · have : (groupsLine.capture line "buckets").length > 0 := List.length_pos.mpr h
    simp [h, this]

end groupsHeader

set_option maxRecDepth 100000 in
/-- C14 (counterexample): the header line of scenario S5 matches the header
pattern with a non-empty bucket tail and holds two `bucket=` sections; the
returned Group has two Bucket entries, not three. -/
theorem phantom_bucket_counterexample :
    groupsLine.FindStringSubmatch lineS5header ≠ [] ∧
    groupsLine.capture lineS5header "buckets" ≠ [] ∧
    Count lineS5header "bucket=".toList = 2 ∧
    (parseOpenFlowGroupsDumpLine lineS5header).Buckets.length = 2 ∧
    (parseOpenFlowGroupsDumpLine lineS5header).Buckets.length
      ≠ Count lineS5header "bucket=".toList + 1 := by
  refine ⟨?_, ?_, ?_, ?_, ?_⟩ <;> decide

/-- C14 (amended): for every group header line on which the header pattern
captures a non-empty bucket tail, the number of Bucket entries of the returned
Group is one more than the number of occurrences of `bucket=` in that tail,
which is the number of `bucket=` sections of the line from the one the pattern
matches on: the pattern consumes the first `bucket=`, so there is no extra
entry. -/
theorem bucket_count_eq_sections (line : Str) (h : groupsLine.capture line "buckets" ≠ []) :
    (parseOpenFlowGroupsDumpLine line).Buckets.length
      = Count (groupsLine.capture line "buckets") "bucket=".toList + 1 := by
  rw [groups_eq]
  simp only [h, if_false, List.length_map]
  exact Split_length _ _ (by simp)

set_option maxRecDepth 100000 in
/-- Witness of C14 (amended): the header line of scenario S5, whose tail holds
one further `bucket=`. -/
theorem bucket_count_eq_sections_witness :
    groupsLine.capture lineS5header "buckets"
      = "actions=output:1bucket=actions=output:2".toList ∧
    Count (groupsLine.capture lineS5header "buckets") "bucket=".toList = 1 ∧
    (parseOpenFlowGroupsDumpLine lineS5header).Buckets.length
      = Count (groupsLine.capture lineS5header "buckets") "bucket=".toList + 1 :=
  ⟨by decide, by decide, bucket_count_eq_sections lineS5header (by decide)⟩

section headerMatch

theorem stripPrefix_cons_ne (a : Char) (w : Str) (x : Char) (s : Str) (h : a ≠ x) :
    stripPrefix (a :: w) (x :: s) = none := by
  simp [stripPrefix, h]

/-- The match of `groupsLine` on a header line `group_id=I, type=T,bucket=tail`:
the groups are `I`, `T` and the tail. -/
theorem groups_match (I T tail : Str) (hI1 : ',' ∉ I) (hI2 : '\n' ∉ I) (hT : ',' ∉ T)
    (htail : '\n' ∉ tail) :
    groupsLine.FindStringSubmatch (headerText I T tail) = [headerText I T tail, I, T, tail] := by
  have hform : headerText I T tail = "group_id=".toList ++ (I ++ (",".toList ++
      (" ".toList ++ ("type=".toList ++ (T ++ (",bucket=".toList ++ tail)))))) := by
    simp [headerText]
  have hsome : groupsLine.matchHere (headerText I T tail)
      = some [headerText I T tail, I, T, tail] := by
    simp only [Regexp.matchHere, groupsLine, groupsLineRE, RE.cat, RE.str, RE.manyNot]
    rw [hform]
    rw [RE.run_seq, RE.run_lit_append, RE.run_seq]
    refine RE.run_group_lazy _ _ _ _ _ _ _ (test_dot_of_not_mem _ hI2) ?_ ?_
    · intro u v e hv caps1
      cases v with
      | nil => exact absurd rfl hv
      | cons x v =>
        have hx : x ∈ I := by rw [e]; simp
        have hne : ',' ≠ x := fun h => hI1 (h ▸ hx)
        rw [RE.run_seq]
        exact RE.run_lit_none _ _ _ _ (stripPrefix_cons_ne _ _ _ _ hne)
    beta_reduce
    rw [RE.run_seq, RE.run_lit_append, RE.run_seq]
    refine RE.run_star_greedy _ _ _ _ _ _ (by simp [CClass.test]) (by simp [stopsAt, CClass.test]) ?_
    beta_reduce
    rw [RE.run_seq, RE.run_lit_append, RE.run_seq]
    refine RE.run_group_star _ _ _ _ _ _ _ (test_notChar_of_not_mem _ _ hT)
      (by simp [stopsAt, CClass.test]) ?_
    beta_reduce
    rw [RE.run_seq, RE.run_lit_append]
    refine RE.run_group_rest _ _ _ _ _ _ (test_dot_of_not_mem _ htail) ?_
    rw [consumed_nil]
    simp [groupsLineNames]
  unfold Regexp.FindStringSubmatch
  rw [Regexp.search_of_matchHere _ _ _ hsome]

theorem RE.run_eot_cons (k : Str → Caps → Option Caps) (x : Char) (s : Str) (caps : Caps) :
    RE.eot.run k (x :: s) caps = none := by
  rw [RE.run]

theorem RE.run_opt_of_none (a : RE) (k : Str → Caps → Option Caps) (s : Str) (caps : Caps)
    (h : a.run k s caps = none) : (RE.opt a).run k s caps = k s caps := by
  rw [RE.run, h]

/-- The match of `bucketAction` on a bucket text `actions=A` or `actions=A,`:
the group is `A`. -/
theorem bucket_match (A : Str) (c : Bool) (hA : '\n' ∉ A)
    (hend : c = false → A.getLast? ≠ some ',') :
    bucketAction.FindStringSubmatch ("actions=".toList ++ A ++ commaText c)
      = ["actions=".toList ++ A ++ commaText c, A] := by
  have hform : "actions=".toList ++ A ++ commaText c
      = "actions=".toList ++ (A ++ commaText c) := by simp
  have hsome : bucketAction.matchHere ("actions=".toList ++ A ++ commaText c)
      = some ["actions=".toList ++ A ++ commaText c, A] := by
    simp only [Regexp.matchHere, bucketAction, bucketActionRE, RE.cat, RE.str]
    rw [hform]
    rw [RE.run_seq, RE.run_lit_append, RE.run_seq]
    refine RE.run_group_lazy _ _ _ _ _ _ _ (test_dot_of_not_mem _ hA) ?_ ?_
    · intro u v e hv caps1
      cases v with
      | nil => exact absurd rfl hv
      | cons x v =>
        rw [RE.run_seq]
        simp only [List.cons_append]
        have hk2 : RE.eot.run (fun t caps2 => some (caps2.set 0
            (consumed ("actions=".toList ++ (A ++ commaText c)) t))) (x :: (v ++ commaText c))
            caps1 = none := RE.run_eot_cons _ _ _ _
        by_cases hx : x = ','
        · subst hx
          have hrest : v ++ commaText c ≠ [] := by
            intro h0
            have hv0 : v = [] := (List.append_eq_nil.mp h0).1
            have hc0 : commaText c = [] := (List.append_eq_nil.mp h0).2
            have hcf : c = false := by
              cases c
              · rfl
              · simp [commaText] at hc0
            apply hend hcf
            rw [e, hv0]
            simp
          rcases hr : v ++ commaText c with _ | ⟨y, r⟩
          · exact absurd hr hrest
          · rw [RE.run_opt_of_none]
            · rw [← hr]; exact hk2
            · have e1 : (',' :: (y :: r)) = ",".toList ++ (y :: r) := by simp
              rw [e1, RE.run_lit_append]
              exact RE.run_eot_cons _ _ _ _
        · rw [RE.run_opt_of_none]
          · exact hk2
          · exact RE.run_lit_none _ _ _ _ (by simp [stripPrefix, Ne.symm hx])
    beta_reduce
    rw [RE.run_seq]
    cases c with
    | false =>
      simp only [commaText, Bool.false_eq_true, if_false, List.append_nil]
      rw [RE.run_opt_of_none _ _ _ _ (RE.run_lit_none _ _ _ _ (by simp [stripPrefix]))]
      rw [RE.run_eot_nil, consumed_nil]
      simp
    | true =>
      simp only [commaText, if_true]
      refine RE.run_opt_of_some _ _ _ _ _ ?_
      have e1 : [','] = ",".toList ++ ([] : Str) := by simp
      rw [e1, RE.run_lit_append, RE.run_eot_nil, consumed_nil]
      simp
  unfold Regexp.FindStringSubmatch
  rw [Regexp.search_of_matchHere _ _ _ hsome]

/-- The entry of a bucket text `actions=A` or `actions=A,`. -/
theorem bucketEntryOf_actions (A : Str) (c : Bool) (hA : '\n' ∉ A)
    (hend : c = false → A.getLast? ≠ some ',') :
    bucketEntryOf ("actions=".toList ++ A ++ commaText c)
      = { Actions := A, Packets := 0, Bytes := 0 } := by
  unfold bucketEntryOf
  rw [bucket_match A c hA hend]
  simp [Bucket.zero]

end headerMatch
section splitting

theorem splitAux_pass (sep v seg : Str) (rest : List Str) (hv : splitAux sep 0 v = seg :: rest) :
    ∀ x : Str, (∀ u w, x = u ++ w → w ≠ [] → sep.isPrefixOf (w ++ v) = false) →
      splitAux sep 0 (x ++ v) = (x ++ seg) :: rest
  | [], _ => by simpa using hv
  | c :: x, hno => by
    have h0 : sep.isPrefixOf (c :: (x ++ v)) = false := hno [] (c :: x) rfl (by simp)
    have ih := splitAux_pass sep v seg rest hv x
      (fun u w e hw => hno (c :: u) w (by simp [e]) hw)
    simp only [List.cons_append]
    rw [splitAux, h0]
    simp [ih, consHead]

theorem splitAux_skip (sep v : Str) :
    ∀ w : Str, splitAux sep w.length (w ++ v) = splitAux sep 0 v
  | [] => rfl
  | c :: w => by
    simp only [List.length_cons, List.cons_append]
    rw [splitAux]
    exact splitAux_skip sep v w

theorem splitAux_sep (sep v : Str) (h : sep ≠ []) :
    splitAux sep 0 (sep ++ v) = [] :: splitAux sep 0 v := by
  cases sep with
  | nil => exact absurd rfl h
  | cons a sep =>
    have hp : (a :: sep).isPrefixOf (a :: (sep ++ v)) = true := by
      rw [← List.cons_append, List.isPrefixOf_iff_prefix]
      exact List.prefix_append _ _
    simp only [List.cons_append]
    rw [splitAux, hp]
    simp only [if_true, List.length_cons, Nat.add_sub_cancel]
    rw [splitAux_skip]

/-- No occurrence of `bucket=` starts inside a text that holds none, when what
follows the text is empty or starts with a comma or a `b`. -/
theorem no_bucket_in (A r : Str) (hA : ¬ ("bucket=".toList <:+: A))
    (hr : ∀ y ∈ r.head?, y = ',' ∨ y = 'b') :
    ∀ u w, A = u ++ w → w ≠ [] → "bucket=".toList.isPrefixOf (w ++ r) = false := by
  intro u w e hw
  by_contra hcon
  have hp : "bucket=".toList <+: w ++ r := by
    rw [← List.isPrefixOf_iff_prefix]
    simpa using hcon
  rcases List.prefix_or_prefix_of_prefix hp (List.prefix_append w r) with h1 | h1
  · apply hA
    obtain ⟨t, ht⟩ := h1
    exact ⟨u, t, by rw [e, ← ht]; simp⟩
  · obtain ⟨q, hq⟩ := h1
    cases q with
    | nil =>
      apply hA
      rw [List.append_nil] at hq
      exact ⟨u, [], by rw [e, hq]; simp⟩
    | cons y q =>
      rw [← hq, List.prefix_append_right_inj] at hp
      obtain ⟨t, ht⟩ := hp
      have hy : y = ',' ∨ y = 'b' := hr y (by rw [← ht]; simp)
      cases w with
      | nil => exact hw rfl
      | cons a w =>
        have hmem : y ∈ ['u', 'c', 'k', 'e', 't', '='] := by
          have h2 : w ++ y :: q = ['u', 'c', 'k', 'e', 't', '='] := by
            have := hq
            simp at this
            exact this.2
          rw [← h2]
          simp
        rcases hy with rfl | rfl
        · revert hmem; decide
        · revert hmem; decide

/-- No occurrence of `bucket=` starts inside `actions=`. -/
theorem no_bucket_in_actions (v : Str) :
    ∀ u w, "actions=".toList = u ++ w → w ≠ [] → "bucket=".toList.isPrefixOf (w ++ v) = false := by
  intro u w e hw
  cases w with
  | nil => exact absurd rfl hw
  | cons x w =>
    have hx : x ∈ "actions=".toList := by rw [e]; simp
    have hb : ¬ 'b' = x := by
      intro h
      subst h
      revert hx
      decide
    simp [List.isPrefixOf, hb]

/-- Splitting the last bucket section. -/
theorem splitAux_last_section (A : Str) (hA : ¬ ("bucket=".toList <:+: A)) :
    splitAux "bucket=".toList 0 ("actions=".toList ++ A) = ["actions=".toList ++ A] := by
  have h0 : splitAux "bucket=".toList 0 ([] : Str) = [] :: [] := rfl
  have h1 := splitAux_pass "bucket=".toList [] [] [] h0 A
    (no_bucket_in A [] hA (by simp))
  simp only [List.append_nil] at h1
  have h2 := splitAux_pass "bucket=".toList (A ++ []) A [] (by simpa using h1)
    "actions=".toList (no_bucket_in_actions _)
  simpa using h2

/-- Splitting a bucket section that another one follows. -/
theorem splitAux_section (A : Str) (c : Bool) (v : Str) (hA : ¬ ("bucket=".toList <:+: A)) :
    splitAux "bucket=".toList 0 ("actions=".toList ++ A ++ commaText c ++ "bucket=".toList ++ v)
      = ("actions=".toList ++ A ++ commaText c) :: splitAux "bucket=".toList 0 v := by
  have h0 : splitAux "bucket=".toList 0 ("bucket=".toList ++ v)
      = [] :: splitAux "bucket=".toList 0 v := splitAux_sep _ _ (by simp)
  have h1 : splitAux "bucket=".toList 0 (commaText c ++ ("bucket=".toList ++ v))
      = (commaText c ++ []) :: splitAux "bucket=".toList 0 v := by
    apply splitAux_pass _ _ _ _ h0
    intro u w e hw
    cases c with
    | false =>
      simp only [commaText, Bool.false_eq_true, if_false] at e
      have : w = [] := (List.append_eq_nil.mp e.symm).2
      exact absurd this hw
    | true =>
      simp only [commaText, if_true] at e
      cases w with
      | nil => exact absurd rfl hw
      | cons x w =>
        have hx : x ∈ [','] := by rw [e]; simp
        have hx2 : x = ',' := by simpa using hx
        subst hx2
        simp [List.isPrefixOf]
  have h2 := splitAux_pass "bucket=".toList _ _ _ h1 A
    (no_bucket_in A _ hA (by
      intro y hy
      cases c with
      | false => right; simpa [commaText] using hy.symm
      | true => left; simpa [commaText] using hy.symm))
  have h3 := splitAux_pass "bucket=".toList _ _ _ h2 "actions=".toList (no_bucket_in_actions _)
  simpa using h3

theorem Split_bucket_eq (s : Str) : Split s "bucket=".toList = splitAux "bucket=".toList 0 s := by
  simp [Split]

/-- The entries of a bucket tail made of sections `actions=A`: one entry per
section, with its actions, in order. -/
theorem buckets_of_sections :
    ∀ (rest : List (Bool × Str)) (A : Str),
      (∀ B ∈ A :: rest.map Prod.snd,
        '\n' ∉ B ∧ ¬ ("bucket=".toList <:+: B) ∧ B.getLast? ≠ some ',') →
      (Split (bucketsText A rest) "bucket=".toList).map bucketEntryOf
        = (A :: rest.map Prod.snd).map (fun B => { Actions := B, Packets := 0, Bytes := 0 })
  | [], A, h => by
    obtain ⟨h1, h2, h3⟩ := h A (by simp)
    rw [Split_bucket_eq, bucketsText, splitAux_last_section A h2]
    have := bucketEntryOf_actions A false h1 (fun _ => h3)
    simp only [commaText, Bool.false_eq_true, if_false, List.append_nil] at this
    simp only [List.map_cons, List.map_nil, this]
  | (c, A1) :: rest, A, h => by
    obtain ⟨h1, h2, h3⟩ := h A (by simp)
    have ih := buckets_of_sections rest A1 (fun B hB => h B (by
      simp only [List.map_cons, List.mem_cons] at hB ⊢
      exact Or.inr hB))
    rw [Split_bucket_eq] at ih ⊢
    rw [bucketsText, splitAux_section A c _ h2]
    simp only [List.map_cons, ih, bucketEntryOf_actions A c h1 (fun _ => h3)]

end splitting
section headerSections

theorem bucketsText_no_newline :
    ∀ (rest : List (Bool × Str)) (A : Str), (∀ B ∈ A :: rest.map Prod.snd, '\n' ∉ B) →
      '\n' ∉ bucketsText A rest
  | [], A, h => by
    have hA := h A (by simp)
    simp [bucketsText, hA]
  | (c, A1) :: rest, A, h => by
    have hA := h A (by simp)
    have ih := bucketsText_no_newline rest A1 (fun B hB => h B (by
      simp only [List.map_cons, List.mem_cons] at hB ⊢
      exact Or.inr hB))
    cases c <;> simp [bucketsText, commaText, hA, ih]

/-- The named groups of a match of a pattern with four registers. -/
theorem capture_of_match_4 (r : Regexp) (n0 n1 n2 n3 : String) (hn : r.names = [n0, n1, n2, n3])
    (hd : [n0, n1, n2, n3].Nodup) (line c0 c1 c2 c3 : Str)
    (hm : r.FindStringSubmatch line = [c0, c1, c2, c3]) :
    r.capture line n1 = c1 ∧ r.capture line n2 = c2 ∧ r.capture line n3 = c3 := by
  simp only [List.nodup_cons, List.mem_cons, List.mem_singleton, List.not_mem_nil,
    not_or, List.nodup_nil, and_true, not_false_eq_true] at hd
  obtain ⟨⟨h01, h02, h03⟩, ⟨h12, h13⟩, h23⟩ := hd
  simp only [Regexp.capture, hm, hn]
  refine ⟨?_, ?_, ?_⟩
  · simp [List.indexOf_cons, h01, Ne.symm h01]
  · simp [List.indexOf_cons, h02, Ne.symm h02, h12, Ne.symm h12]
  · simp [List.indexOf_cons, h03, Ne.symm h03, h13, Ne.symm h13, h23, Ne.symm h23]

end headerSections

set_option maxRecDepth 100000 in
/-- C19 (counterexample): the header line `group_id=I, type=all,bucket=actions=drop`
whose id `I` is `1` followed by a newline.  `I` holds no comma, but the dot of
the group `groupid` does not match a newline, so the header pattern does not
match the line: the Group has an empty `GroupId` and no bucket. -/
theorem header_newline_counterexample :
    ',' ∉ "1\n".toList ∧
    groupsLine.FindStringSubmatch
      (headerText "1\n".toList "all".toList (bucketsText "drop".toList [])) = [] ∧
    (parseOpenFlowGroupsDumpLine
      (headerText "1\n".toList "all".toList (bucketsText "drop".toList []))).GroupId = [] ∧
    (parseOpenFlowGroupsDumpLine
      (headerText "1\n".toList "all".toList (bucketsText "drop".toList []))).GroupId
        ≠ "1\n".toList ∧
    (parseOpenFlowGroupsDumpLine
      (headerText "1\n".toList "all".toList (bucketsText "drop".toList []))).Buckets = [] := by
  refine ⟨?_, ?_, ?_, ?_, ?_⟩ <;> decide

/-- C19 (amended): on a header line `group_id=I, type=T,bucket=` followed by
sections `actions=A1`, ..., `actions=An` joined by `bucket=` or `,bucket=`, where
`I` holds no comma and no newline, `T` holds no comma, and each `Ai` holds no
newline and no `bucket=` and does not end in a comma, the header parser returns
the Group with `GroupId = I`, `GroupType = T`, zero counters, and exactly the
`n` buckets with actions `A1`, ..., `An`, in order, with zero counters; and when
nothing follows the first `bucket=` the Group has no buckets. -/
theorem header_sections (I T A : Str) (rest : List (Bool × Str)) (hI1 : ',' ∉ I)
    (hI2 : '\n' ∉ I) (hT : ',' ∉ T)
    (hB : ∀ B ∈ A :: rest.map Prod.snd,
      '\n' ∉ B ∧ ¬ ("bucket=".toList <:+: B) ∧ B.getLast? ≠ some ',') :
    parseOpenFlowGroupsDumpLine (headerText I T (bucketsText A rest))
      = { GroupId := I, GroupType := T, Duration := 0, Packets := 0, Bytes := 0,
          Buckets := (A :: rest.map Prod.snd).map
            (fun B => { Actions := B, Packets := 0, Bytes := 0 }) } ∧
    parseOpenFlowGroupsDumpLine (headerText I T [])
      = { GroupId := I, GroupType := T, Duration := 0, Packets := 0, Bytes := 0,
          Buckets := [] } := by
  constructor
  · have hnl := bucketsText_no_newline rest A (fun B hmem => (hB B hmem).1)
    have hm := groups_match I T (bucketsText A rest) hI1 hI2 hT hnl
    obtain ⟨e1, e2, e3⟩ := capture_of_match_4 groupsLine _ _ _ _ rfl (by decide) _ _ _ _ _ hm
    have hne : bucketsText A rest ≠ [] := by
      cases rest with
      | nil => simp [bucketsText]
      | cons p rest => obtain ⟨c, A1⟩ := p; simp [bucketsText]
    rw [groups_eq, e1, e2, e3, if_neg hne, buckets_of_sections rest A hB]
  · have hm := groups_match I T [] hI1 hI2 hT (by simp)
    obtain ⟨e1, e2, e3⟩ := capture_of_match_4 groupsLine _ _ _ _ rfl (by decide) _ _ _ _ _ hm
    rw [groups_eq, e1, e2, e3]
    simp

set_option maxRecDepth 100000 in
/-- Witness of C19 (amended): the header line of scenario S5, and the same
header with a comma before the second `bucket=`. -/
theorem header_sections_witness :
    parseOpenFlowGroupsDumpLine lineS5header
      = { GroupId := "7".toList, GroupType := "select".toList, Duration := 0, Packets := 0,
          Bytes := 0,
          Buckets := [{ Actions := "output:1".toList, Packets := 0, Bytes := 0 },
                      { Actions := "output:2".toList, Packets := 0, Bytes := 0 }] } ∧
    parseOpenFlowGroupsDumpLine
        "group_id=7, type=select,bucket=actions=output:1,bucket=actions=output:2".toList
      = { GroupId := "7".toList, GroupType := "select".toList, Duration := 0, Packets := 0,
          Bytes := 0,
          Buckets := [{ Actions := "output:1".toList, Packets := 0, Bytes := 0 },
                      { Actions := "output:2".toList, Packets := 0, Bytes := 0 }] } ∧
    parseOpenFlowGroupsDumpLine "group_id=7, type=select,bucket=".toList
      = { GroupId := "7".toList, GroupType := "select".toList, Duration := 0, Packets := 0,
          Bytes := 0, Buckets := [] } :=
  ⟨(header_sections "7".toList "select".toList "output:1".toList
      [(false, "output:2".toList)] (by decide) (by decide) (by decide) (by decide)).1,
    (header_sections "7".toList "select".toList "output:1".toList
      [(true, "output:2".toList)] (by decide) (by decide) (by decide) (by decide)).1,
    (header_sections "7".toList "select".toList "output:1".toList
      [] (by decide) (by decide) (by decide) (by decide)).2⟩

section statsMatch

/-- The match of `groupStatsLine` on a stats line `group_id=I,duration=Ds,counts`:
the groups are `I`, `D` and the counts. -/
theorem stats_match (I D counts : Str) (hI1 : ',' ∉ I) (hI2 : '\n' ∉ I) (hD : ',' ∉ D)
    (hc : '\n' ∉ counts) :
    groupStatsLine.FindStringSubmatch (statsText I D counts)
      = [statsText I D counts, I, D, counts] := by
  have hform : statsText I D counts = "group_id=".toList ++ (I ++ (",duration=".toList ++
      (D ++ ('s' :: (",".toList ++ counts))))) := by
    simp [statsText]
  have hsome : groupStatsLine.matchHere (statsText I D counts)
      = some [statsText I D counts, I, D, counts] := by
    simp only [Regexp.matchHere, groupStatsLine, groupStatsLineRE, RE.cat, RE.str, RE.manyNot]
    rw [hform]
    rw [RE.run_seq, RE.run_lit_append, RE.run_seq]
    refine RE.run_group_lazy _ _ _ _ _ _ _ (test_dot_of_not_mem _ hI2) ?_ ?_
    · intro u v e hv caps1
      cases v with
      | nil => exact absurd rfl hv
      | cons x v =>
        have hx : x ∈ I := by rw [e]; simp
        have hne : ¬ ',' = x := fun h => hI1 (h ▸ hx)
        rw [RE.run_seq]
        exact RE.run_lit_none _ _ _ _ (by simp [stripPrefix, hne])
    beta_reduce
    rw [RE.run_seq, RE.run_lit_append, RE.run_seq]
    refine RE.run_group_star_back _ _ _ _ _ _ _ _ (test_notChar_of_not_mem _ _ hD)
      (by simp [CClass.test]) (by simp [stopsAt, CClass.test]) ?_ ?_
    · beta_reduce
      rw [RE.run_seq, RE.run]
      rfl
    beta_reduce
    rw [show ∀ r : Str, 's' :: (",".toList ++ r) = "s,".toList ++ r from fun _ => rfl]
    rw [RE.run_seq, RE.run_lit_append]
    refine RE.run_group_rest _ _ _ _ _ _ (test_dot_of_not_mem _ hc) ?_
    rw [consumed_nil]
    simp [groupStatsLineNames]
  unfold Regexp.FindStringSubmatch
  rw [Regexp.search_of_matchHere _ _ _ hsome]

theorem starGreedy_exists (c : CClass) (k : Str → Option Caps) (P : Caps → Prop)
    (hk : ∀ t, ∃ X, k t = some X ∧ P X) : ∀ s, ∃ X, starGreedy c k s = some X ∧ P X
  | [] => hk []
  | x :: s => by
    obtain ⟨X, hX, hP⟩ := starGreedy_exists c k P hk s
    by_cases h : c.test x = true
    · exact ⟨X, by simp [starGreedy, h, hX], hP⟩
    · obtain ⟨Y, hY, hPY⟩ := hk (x :: s)
      exact ⟨Y, by simp [starGreedy, h, hY], hPY⟩

/-- The match of `countLine` on a segment `ref_count=R,packet_count=P,byte_count=B`
followed by anything that does not start with a digit: the groups are `R`, `P`
and `B`. -/
theorem count_match (R P B tail : Str) (hR : allDigits R = true) (hP : allDigits P = true)
    (hB : allDigits B = true) (ht : stopsAt .digit tail) :
    ∃ c0, countLine.FindStringSubmatch (countsText R P B tail) = [c0, R, P, B] := by
  have hform : countsText R P B tail = "ref_count=".toList ++ (R ++ (",packet_count=".toList ++
      (P ++ (",byte_count=".toList ++ (B ++ tail))))) := by
    simp [countsText]
  obtain ⟨X, hX, c0, hc0⟩ := starGreedy_exists CClass.dot
    (fun t => (fun (t : Str) (caps : Caps) => some (caps.set 0 (consumed (countsText R P B tail) t))) t
      ((((List.replicate countLine.names.length ([] : Str)).set 1 R).set 2 P).set 3 B))
    (fun X => ∃ c0, X = [c0, R, P, B])
    (fun t => ⟨_, rfl, consumed (countsText R P B tail) t, by
      simp [countLine, countLineNames]⟩) tail
  have hsome : countLine.matchHere (countsText R P B tail) = some X := by
    simp only [Regexp.matchHere, countLine, countLineRE, RE.cat, RE.str]
    rw [hform]
    rw [RE.run_seq, RE.run_lit_append, RE.run_seq]
    refine RE.run_group_digits _ _ _ _ _ _ hR (by simp [stopsAt, CClass.test]) ?_
    beta_reduce
    rw [RE.run_seq, RE.run_lit_append, RE.run_seq]
    refine RE.run_group_digits _ _ _ _ _ _ hP (by simp [stopsAt, CClass.test]) ?_
    beta_reduce
    rw [RE.run_seq, RE.run_lit_append, RE.run_seq]
    refine RE.run_group_digits _ _ _ _ _ _ hB ht ?_
    beta_reduce
    rw [RE.run, ← hform]
    exact hX
  refine ⟨c0, ?_⟩
  unfold Regexp.FindStringSubmatch
  rw [Regexp.search_of_matchHere _ _ _ hsome, hc0]

end statsMatch
section linkage

theorem Split_colon_head (seg0 more : Str) (h0 : ':' ∉ seg0)
    (hmore : ∀ y ∈ more.head?, y = ':') :
    ∃ rest, Split (seg0 ++ more) ":".toList = seg0 :: rest := by
  have hno : ∀ (v u w : Str), seg0 = u ++ w → w ≠ [] →
      (":".toList).isPrefixOf (w ++ v) = false := by
    intro v u w e hw
    cases w with
    | nil => exact absurd rfl hw
    | cons x w =>
      have hx : x ∈ seg0 := by rw [e]; simp
      have hne : ¬ ':' = x := fun h => h0 (h ▸ hx)
      simp [List.isPrefixOf, hne]
  have hS : ∀ s : Str, Split s ":".toList = splitAux ":".toList 0 s := by
    intro s
    simp [Split]
  rw [hS]
  cases more with
  | nil =>
    refine ⟨[], ?_⟩
    have := splitAux_pass ":".toList [] [] [] rfl seg0 (hno [])
    simpa using this
  | cons y more =>
    have hy : y = ':' := hmore y (by simp)
    subst hy
    refine ⟨splitAux ":".toList 0 more, ?_⟩
    have h1 : splitAux ":".toList 0 (':' :: more) = [] :: splitAux ":".toList 0 more :=
      splitAux_sep ":".toList more (by simp)
    have := splitAux_pass ":".toList (':' :: more) [] _ h1 seg0 (hno _)
    simpa using this

theorem fieldValue_of_digits (P : Str) (hP : allDigits P = true)
    (hr : (digitsVal P : Int) ≤ maxInt) : fieldValue P = (digitsVal P : Int) := by
  have hi : intOfText P = some (digitsVal P : Int) := by
    cases P with
    | nil => simp [allDigits] at hP
    | cons c rest =>
      have h1 : c ≠ '-' := by
        intro h
        have := allDigits_not_mem (c :: rest) '-' (by decide) hP
        exact this (by simp [h])
      have h2 : c ≠ '+' := by
        intro h
        have := allDigits_not_mem (c :: rest) '+' (by decide) hP
        exact this (by simp [h])
      simp [intOfText, h1, h2, hP]
  have hmin : minInt ≤ (digitsVal P : Int) := by
    have : (0 : Int) ≤ (digitsVal P : Int) := Int.ofNat_nonneg _
    have h0 : minInt ≤ 0 := by decide
    omega
  rw [← Atoi_fst, Atoi_of_inRange P _ hi hmin hr]

end linkage

set_option maxRecDepth 100000 in
/-- C12 (counterexample): the header line `group_id=7, type=select,bucket=actions=output:1`
gives a Group with id `7` and one bucket; with that Group stored under its id,
the stats line of scenario S5, which is for the id `7` and has three segments,
yields no Group: the parser stops with an index out of range. -/
theorem linkage_counterexample :
    parseOpenFlowGroupsDumpLine lineOneBucket
      = { GroupId := "7".toList, GroupType := "select".toList, Duration := 0, Packets := 0,
          Bytes := 0, Buckets := [{ Actions := "output:1".toList, Packets := 0, Bytes := 0 }] } ∧
    GroupIdMap.get [("7".toList, 0)] (parseOpenFlowGroupsDumpLine lineOneBucket).GroupId
      = some 0 ∧
    (Heap.ofGroups [parseOpenFlowGroupsDumpLine lineOneBucket]).group 0
      = some (parseOpenFlowGroupsDumpLine lineOneBucket) ∧
    groupStatsLine.capture lineS5stats "groupid" = "7".toList ∧
    (parseOpenFlowGroupStatsDumpLine lineS5stats [("7".toList, 0)]
        (Heap.ofGroups [parseOpenFlowGroupsDumpLine lineOneBucket])).bind
        (fun h => Run.ok h.toGroups)
      = Run.panic .indexOutOfRange := by
  refine ⟨?_, ?_, ?_, ?_, ?_⟩ <;> decide

/-- C12 (amended): group/stats linkage.  Let `g` be the Group that
`parseOpenFlowGroupsDumpLine` returns for a header line, held in memory at the
pointer `p` that the id map gives for its GroupId, and take the stats line
`group_id=<id>,duration=<d>s,<seg0><more>` with the same id, where the id holds
no comma and no newline, `<d>` is a decimal integer `dv` in the range of `int`,
`<seg0>` is `ref_count=R,packet_count=P,byte_count=B<tail>` with decimal
counters in the range of `int` and a tail without colon or newline that does
not start with a digit, and `<more>` is empty or starts at the colon of the
next segment and holds no newline.  When the line has at most one segment more
than `g` has buckets, `parseOpenFlowGroupStatsDumpLine` completes and the Group
at `p` keeps the GroupId and the GroupType of the header, has Duration `dv`,
Packets `P` and Bytes `B` of segment 0, and the Actions of the buckets in
header order. -/
theorem group_stats_linkage (header D R P B tail more : Str) (dv : Int) (g : Group)
    (m : GroupIdMap) (h : Heap) (p : Nat)
    (hg : parseOpenFlowGroupsDumpLine header = g)
    (hI1 : ',' ∉ g.GroupId) (hI2 : '\n' ∉ g.GroupId)
    (hD : intOfText D = some dv) (hD1 : minInt ≤ dv) (hD2 : dv ≤ maxInt)
    (hR : allDigits R = true) (hP : allDigits P = true) (hB : allDigits B = true)
    (hPr : (digitsVal P : Int) ≤ maxInt) (hBr : (digitsVal B : Int) ≤ maxInt)
    (ht1 : stopsAt .digit tail) (ht2 : ':' ∉ tail) (ht3 : '\n' ∉ tail)
    (hmore1 : ∀ y ∈ more.head?, y = ':') (hmore2 : '\n' ∉ more)
    (hm : m.get g.GroupId = some p) (hs : h.group p = some g)
    (hk : (Split (countsText R P B tail ++ more) ":".toList).length - 1 ≤ g.Buckets.length) :
    ∃ h' g', parseOpenFlowGroupStatsDumpLine
          (statsText g.GroupId D (countsText R P B tail ++ more)) m h = Run.ok h' ∧
      h'.group p = some g' ∧
      g'.GroupId = (parseOpenFlowGroupsDumpLine header).GroupId ∧
      g'.GroupType = (parseOpenFlowGroupsDumpLine header).GroupType ∧
      g'.Duration = dv ∧ g'.Packets = (digitsVal P : Int) ∧ g'.Bytes = (digitsVal B : Int) ∧
      g'.Buckets.map (fun b => b.Actions)
        = (parseOpenFlowGroupsDumpLine header).Buckets.map (fun b => b.Actions) := by
  rw [hg]
  have hRn := fun c hc => allDigits_not_mem R c hc hR
  have hPn := fun c hc => allDigits_not_mem P c hc hP
  have hBn := fun c hc => allDigits_not_mem B c hc hB
  have hDc : ',' ∉ D := intOfText_not_mem D dv ',' (by decide) (by decide) (by decide) hD
  have hnl : '\n' ∉ countsText R P B tail ++ more := by
    simp [countsText, hRn '\n' (by decide), hPn '\n' (by decide), hBn '\n' (by decide),
      ht3, hmore2]
  have hcol : ':' ∉ countsText R P B tail := by
    simp [countsText, hRn ':' (by decide), hPn ':' (by decide), hBn ':' (by decide), ht2]
  have hmatch := stats_match g.GroupId D (countsText R P B tail ++ more) hI1 hI2 hDc hnl
  obtain ⟨e1, e2, e3⟩ :=
    capture_of_match_4 groupStatsLine _ _ _ _ rfl (by decide) _ _ _ _ _ hmatch
  obtain ⟨rest, hsplit⟩ := Split_colon_head (countsText R P B tail) more hcol hmore1
  obtain ⟨c0, hcount⟩ := count_match R P B tail hR hP hB ht1
  obtain ⟨-, f2, f3⟩ :=
    capture_of_match_4 countLine _ _ _ _ rfl (by decide) _ _ _ _ _ hcount
  have hseg : statsSegments (statsText g.GroupId D (countsText R P B tail ++ more))
      = countsText R P B tail :: rest := by
    rw [statsSegments, e3, hsplit]
  have hk2 : (statsSegments (statsText g.GroupId D (countsText R P B tail ++ more))).length - 1
      ≤ g.Buckets.length := by
    rw [statsSegments, e3]
    exact hk
  obtain ⟨v, -, -, hrun, hview⟩ := stats_of_fit _ m h p g (by rw [e1]; exact hm) hs hk2
  refine ⟨_, statsUpdate (statsText g.GroupId D (countsText R P B tail ++ more)) g,
    hrun, hview, rfl, rfl, ?_, ?_, ?_, statsUpdate_actions _ _⟩
  · simp only [statsUpdate]
    rw [e2, ← Atoi_fst, Atoi_of_inRange D dv hD hD1 hD2]
  · simp only [statsUpdate]
    rw [hseg]
    simp only [List.headD_cons, segPackets]
    rw [f2, fieldValue_of_digits P hP hPr]
  · simp only [statsUpdate]
    rw [hseg]
    simp only [List.headD_cons, segBytes]
    rw [f3, fieldValue_of_digits B hB hBr]

set_option maxRecDepth 100000 in
/-- Witness of C12 (amended): scenario S5.  The header line gives a Group with
id `7`, type `select` and two buckets; after the stats line the Group has id
`7`, type `select`, Duration 30, Packets 100, Bytes 9000 and the Actions
`output:1` and `output:2`, in this order. -/
theorem group_stats_linkage_witness :
    ∃ h' g', parseOpenFlowGroupStatsDumpLine lineS5stats [("7".toList, 0)]
          (Heap.ofGroups [parseOpenFlowGroupsDumpLine lineS5header]) = Run.ok h' ∧
      h'.group 0 = some g' ∧
      g'.GroupId = "7".toList ∧ g'.GroupType = "select".toList ∧
      g'.Duration = 30 ∧ g'.Packets = 100 ∧ g'.Bytes = 9000 ∧
      g'.Buckets.map (fun b => b.Actions) = ["output:1".toList, "output:2".toList] := by
  have h := group_stats_linkage lineS5header "30".toList "1".toList "100".toList
    "9000".toList []
    ":ref_count=0,packet_count=60,byte_count=5400:ref_count=0,packet_count=40,byte_count=3600".toList
    30 (parseOpenFlowGroupsDumpLine lineS5header) [("7".toList, 0)]
    (Heap.ofGroups [parseOpenFlowGroupsDumpLine lineS5header]) 0 rfl (by decide) (by decide)
    (by decide) (by decide) (by decide) (by decide) (by decide) (by decide) (by decide)
    (by decide) (by simp [stopsAt]) (by decide) (by decide) (by simp) (by decide) (by decide)
    (by decide) (by decide)
  have e1 : (parseOpenFlowGroupsDumpLine lineS5header).GroupId = "7".toList := by decide
  have e2 : (parseOpenFlowGroupsDumpLine lineS5header).GroupType = "select".toList := by decide
  have e3 : (parseOpenFlowGroupsDumpLine lineS5header).Buckets.map (fun b => b.Actions)
      = ["output:1".toList, "output:2".toList] := by decide
  have e4 : statsText "7".toList "30".toList
      (countsText "1".toList "100".toList "9000".toList [] ++
        ":ref_count=0,packet_count=60,byte_count=5400:ref_count=0,packet_count=40,byte_count=3600".toList)
      = lineS5stats := by decide
  have d1 : ((digitsVal "100".toList : Nat) : Int) = 100 := by decide
  have d2 : ((digitsVal "9000".toList : Nat) : Int) = 9000 := by decide
  rw [e1, e2, e3, e4, d1, d2] at h
  exact h

end Ovs
